import Mathlib

/-!
# college-backend: authentication subsystem

A shallow embedding of the Go sources under `internal/` (controllers, middleware,
models, helpers) and the properties of the authentication state machine:
login, refresh, logout and the `AuthMiddleware` gate.

Conventions of the embedding.

* Instants (`time.Time`) are integers: nanoseconds since the Unix epoch.  A clock
  reading (`time.Now()`) is a natural number, a handler reads the clock once.  An
  instant built from a count of seconds (`time.Unix`) wraps as the `int64` seconds of a
  `time.Time` do.
* `time.Duration` is a signed 64-bit count of nanoseconds; arithmetic on it wraps.
* A JSON number is a `float64`; it is kept as the rational number it denotes, and the
  conversions to `int64` are explicit.
* The relational store is the list of rows of each table, in primary-key order.
  Statements succeed or fail as the rows decide (no row found, unique index violated);
  text columns are compared exactly.
  The two write statements of `Logout` can also fail for a reason outside the rows
  (`Faults`): the handler treats their errors differently, and the specification says
  how.  How the engine compares the integer key `id` with a bound value is a field of
  `Deps`.
* The external libraries (SHA-256, bcrypt, HMAC and the JWT text encoding) are the
  fields of `Deps`; the theorems quantify over them, and what a theorem assumes of
  them is among its hypotheses.
-/

namespace CollegeBackend

/-! ## Strings, time, environment -/

/-- Go `strings.HasPrefix s pre`. -/
def HasPrefix (s pre : String) : Bool :=
  pre.data.isPrefixOf s.data

/-- Go `strings.TrimPrefix s pre`. -/
def TrimPrefix (s pre : String) : String :=
  if HasPrefix s pre then String.mk (s.data.drop pre.data.length) else s

/-- Nanoseconds in a second. -/
def Second : Int := 1000000000

/-- Go `time.Hour`, in nanoseconds. -/
def Hour : Int := 3600 * Second

/-- Two-complement wrap of an integer into the `int64` range. -/
def wrapInt64 (x : Int) : Int :=
  (x + 2 ^ 63) % 2 ^ 64 - 2 ^ 63

/-- Go `t.Unix()`: whole seconds since the epoch of an instant given in nanoseconds. -/
def Unix (t : Int) : Int :=
  Int.fdiv t Second

/-- Seconds from January 1 of year 1 to the Unix epoch: the constant `unixToInternal` of
package `time`. -/
def unixToInternal : Int := 62135596800

/-- Go `time.Unix(sec, nsec)`, as the instant it denotes.  Nanoseconds outside
`[0, 1e9)` are carried into the seconds; a `time.Time` keeps its seconds as an `int64`
count from year 1, so the sum with the offset wraps. -/
def timeUnix (sec nsec : Int) : Int :=
  (wrapInt64 (sec + Int.fdiv nsec Second + unixToInternal) - unixToInternal) * Second
    + Int.fmod nsec Second

/-- Go `time.Unix(sec, 0)`: the instant of a Unix time in seconds. -/
def unixTime (sec : Int) : Int :=
  timeUnix sec 0

/-- The zero `time.Time` (January 1, year 1, 00:00 UTC) as a Unix instant. -/
def zeroTime : Int :=
  unixTime (-62135596800)

/-- Go `t.Truncate(d)`: `t` rounded down to a multiple of `d` since the zero time, `t`
itself when `d` is not positive. -/
def Truncate (t d : Int) : Int :=
  if d ≤ 0 then t else t - Int.fmod (t - zeroTime) d

/-- The process environment as read by `os.Getenv`: an unset variable reads as `""`. -/
structure Env where
  JWT_SECRET : String
  JWT_EXPIRES_HOURS : String
deriving DecidableEq, Repr

/-- Value of a decimal digit character, `none` for any other character. -/
def digitValue (c : Char) : Option Nat :=
  if '0' ≤ c ∧ c ≤ '9' then some (c.toNat - '0'.toNat) else none

/-- Reads a non-empty run of decimal digits, most significant first. -/
def parseDigits : List Char → Option Nat
  | [] => none
  | c :: cs =>
    cs.foldl (fun acc d => acc.bind (fun n => (digitValue d).map (fun v => 10 * n + v)))
      (digitValue c)

/-- Go `strconv.Atoi`: an optional sign followed by decimal digits, in the `int` (64-bit)
range; `none` stands for the returned error. -/
def Atoi (s : String) : Option Int :=
  let signed : Bool × List Char :=
    match s.data with
    | '-' :: rest => (true, rest)
    | '+' :: rest => (false, rest)
    | cs => (false, cs)
  match parseDigits signed.2 with
  | none => none
  | some n =>
    let v : Int := if signed.1 then -(n : Int) else (n : Int)
    if -(2 ^ 63 : Int) ≤ v ∧ v < 2 ^ 63 then some v else none

/-- `getJWTSecret` (the same function in `controllers` and in `middleware`). -/
def getJWTSecret (env : Env) : String :=
  if env.JWT_SECRET = "" then "your-secret-key" else env.JWT_SECRET

/-- `getJWTExpiresHours`: the access-token lifetime as a `time.Duration`. -/
def getJWTExpiresHours (env : Env) : Int :=
  if env.JWT_EXPIRES_HOURS = "" then wrapInt64 (Hour * 24)
  else
    match Atoi env.JWT_EXPIRES_HOURS with
    | none => wrapInt64 (Hour * 24)
    | some hours => wrapInt64 (Hour * hours)

/-! ## The JWT library (`github.com/golang-jwt/jwt/v5`), as the handlers use it -/

/-- A decoded JSON value of a claim, as `encoding/json` stores it in an `interface{}`: a
number is a `float64` (kept as the rational it denotes), `null` is the nil interface;
`other` stands for booleans, arrays and objects. -/
inductive JSONValue where
  | number (f : ℚ)
  | string (s : String)
  | null
  | other (raw : String)
deriving DecidableEq, Repr

/-- Go `jwt.MapClaims`: the claims object, as its list of members. -/
abbrev MapClaims := List (String × JSONValue)

/-- The signing methods registered by the library (`jwt.GetSigningMethod`). -/
inductive SigningMethod where
  | HS256 | HS384 | HS512
  | RS256 | RS384 | RS512
  | PS256 | PS384 | PS512
  | ES256 | ES384 | ES512
  | EdDSA
  | none
deriving DecidableEq, Repr

/-- Go `jwt.GetSigningMethod`: the method registered under a header `alg` value. -/
def GetSigningMethod (alg : String) : Option SigningMethod :=
  if alg = "HS256" then some .HS256
  else if alg = "HS384" then some .HS384
  else if alg = "HS512" then some .HS512
  else if alg = "RS256" then some .RS256
  else if alg = "RS384" then some .RS384
  else if alg = "RS512" then some .RS512
  else if alg = "PS256" then some .PS256
  else if alg = "PS384" then some .PS384
  else if alg = "PS512" then some .PS512
  else if alg = "ES256" then some .ES256
  else if alg = "ES384" then some .ES384
  else if alg = "ES512" then some .ES512
  else if alg = "EdDSA" then some .EdDSA
  else if alg = "none" then some .none
  else Option.none

/-- Go `method.Alg()`. -/
def SigningMethod.Alg : SigningMethod → String
  | .HS256 => "HS256" | .HS384 => "HS384" | .HS512 => "HS512"
  | .RS256 => "RS256" | .RS384 => "RS384" | .RS512 => "RS512"
  | .PS256 => "PS256" | .PS384 => "PS384" | .PS512 => "PS512"
  | .ES256 => "ES256" | .ES384 => "ES384" | .ES512 => "ES512"
  | .EdDSA => "EdDSA" | .none => "none"

/-- The Go type assertion `method.(*jwt.SigningMethodHMAC)`: the three HMAC methods. -/
def SigningMethod.isHMAC : SigningMethod → Bool
  | .HS256 | .HS384 | .HS512 => true
  | _ => false

/-- What the parser finds when it splits a token text at its dots and decodes the
segments (`Parser.ParseUnverified` and the signature segment). -/
inductive Segments where
  /-- The text does not have exactly three segments. -/
  | wrongCount
  /-- Three segments, one of which does not decode (base64 or JSON); the claims are
  present when the failure came after they were attached to the token. -/
  | malformed (claims : Option MapClaims)
  /-- Header `alg` member (when it is a string), claims, signed text (the first two
  segments as written) and signature. -/
  | decoded (alg : Option String) (claims : MapClaims) (signingInput sig : String)
deriving DecidableEq, Repr

/-- The external functions the handlers depend on. -/
structure Deps where
  /-- The function `helpers.SHA256Hash` (hex of `crypto/sha256`). -/
  SHA256Hash : String → String
  /-- The function `helpers.CheckPassword password hashedPassword` (bcrypt comparison). -/
  CheckPassword : String → String → Bool
  /-- HMAC of a text under a key, for each of the three HMAC methods. -/
  hmac : SigningMethod → String → String → String
  /-- Go `token.SigningString()`: encoded header (with the given `alg`) and claims. -/
  SigningString : String → MapClaims → String
  /-- Appends the encoded signature segment to a signing string. -/
  joinSignature : String → String → String
  /-- Splits and decodes a token text. -/
  decode : String → Segments
  /-- The database engine's reading of the condition `id = ?` for a bound value: the test
  it applies to the integer key column, `none` when it refuses the value with an error.
  (Engines differ on texts such as `07` or `7a`.) -/
  idEquals : JSONValue → Option (Int → Bool)

/-- Go `token.SignedString(key)` for a token made by `jwt.NewWithClaims(method, claims)`. -/
def SignedString (D : Deps) (method : SigningMethod) (claims : MapClaims) (key : String) :
    String :=
  D.joinSignature (D.SigningString method.Alg claims)
    (D.hmac method key (D.SigningString method.Alg claims))

/-- Go `method.Verify(signingInput, sig, key)` with a `[]byte` key: only the HMAC
methods accept such a key, and they compare the signature with the recomputed MAC. -/
def Verify (D : Deps) (method : SigningMethod) (signingInput sig key : String) : Bool :=
  method.isHMAC && decide (sig = D.hmac method key signingInput)

/-- The Go conversion `int64(f)` of a `float64`: the fraction is dropped (rounding toward
zero).  For a value outside the `int64` range Go leaves the result to the implementation;
it is the smallest `int64` on amd64, the value taken here. -/
def int64OfFloat (f : ℚ) : Int :=
  let whole := Int.tdiv f.num f.den
  if -(2 ^ 63 : Int) ≤ whole ∧ whole < 2 ^ 63 then whole else -(2 ^ 63)

/-- Go `math.Modf(f)`: the integer part of `f` (toward zero) and the fraction left. -/
def Modf (f : ℚ) : ℚ × ℚ :=
  let whole : ℚ := ((Int.tdiv f.num f.den : Int) : ℚ)
  (whole, f - whole)

/-- The package variable `jwt.TimePrecision`, which this program leaves at its default. -/
def TimePrecision : Int := Second

/-- The library function `newNumericDateFromSeconds`, with `NewNumericDate`:
`time.Unix(int64(round), int64(frac*1e9))` for `round, frac := math.Modf(f)`, truncated
to `TimePrecision`.  The product `frac*1e9` is taken exactly; the `float64` product can
differ from it by a rounding, which after the truncation changes the date only for a
negative `f` and then by one second: a date that is not after 1970 either way. -/
def newNumericDateFromSeconds (f : ℚ) : Int :=
  Truncate (timeUnix (int64OfFloat (Modf f).1) (int64OfFloat ((Modf f).2 * 1000000000)))
    TimePrecision

/-- A numeric-date claim as `MapClaims` reads it: absent, a date (the instant), or a
value of the wrong type. -/
inductive NumericDate where
  | absent
  | date (t : Int)
  | invalid
deriving DecidableEq, Repr

/-- Go `MapClaims.parseNumericDate`: a missing member and the number 0 both read as no
date, any other number as a date, any other value is an error. -/
def parseNumericDate (claims : MapClaims) (key : String) : NumericDate :=
  match claims.lookup key with
  | Option.none => .absent
  | some (.number f) => if f = 0 then .absent else .date (newNumericDateFromSeconds f)
  | some _ => .invalid

/-- The `exp` check of the default validator: an absent claim passes, a date passes
while the clock is strictly before it (`now.Before(exp)`). -/
def verifyExpiresAt (now : Int) (claims : MapClaims) : Bool :=
  match parseNumericDate claims "exp" with
  | .absent => true
  | .date t => decide (now < t)
  | .invalid => false

/-- The `nbf` check of the default validator: an absent claim passes, a date passes
once the clock has reached it (`!now.Before(nbf)`). -/
def verifyNotBefore (now : Int) (claims : MapClaims) : Bool :=
  match parseNumericDate claims "nbf" with
  | .absent => true
  | .date t => decide (t ≤ now)
  | .invalid => false

/-- Go `Validator.Validate` with no parser option: `exp` and `nbf` are checked when
present; `iat`, `aud`, `iss` and `sub` are not. -/
def Validate (now : Int) (claims : MapClaims) : Bool :=
  verifyExpiresAt now claims && verifyNotBefore now claims

/-- The `*jwt.Token` returned by `jwt.Parse` when it is not nil. -/
structure Token where
  /-- The field `token.Claims`, `none` for the nil interface. -/
  Claims : Option MapClaims
  Valid : Bool
deriving DecidableEq, Repr

/-- Go `jwt.Parse(tokenString, keyFunc)`: the returned token pointer (`none` for nil) and
whether an error is returned.  `keyFunc` sees the token's method and returns the key, or
`none` for an error.  A token is returned for every text of three segments, with
`Valid` set only when the signature verifies and the claims validate. -/
def Parse (D : Deps) (keyFunc : SigningMethod → Option String) (now : Int)
    (tokenString : String) : Option Token × Bool :=
  match D.decode tokenString with
  | .wrongCount => (Option.none, true)
  | .malformed claims => (some ⟨claims, false⟩, true)
  | .decoded alg claims signingInput sig =>
    match alg.bind GetSigningMethod with
    | Option.none => (some ⟨some claims, false⟩, true)
    | some method =>
      match keyFunc method with
      | Option.none => (some ⟨some claims, false⟩, true)
      | some key =>
        if Verify D method signingInput sig key then
          if Validate now claims then (some ⟨some claims, true⟩, false)
          else (some ⟨some claims, false⟩, true)
        else (some ⟨some claims, false⟩, true)

/-! ## The store (`internal/models`) -/

/-- Row of `users` (`models.User`). -/
structure User where
  ID : Int
  Username : String
  Password : String
  CreatedAt : Int
  UpdatedAt : Int
deriving DecidableEq, Repr

/-- Row of `refresh_tokens` (`models.RefreshToken`); `Token` carries a unique index. -/
structure RefreshToken where
  ID : Nat
  UserID : String
  Token : String
  ExpiresAt : Int
  Revoked : Bool
  CreatedAt : Int
  UpdatedAt : Int
deriving DecidableEq, Repr

/-- Row of `blacklisted_tokens` (`models.BlacklistedToken`); `TokenHash` carries a
unique index. -/
structure BlacklistedToken where
  ID : Nat
  TokenHash : String
  ExpiresAt : Int
  CreatedAt : Int
  UpdatedAt : Int
deriving DecidableEq, Repr

/-- Row of `participants` (`models.Participant`); dates are instants. -/
structure Participant where
  ID : String
  Name : String
  Place : String
  BirthDate : Int
  Kampus : String
  Jurusan : String
  Angkatan : String
  Phone : String
  CreatedAt : Int
  UpdatedAt : Int
deriving DecidableEq, Repr

/-- The database: the four migrated tables. -/
structure DB where
  users : List User
  refresh_tokens : List RefreshToken
  blacklisted_tokens : List BlacklistedToken
  participants : List Participant
deriving DecidableEq, Repr

/-- Next value of an auto-incremented primary key: one more than the largest in use. -/
def nextID (ids : List Nat) : Nat :=
  ids.foldl max 0 + 1

/-- The query `Where("username = ?", username).First(&user)`. -/
def findUserByUsername (db : DB) (username : String) : Option User :=
  db.users.find? (fun u => decide (u.Username = username))

/-- Outcome of a query `First(&user)`: the row found, `gorm.ErrRecordNotFound`, or any
other error. -/
inductive UserLookup where
  | found (user : User)
  | notFound
  | failed
deriving DecidableEq, Repr

/-- The query `Where("id = ?", id).First(&user)` for a bound Go value: the first row, in
key order, that the engine's comparison selects. -/
def findUserByValue (D : Deps) (db : DB) (id : JSONValue) : UserLookup :=
  match D.idEquals id with
  | none => .failed
  | some test =>
    match db.users.find? (fun u => test u.ID) with
    | some user => .found user
    | none => .notFound

/-- The query `Where("id = ?", id).First(&user)` with the id given as text, as
`RefreshToken.UserID` and the path parameter of `GetUserById` hold it. -/
def findUserByID (D : Deps) (db : DB) (id : String) : UserLookup :=
  findUserByValue D db (.string id)

/-- The query `Where("token = ? AND revoked = ? AND expires_at > ?", token, false, now)
.First(&rt)`. -/
def findRefreshToken (db : DB) (token : String) (now : Int) : Option RefreshToken :=
  db.refresh_tokens.find?
    (fun r => decide (r.Token = token) && !r.Revoked && decide (r.ExpiresAt > now))

/-- The query `Where("token_hash = ? AND expires_at > ?", hash, now).First(&blacklisted)`. -/
def findBlacklisted (db : DB) (hash : String) (now : Int) : Option BlacklistedToken :=
  db.blacklisted_tokens.find?
    (fun b => decide (b.TokenHash = hash) && decide (b.ExpiresAt > now))

/-- The statement `DB.Create(&rt)` for a refresh token: fails (`none`) when the unique
index on `token` is violated, otherwise appends the row with a fresh key and the
creation timestamps. -/
def createRefreshToken (db : DB) (now : Int) (userID token : String) (expiresAt : Int)
    (revoked : Bool) : Option DB :=
  if db.refresh_tokens.any (fun r => decide (r.Token = token)) then none
  else
    some { db with
      refresh_tokens := db.refresh_tokens ++
        [{ ID := nextID (db.refresh_tokens.map (fun r => r.ID)), UserID := userID,
           Token := token, ExpiresAt := expiresAt, Revoked := revoked,
           CreatedAt := now, UpdatedAt := now }] }

/-- The hook `BlacklistedToken.BeforeCreate`: stamps the row and defaults a zero
`ExpiresAt` to 24 hours from now. -/
def BeforeCreate (now : Int) (bt : BlacklistedToken) : BlacklistedToken :=
  { bt with
    CreatedAt := now, UpdatedAt := now,
    ExpiresAt := if bt.ExpiresAt = zeroTime then now + 24 * Hour else bt.ExpiresAt }

/-- The statement `DB.Create(&blacklistedToken)`: runs the hook, fails (`none`) when the
unique index on `token_hash` is violated, otherwise appends the row with a fresh key. -/
def createBlacklistedToken (db : DB) (now : Int) (tokenHash : String) (expiresAt : Int) :
    Option DB :=
  if db.blacklisted_tokens.any (fun b => decide (b.TokenHash = tokenHash)) then none
  else
    some { db with
      blacklisted_tokens := db.blacklisted_tokens ++
        [BeforeCreate now
          { ID := nextID (db.blacklisted_tokens.map (fun b => b.ID)), TokenHash := tokenHash,
            ExpiresAt := expiresAt, CreatedAt := 0, UpdatedAt := 0 }] }

/-- The statement `Model(&RefreshToken{}).Where("token = ? AND revoked = ? AND
expires_at > ?", token, false, now).Update("revoked", true)`: every matching row gets
`revoked = true` and a new `updated_at`. -/
def revokeRefreshToken (db : DB) (token : String) (now : Int) : DB :=
  { db with
    refresh_tokens := db.refresh_tokens.map (fun r =>
      if r.Token = token ∧ r.Revoked = false ∧ r.ExpiresAt > now then
        { r with Revoked := true, UpdatedAt := now }
      else r) }

/-! ## Requests and responses (`internal/helpers/response.go`) -/

/-- Body of `POST /api/login` (`controllers.LoginRequest`). -/
structure LoginRequest where
  Username : String
  Password : String
deriving DecidableEq, Repr

/-- What a handler reads of a request: the `Authorization` header (`""` when absent),
the two cookies (`none` when absent) and the JSON body (`none` when it does not decode
into a `LoginRequest`). -/
structure Request where
  Authorization : String
  admin_token : Option String
  refresh_token : Option String
  body : Option LoginRequest
deriving DecidableEq, Repr

/-- A `Set-Cookie` written with `http.SetCookie`. -/
structure SetCookie where
  Name : String
  Value : String
  Path : String
  Expires : Option Int
  MaxAge : Int
  HttpOnly : Bool
  Secure : Bool
  SameSite : String
deriving DecidableEq, Repr

/-- A response: status code, the `message` (or `error`) text, the members of `data` the
handlers fill (`token`, `username`) and the cookies set. -/
structure Response where
  status : Nat
  message : String
  token : Option String
  username : Option JSONValue
  cookies : List SetCookie
deriving DecidableEq, Repr

/-- The helper `helpers.ResponseError`. -/
def ResponseError (statusCode : Nat) (message : String) : Response :=
  { status := statusCode, message := message, token := none, username := none, cookies := [] }

/-- The helper `helpers.ResponseBadRequest`. -/
def ResponseBadRequest (message : String) : Response :=
  ResponseError 400 message

/-- The helper `helpers.ResponseUnauthorized`. -/
def ResponseUnauthorized (message : String) : Response :=
  ResponseError 401 message

/-- The helper `helpers.ResponseInternalServerError`. -/
def ResponseInternalServerError (message : String) : Response :=
  ResponseError 500 message

/-- The values `AuthMiddleware` stores in the request context: `claims["user_id"]` and
`claims["username"]` (`none` for a member the claims do not have, which Go reads as the
nil interface, like `null`). -/
structure Context where
  user_id : Option JSONValue
  username : Option JSONValue
deriving DecidableEq, Repr

/-- How a protected request leaves `AuthMiddleware`: aborted with a response, or passed
on to the next handler (`c.Next()`) with the context values set, if any. -/
inductive AuthResult where
  | abort (resp : Response)
  | next (ctx : Option Context)
deriving DecidableEq, Repr

/-- How a handler ends: with a response, or in a Go panic. -/
inductive Outcome where
  | responded (resp : Response)
  | panicked
deriving DecidableEq, Repr

/-- Status code of an outcome; a panic has none. -/
def Outcome.status : Outcome → Option Nat
  | .responded resp => some resp.status
  | .panicked => none

/-- Go `c.ShouldBindJSON(&req)` for `LoginRequest`: the body must decode and both
fields, tagged `binding:"required"`, must be non-empty. -/
def ShouldBindJSON (body : Option LoginRequest) : Option LoginRequest :=
  match body with
  | none => none
  | some req => if req.Username = "" ∨ req.Password = "" then none else some req

/-! ## `internal/middleware/auth.go` -/

/-- The token text `AuthMiddleware` works on: the `Authorization` header without its
`Bearer ` prefix, else the `admin_token` cookie, else `""`. -/
def extractToken (req : Request) : String :=
  if req.Authorization ≠ "" ∧ HasPrefix req.Authorization "Bearer " = true then
    TrimPrefix req.Authorization "Bearer "
  else
    match req.admin_token with
    | some cookieToken => if cookieToken ≠ "" then cookieToken else ""
    | none => ""

/-- The key function of `AuthMiddleware`: the secret for an HMAC method, an error for any
other. -/
def middlewareKeyFunc (env : Env) (method : SigningMethod) : Option String :=
  if method.isHMAC then some (getJWTSecret env) else none

/-- `AuthMiddleware`, on a store and a clock reading. -/
def AuthMiddleware (D : Deps) (env : Env) (now : Nat) (db : DB) (req : Request) :
    AuthResult :=
  let tokenString := extractToken req
  if tokenString = "" then
    .abort (ResponseUnauthorized "Token required (Authorization header or cookie)")
  else
    let hash := D.SHA256Hash tokenString
    match findBlacklisted db hash now with
    | some _ => .abort (ResponseUnauthorized "Token is blacklisted. Please login again.")
    | none =>
      match Parse D (middlewareKeyFunc env) now tokenString with
      | (some token, false) =>
        if token.Valid then
          match token.Claims with
          | some claims => .next (some ⟨claims.lookup "user_id", claims.lookup "username"⟩)
          | none => .next none
        else .abort (ResponseUnauthorized "Invalid or expired token")
      | _ => .abort (ResponseUnauthorized "Invalid or expired token")

/-! ## `internal/controllers/auth_controller.go` -/

/-- The claims of an access token minted at `now` for a user (`Login`, `RefreshToken`). -/
def accessClaims (env : Env) (now : Nat) (user : User) : MapClaims :=
  [("user_id", .number (user.ID : ℚ)),
   ("username", .string user.Username),
   ("exp", .number (Unix ((now : Int) + getJWTExpiresHours env) : ℚ)),
   ("iat", .number (Unix (now : Int) : ℚ))]

/-- The access token minted at `now` for a user: HS256 over `accessClaims` under
`getJWTSecret`. -/
def mintAccessToken (D : Deps) (env : Env) (now : Nat) (user : User) : String :=
  SignedString D .HS256 (accessClaims env now user) (getJWTSecret env)

/-- Lifetime of a refresh token: `7 * 24 * time.Hour`. -/
def refreshLifetime : Int :=
  7 * 24 * Hour

/-- The `refresh_token` cookie set by `Login`. -/
def refreshCookie (now : Nat) (refreshToken : String) : SetCookie :=
  let refreshExpires : Int := (now : Int) + refreshLifetime
  let durasiCookie : Int := Int.tdiv (refreshExpires - (now : Int)) Second
  { Name := "refresh_token", Value := refreshToken, Path := "/",
    Expires := some refreshExpires,
    MaxAge := if durasiCookie < 0 then 0 else durasiCookie,
    HttpOnly := true, Secure := false, SameSite := "Lax" }

/-- The cookie with which `Logout` clears `refresh_token`. -/
def clearedRefreshCookie : SetCookie :=
  { Name := "refresh_token", Value := "", Path := "/", Expires := none, MaxAge := -1,
    HttpOnly := true, Secure := false, SameSite := "Lax" }

/-- Errors of the two write statements of `Logout` that the rows do not decide (a lost
connection, a full disk, a value the engine cannot store): a statement so marked returns
an error and leaves its table as it was. -/
structure Faults where
  insert : Bool
  update : Bool
deriving DecidableEq, Repr

/-- No statement fails for a reason outside the rows. -/
def noFaults : Faults :=
  { insert := false, update := false }

namespace AuthController

/-- `AuthController.Login`.  `rand` is the result of `helpers.GenerateRandomToken(32)`,
`none` when it returns an error. -/
def Login (D : Deps) (env : Env) (now : Nat) (rand : Option String) (db : DB)
    (req : Request) : Response × DB :=
  match ShouldBindJSON req.body with
  | none => (ResponseBadRequest "invalid request body", db)
  | some body =>
    match findUserByUsername db body.Username with
    | none => (ResponseUnauthorized "Username tidak ditemukan", db)
    | some user =>
      if !D.CheckPassword body.Password user.Password then
        (ResponseUnauthorized "Password salah", db)
      else
        let tokenString := mintAccessToken D env now user
        match rand with
        | none => (ResponseInternalServerError "Failed to generate refresh token", db)
        | some refreshToken =>
          let refreshExpires : Int := (now : Int) + refreshLifetime
          match createRefreshToken db now (toString user.ID) refreshToken refreshExpires
              false with
          | none => (ResponseInternalServerError "Failed to save refresh token", db)
          | some db1 =>
            ({ status := 200, message := "Login Berhasil", token := some tokenString,
               username := none, cookies := [refreshCookie now refreshToken] }, db1)

/-- `AuthController.RefreshToken`. -/
def RefreshToken (D : Deps) (env : Env) (now : Nat) (db : DB) (req : Request) :
    Response × DB :=
  match req.refresh_token with
  | none => (ResponseUnauthorized "Refresh token cookie required", db)
  | some refreshToken =>
    if refreshToken = "" then (ResponseUnauthorized "Refresh token cookie required", db)
    else
      match findRefreshToken db refreshToken now with
      | none => (ResponseUnauthorized "Invalid or expired refresh token", db)
      | some rt =>
        match findUserByID D db rt.UserID with
        | .found user =>
          ({ status := 200, message := "Token refreshed",
             token := some (mintAccessToken D env now user),
             username := some (.string user.Username), cookies := [] }, db)
        | _ => (ResponseInternalServerError "User not found", db)

/-- The expiry `Logout` gives the blacklist entry, in Unix seconds: the `exp` claim,
converted with `int64(v)`, of a token that parsed as valid when that claim is a number,
else now plus the configured lifetime. -/
def blacklistExpiry (env : Env) (now : Nat) (token : Token) : Int :=
  let exp : Int := Unix ((now : Int) + getJWTExpiresHours env)
  match token.Claims with
  | some claims =>
    if token.Valid then
      match claims.lookup "exp" with
      | some (.number v) => int64OfFloat v
      | _ => exp
    else exp
  | none => exp

/-- `AuthController.Logout`.  `ctx` holds the context values left by the middleware, if
it ran.  The parse result is used without a nil check, so a nil token panics at
`token.Claims`.  The insert (`ac.DB.Create(&blacklistedToken)`) returns an error when
it is marked faulty or when the unique index refuses the row: the handler logs, answers
500 and returns.  The update (`...Update("revoked", true)`) returns an error when it is
marked faulty: the handler only logs and goes on to clear the cookie and answer 200. -/
def Logout (F : Faults) (D : Deps) (env : Env) (now : Nat) (db : DB) (req : Request)
    (ctx : Option Context) : Outcome × DB :=
  let authHeader := req.Authorization
  if authHeader = "" ∨ HasPrefix authHeader "Bearer " = false then
    (.responded (ResponseUnauthorized "Authorization header required (Bearer <token>)"), db)
  else
    let tokenString := TrimPrefix authHeader "Bearer "
    match req.refresh_token with
    | none => (.responded (ResponseBadRequest "refresh_token cookie required"), db)
    | some refreshToken =>
      if refreshToken = "" then
        (.responded (ResponseBadRequest "refresh_token cookie required"), db)
      else
        let hash := D.SHA256Hash tokenString
        match (Parse D (fun _ => some (getJWTSecret env)) now tokenString).1 with
        | none => (.panicked, db)
        | some token =>
          match (if F.insert then none
              else createBlacklistedToken db now hash
                (unixTime (blacklistExpiry env now token))) with
          | none =>
            (.responded (ResponseInternalServerError "Gagal menyimpan token ke blacklist"), db)
          | some db1 =>
            (.responded
              { status := 200, message := "Logout successful", token := none,
                username := ctx.bind (fun c => c.username),
                cookies := [clearedRefreshCookie] },
             if F.update then db1 else revokeRefreshToken db1 refreshToken now)

end AuthController


/-! ## A small concrete instance of the dependencies -/

/-- Text of a JSON value in the sample encoding. -/
def sampleValue : JSONValue → String
  | .number f => if f.den = 1 then toString f.num else toString f.num ++ "/" ++ toString f.den
  | .string s => s
  | .null => "null"
  | .other raw => raw

/-- Text of a claims object in the sample encoding. -/
def sampleClaims (claims : MapClaims) : String :=
  String.join (claims.map (fun kv => kv.1 ++ "=" ++ sampleValue kv.2 ++ ";"))

/-- Token text of the sample encoding: header `alg`, claims and signature, dot-separated. -/
def sampleText (alg : String) (claims : MapClaims) (sig : String) : String :=
  alg ++ "." ++ sampleClaims claims ++ "." ++ sig

/-- A concrete `Deps` with transparent stand-ins for the digests, a decoder that
recognises the token texts of a given list of (header `alg`, claims, signature), and an
engine that reads a text bound to `id = ?` as a decimal integer. -/
def sampleDeps (known : List (String × MapClaims × String)) : Deps where
  SHA256Hash s := "sha256:" ++ s
  CheckPassword password hashed := decide (hashed = "bcrypt:" ++ password)
  hmac method key text := "mac:" ++ method.Alg ++ ":" ++ key ++ ":" ++ text
  SigningString alg claims := alg ++ "." ++ sampleClaims claims
  joinSignature text sig := text ++ "." ++ sig
  decode s :=
    match known.find? (fun k => decide (sampleText k.1 k.2.1 k.2.2 = s)) with
    | some k => .decoded (some k.1) k.2.1 (k.1 ++ "." ++ sampleClaims k.2.1) k.2.2
    | none =>
      if (s.data.filter (fun c => decide (c = '.'))).length = 2 then .malformed none
      else .wrongCount
  idEquals id :=
    match id with
    | .number f => some (fun key => decide ((key : ℚ) = f))
    | .string s => some (fun key => decide (Atoi s = some key))
    | _ => none

/-- The environment with nothing set: development secret, 24-hour lifetime. -/
def sampleEnv : Env :=
  { JWT_SECRET := "", JWT_EXPIRES_HOURS := "" }

/-- The empty database. -/
def emptyDB : DB :=
  { users := [], refresh_tokens := [], blacklisted_tokens := [], participants := [] }

/-- A request that carries only an `Authorization: Bearer` header with the given token. -/
def bearerRequest (tokenString : String) : Request :=
  { Authorization := "Bearer " ++ tokenString, admin_token := none, refresh_token := none,
    body := none }

/-! ## Properties of an access token, as the specification words them -/

/-- The downstream handler runs: the middleware reaches `c.Next()`. -/
def handlerRuns (r : AuthResult) : Prop :=
  ∃ ctx, r = .next ctx

/-- The token's signature verifies under the current secret: the text decodes, its header
names a registered method, and that method verifies the signature with `getJWTSecret`. -/
def signatureVerifies (D : Deps) (env : Env) (tokenString : String) : Prop :=
  ∃ alg claims signingInput sig method,
    D.decode tokenString = .decoded (some alg) claims signingInput sig ∧
    GetSigningMethod alg = some method ∧
    Verify D method signingInput sig (getJWTSecret env) = true

/-- No blacklist entry has the token's hash and an `expires_at` after now. -/
def notBlacklisted (D : Deps) (db : DB) (now : Nat) (tokenString : String) : Prop :=
  ∀ b ∈ db.blacklisted_tokens,
    ¬ (b.TokenHash = D.SHA256Hash tokenString ∧ b.ExpiresAt > (now : Int))

/-- The largest count of Unix seconds a `time.Time` holds without wrapping, plus one:
`2^63` less the seconds from year 1 to 1970. -/
def timeLimit : Int := 2 ^ 63 - unixToInternal

/-- A number of seconds is a date after now: its whole seconds are below `timeLimit` and
lie after now.  (A number from `timeLimit` on is read by the library as a date in the
far past, a negative number as a date before 1970.) -/
def dateAfter (now : Nat) (e : ℚ) : Prop :=
  ⌊e⌋ < timeLimit ∧ (now : Int) < ⌊e⌋ * Second

/-- The dates of a claims object allow its use now: `exp` is missing, or the number 0, or
a number that is a date after now; `nbf` is missing, or the number 0, or a number that is
not a date after now. -/
def claimsInForce (now : Nat) (claims : MapClaims) : Prop :=
  (claims.lookup "exp" = none ∨ claims.lookup "exp" = some (.number 0) ∨
    ∃ e, claims.lookup "exp" = some (.number e) ∧ dateAfter now e) ∧
  (claims.lookup "nbf" = none ∨ claims.lookup "nbf" = some (.number 0) ∨
    ∃ n, claims.lookup "nbf" = some (.number n) ∧ ¬ dateAfter now n)

/-- One request served, as it changes the store.  `Login`, `RefreshToken` and `Logout`
are the handlers above, called with any input at any time (with or without the
middleware in front), `Logout` with any faults of its write statements; the participant
handlers (`participant_controller.go`) read and write only the `participants` table;
`GetProfile` and `GetUserById` only read. -/
inductive Step (D : Deps) (env : Env) : DB → DB → Prop where
  | login (now : Nat) (rand : Option String) (db : DB) (req : Request) :
      Step D env db (AuthController.Login D env now rand db req).2
  | refresh (now : Nat) (db : DB) (req : Request) :
      Step D env db (AuthController.RefreshToken D env now db req).2
  | logout (F : Faults) (now : Nat) (db : DB) (req : Request) (ctx : Option Context) :
      Step D env db (AuthController.Logout F D env now db req ctx).2
  | participants (db : DB) (rows : List Participant) :
      Step D env db { db with participants := rows }

/-- The store `db2` is the store `db1` after any number of served requests. -/
def Reachable (D : Deps) (env : Env) (db1 db2 : DB) : Prop :=
  Relation.ReflTransGen (Step D env) db1 db2

/-- The text encoding round-trips on the token signed from the given claims: decoding
`SignedString` gives back the header `alg`, the claims, the signed text and the
signature. -/
def DecodesSigned (D : Deps) (method : SigningMethod) (claims : MapClaims) (key : String) :
    Prop :=
  D.decode (SignedString D method claims key)
    = .decoded (some method.Alg) claims (D.SigningString method.Alg claims)
        (D.hmac method key (D.SigningString method.Alg claims))

/-- The sample user; her stored hash matches the password `wonderland`. -/
def alice : User :=
  { ID := 1, Username := "alice", Password := "bcrypt:wonderland", CreatedAt := 0,
    UpdatedAt := 0 }

/-- The store holding only the sample user. -/
def aliceDB : DB :=
  { users := [alice], refresh_tokens := [], blacklisted_tokens := [], participants := [] }

/-- The sample dependencies that know the access token minted for `alice` at time 0. -/
def aliceDeps : Deps :=
  sampleDeps [("HS256", accessClaims sampleEnv 0 alice,
    "mac:HS256:your-secret-key:HS256." ++ sampleClaims (accessClaims sampleEnv 0 alice))]

/-- The access token minted for `alice` at time 0. -/
def aliceToken : String :=
  mintAccessToken aliceDeps sampleEnv 0 alice

/-- The login request of `alice`. -/
def aliceLogin : Request :=
  { Authorization := "", admin_token := none, refresh_token := none,
    body := some { Username := "alice", Password := "wonderland" } }

/-- The logout request of `alice`: her access token as bearer, the refresh cookie `r1`. -/
def aliceLogout : Request :=
  { Authorization := "Bearer " ++ aliceToken, admin_token := none,
    refresh_token := some "r1", body := none }

/-- The store after `alice` has logged in at time 0 and drawn the refresh token `r1`. -/
def aliceLoggedIn : DB :=
  (AuthController.Login aliceDeps sampleEnv 0 (some "r1") aliceDB aliceLogin).2

/-- A refresh request carrying the cookie `r1`. -/
def aliceRefresh : Request :=
  { Authorization := "", admin_token := none, refresh_token := some "r1", body := none }

/-- The context values the middleware sets for a token of `alice`. -/
def aliceContext : Context :=
  { user_id := some (.number 1), username := some (.string "alice") }

/-! ## A session in the first hours of 1970, with a negative lifetime -/

/-- An environment that asks for a lifetime of minus one hour. -/
def pastLifetimeEnv : Env :=
  { JWT_SECRET := "", JWT_EXPIRES_HOURS := "-1" }

/-- The sample dependencies that know the access token minted for `alice` one hour after
the epoch under `pastLifetimeEnv`: its `exp` is the epoch itself, the number 0. -/
def epochDeps : Deps :=
  sampleDeps [("HS256", accessClaims pastLifetimeEnv 3600000000000 alice,
    "mac:HS256:your-secret-key:HS256." ++
      sampleClaims (accessClaims pastLifetimeEnv 3600000000000 alice))]

/-- A row that makes a cookie value usable: it holds the value, is not revoked and
expires after now. -/
def usableRow (R : String) (now : Nat) (row : RefreshToken) : Prop :=
  row.Token = R ∧ row.Revoked = false ∧ row.ExpiresAt > (now : Int)

/-- The user a refresh-token row belongs to: the first stored user whose `id` the
database engine finds equal to the row's `user_id` text. -/
def ownerOf (D : Deps) (db : DB) (row : RefreshToken) (user : User) : Prop :=
  ∃ test, D.idEquals (.string row.UserID) = some test ∧
    db.users.find? (fun u => test u.ID) = some user

/-- The engine reads the decimal text of an integer of the key's range (64 bits), as
`Login` writes it into `user_id`, as that integer. -/
def readsDecimal (D : Deps) : Prop :=
  ∀ id : Int, -(2 ^ 63 : Int) ≤ id → id < 2 ^ 63 →
    ∃ test, D.idEquals (.string (toString id)) = some test ∧
      ∀ key, test key = true ↔ key = id

/-- A refresh-token row whose `user_id` names no user. -/
def orphanRow : RefreshToken :=
  { ID := 1, UserID := "7", Token := "r7", ExpiresAt := 100, Revoked := false,
    CreatedAt := 0, UpdatedAt := 0 }

/-- A store with the orphan row and no user. -/
def orphanDB : DB :=
  { users := [], refresh_tokens := [orphanRow], blacklisted_tokens := [], participants := [] }

/-- A refresh request carrying the cookie `r7`. -/
def orphanRefresh : Request :=
  { Authorization := "", admin_token := none, refresh_token := some "r7", body := none }

/-- Sample token whose header says HS384, signed with HMAC-SHA384 under the development
secret. -/
def tokenHS384 : String :=
  sampleText "HS384" [] "mac:HS384:your-secret-key:HS384."

/-- Sample token whose header says `none`, with an empty signature. -/
def tokenNone : String :=
  sampleText "none" [] ""

/-- The sample dependencies that know the two tokens above. -/
def depsC9 : Deps :=
  sampleDeps [("HS384", [], "mac:HS384:your-secret-key:HS384."), ("none", [], "")]

/-! ## Logout, as the specification words it -/

/-- The token parses as valid with the given claims: it decodes to them, its signature
verifies under the current secret and its dates are in force. -/
def parsesValid (D : Deps) (env : Env) (now : Nat) (tokenString : String)
    (claims : MapClaims) : Prop :=
  (∃ alg signingInput sig, D.decode tokenString = .decoded alg claims signingInput sig) ∧
  signatureVerifies D env tokenString ∧ claimsInForce now claims

/-! ## The two write statements of `Logout` -/

/-- The revocation update fails, the insert does not. -/
def updateFault : Faults :=
  { insert := false, update := true }

/-- The call gets as far as the blacklist insert: bearer-shaped header, non-empty refresh
cookie, and a token text of three segments (so that `jwt.Parse` returns a token). -/
def reachesInsert (D : Deps) (req : Request) : Prop :=
  HasPrefix req.Authorization "Bearer " = true ∧
  (∃ R, req.refresh_token = some R ∧ R ≠ "") ∧
  D.decode (TrimPrefix req.Authorization "Bearer ") ≠ Segments.wrongCount

/-- The blacklist insert of the call fails: the statement is marked faulty, or an entry
with the hash of the bearer token is already stored. -/
def insertFails (F : Faults) (D : Deps) (db : DB) (req : Request) : Prop :=
  F.insert = true ∨
  ∃ b ∈ db.blacklisted_tokens,
    b.TokenHash = D.SHA256Hash (TrimPrefix req.Authorization "Bearer ")

/-! ## Where the middleware takes the token from -/

/-- The `Authorization` header is present and starts with `Bearer `. -/
def bearerShaped (req : Request) : Prop :=
  req.Authorization ≠ "" ∧ HasPrefix req.Authorization "Bearer " = true

/-- The header yields no token: it is missing, not bearer-shaped, or nothing follows the
`Bearer ` prefix. -/
def headerYieldsNoToken (req : Request) : Prop :=
  ¬ bearerShaped req ∨ TrimPrefix req.Authorization "Bearer " = ""

/-- A header value as `net/http` hands it to a handler: the reader of an HTTP/1.x request
strips the blanks around a header value, so the value does not end in a space. -/
def delivered (v : String) : Prop :=
  v.data.getLast? ≠ some ' '

/-- A request without `Authorization` header whose `admin_token` cookie holds the access
token of `alice`. -/
def cookieOnlyRequest : Request :=
  { Authorization := "", admin_token := some aliceToken, refresh_token := none,
    body := none }

/-- The response with which the middleware refuses a request without a token. -/
def tokenRequired : Response :=
  ResponseUnauthorized "Token required (Authorization header or cookie)"

/-! ## The configured lifetime -/

/-- An environment that asks for a lifetime of 2562048 hours. -/
def longLifetimeEnv : Env :=
  { JWT_SECRET := "", JWT_EXPIRES_HOURS := "2562048" }

/-- The largest number of hours a `time.Duration` can hold. -/
def maxDurationHours : Int := 2562047

/-! ## The read-only handlers of `auth_controller.go` -/

/-- The helper `helpers.ResponseNotFound`. -/
def ResponseNotFound (message : String) : Response :=
  ResponseError 404 message

/-- The helpers `helpers.ResponseSuccess` and `helpers.ResponseCreated`, for the handlers
whose `data` has no `token`; of `data` only a `username` member is kept. -/
def ResponseData (statusCode : Nat) (message : String) (username : Option JSONValue) :
    Response :=
  { status := statusCode, message := message, token := none, username := username,
    cookies := [] }

namespace AuthController

/-- `AuthController.GetProfile`: reads the context values and the user row.  A context
value is nil in Go when the claims had no such member or had `null`. -/
def GetProfile (D : Deps) (db : DB) (ctx : Option Context) : Response × DB :=
  match ctx.bind (fun c => c.user_id), ctx.bind (fun c => c.username) with
  | some userID, some username =>
    if userID = .null ∨ username = .null then
      (ResponseUnauthorized "User not authenticated", db)
    else
      match findUserByValue D db userID with
      | .found user =>
        (ResponseData 200 "Profile fetched successfully" (some (.string user.Username)), db)
      | _ => (ResponseInternalServerError "User not found", db)
  | _, _ => (ResponseUnauthorized "User not authenticated", db)

/-- `AuthController.GetUserById`: reads the user row named by the path parameter; the 500
response carries the text of the engine's error. -/
def GetUserById (D : Deps) (db : DB) (id : String) : Response × DB :=
  match findUserByID D db id with
  | .found user =>
    (ResponseData 200 "User retrieved successfully" (some (.string user.Username)), db)
  | .notFound => (ResponseNotFound "User not found", db)
  | .failed => (ResponseInternalServerError "query failed", db)

end AuthController

/-! ## `internal/controllers/participant_controller.go` -/

/-- Body of the participant requests (`forms.ParticipantForm`). -/
structure ParticipantForm where
  Name : String
  Place : String
  BirthDate : String
  Kampus : String
  Jurusan : String
  Angkatan : String
  Phone : String
deriving DecidableEq, Repr

/-- The query strings `GetAllParticipants` reads; `none` for an absent parameter. -/
structure ListQuery where
  page : Option String
  limit : Option String
  search : Option String
  sort_by : Option String
  sort_order : Option String
deriving DecidableEq, Repr

/-- The query `GetAllParticipants` builds: the `LIKE` pattern on `name` (when a search
text is given) and the arguments it hands to `Order`, `Offset` and `Limit`, with the page
and sort values they were computed from. -/
structure ListPlan where
  pageInt : Int
  limitInt : Int
  sortBy : String
  sortOrder : String
  offset : Int
  like : Option String
  orderClause : String
deriving DecidableEq, Repr

/-- Go `c.DefaultQuery(key, defaultValue)`. -/
def DefaultQuery (value : Option String) (defaultValue : String) : String :=
  match value with
  | some v => v
  | none => defaultValue

/-- The keys of the map `validSortFields`. -/
def validSortFields : List String :=
  ["id", "name", "place", "birth_date", "kampus", "jurusan", "angkatan", "phone",
   "created_at", "updated_at"]

/-- The keys of the map `validSortOrders`. -/
def validSortOrders : List String :=
  ["asc", "desc"]

namespace ParticipantController

/-- Go `c.ShouldBindJSON(&form)` for `ParticipantForm`: the body must decode, every field
is `required` (non-empty), `Place` has 2 to 255 characters and `Phone` 8 to 20. -/
def ShouldBindJSON (body : Option ParticipantForm) : Option ParticipantForm :=
  match body with
  | none => none
  | some form =>
    if form.Name ≠ "" ∧ form.Place ≠ "" ∧ 2 ≤ form.Place.length ∧ form.Place.length ≤ 255 ∧
        form.BirthDate ≠ "" ∧ form.Kampus ≠ "" ∧ form.Jurusan ≠ "" ∧ form.Angkatan ≠ "" ∧
        form.Phone ≠ "" ∧ 8 ≤ form.Phone.length ∧ form.Phone.length ≤ 20 then
      some form
    else none

/-- The query `Where("id = ?", id).First(&participant)`. -/
def findParticipant (db : DB) (id : String) : Option Participant :=
  db.participants.find? (fun p => decide (p.ID = id))

/-- The birth date of a bound form: `time.Parse("2006-01-02", form.BirthDate)` when the
text is non-empty (`parseDate`, `none` for its error), the zero time otherwise; `none`
when the text does not parse. -/
def birthDateOf (parseDate : String → Option Int) (form : ParticipantForm) : Option Int :=
  if form.BirthDate ≠ "" then parseDate form.BirthDate else some zeroTime

/-- `ParticipantController.CreateParticipant`.  `uuid` is the value of
`uuid.New().String()` in the hook `Participant.BeforeCreate`; the insert fails when the
primary key is taken. -/
def CreateParticipant (parseDate : String → Option Int) (uuid : String) (now : Nat)
    (db : DB) (body : Option ParticipantForm) : Response × DB :=
  match ShouldBindJSON body with
  | none => (ResponseBadRequest "invalid request body", db)
  | some form =>
    match birthDateOf parseDate form with
    | none => (ResponseBadRequest "Format birth_date harus YYYY-MM-DD", db)
    | some birthDate =>
      if db.participants.any (fun p => decide (p.ID = uuid)) then
        (ResponseInternalServerError "insert failed", db)
      else
        (ResponseData 201 "Participant created successfully" none,
         { db with
           participants := db.participants ++
             [{ ID := uuid, Name := form.Name, Place := form.Place, BirthDate := birthDate,
                Kampus := form.Kampus, Jurusan := form.Jurusan, Angkatan := form.Angkatan,
                Phone := form.Phone, CreatedAt := now, UpdatedAt := now }] })

/-- The query `GetAllParticipants` builds from its query strings.  Go `int` is 64 bits
wide, so the product that gives the offset wraps. -/
def listPlan (q : ListQuery) : ListPlan :=
  let page := DefaultQuery q.page "1"
  let limit := DefaultQuery q.limit "10"
  let search := DefaultQuery q.search ""
  let sortBy := DefaultQuery q.sort_by "created_at"
  let sortOrder := DefaultQuery q.sort_order "desc"
  let pageInt : Int :=
    match Atoi page with
    | some p => if p > 0 then p else 1
    | none => 1
  let limitInt : Int :=
    match Atoi limit with
    | some l => if l > 0 ∧ l ≤ 100 then l else 10
    | none => 10
  let sortBy := if sortBy ∈ validSortFields then sortBy else "created_at"
  let sortOrder := if sortOrder ∈ validSortOrders then sortOrder else "desc"
  let offset := wrapInt64 ((pageInt - 1) * limitInt)
  { pageInt := pageInt, limitInt := limitInt, sortBy := sortBy, sortOrder := sortOrder,
    offset := offset,
    like := if search ≠ "" then some ("%" ++ search ++ "%") else none,
    orderClause := sortBy ++ " " ++ sortOrder }

/-- `ParticipantController.GetAllParticipants`: runs the count and the query of
`listPlan` and answers 200; only reads.  Returned: the query built, the response, the
store. -/
def GetAllParticipants (db : DB) (q : ListQuery) : (ListPlan × Response) × DB :=
  ((listPlan q, ResponseData 200 "Participants retrieved successfully" none), db)

/-- `ParticipantController.GetParticipant`. -/
def GetParticipant (db : DB) (id : String) : Response × DB :=
  match findParticipant db id with
  | none => (ResponseNotFound "Participant not found", db)
  | some _ => (ResponseData 200 "Participant retrieved successfully" none, db)

/-- `ParticipantController.UpdateParticipant`: `DB.Save(&participant)` rewrites the row
with the key of the row found, the hook `BeforeUpdate` stamping `UpdatedAt`. -/
def UpdateParticipant (parseDate : String → Option Int) (now : Nat) (db : DB)
    (id : String) (body : Option ParticipantForm) : Response × DB :=
  match findParticipant db id with
  | none => (ResponseNotFound "Participant not found", db)
  | some participant =>
    match ShouldBindJSON body with
    | none => (ResponseBadRequest "invalid request body", db)
    | some form =>
      match birthDateOf parseDate form with
      | none => (ResponseBadRequest "Format birth_date harus YYYY-MM-DD", db)
      | some birthDate =>
        (ResponseData 200 "Participant updated successfully" none,
         { db with
           participants := db.participants.map (fun p =>
             if p.ID = participant.ID then
               { participant with
                 Name := form.Name, Place := form.Place, BirthDate := birthDate,
                 Kampus := form.Kampus, Jurusan := form.Jurusan,
                 Angkatan := form.Angkatan, Phone := form.Phone, UpdatedAt := now }
             else p) })

/-- `ParticipantController.DeleteParticipant`: `DB.Delete(&participant)` removes the row
with the key of the row found. -/
def DeleteParticipant (db : DB) (id : String) : Response × DB :=
  match findParticipant db id with
  | none => (ResponseNotFound "Participant not found", db)
  | some participant =>
    (ResponseData 200 "Participant deleted successfully" none,
     { db with
       participants := db.participants.filter (fun p => decide (p.ID ≠ participant.ID)) })

/-- `ParticipantController.CountParticipant`: only reads. -/
def CountParticipant (db : DB) : Response × DB :=
  (ResponseData 200 "Total participants counted successfully" none, db)

end ParticipantController

/-! ## Every handler, as it changes the store -/

/-- A handler call with its input.  `uuid` and `rand` are the values drawn by the
handler, `F` the faults of the write statements of `Logout`. -/
inductive Call where
  | login (rand : Option String) (req : Request)
  | refreshToken (req : Request)
  | logout (F : Faults) (req : Request) (ctx : Option Context)
  | authMiddleware (req : Request)
  | getProfile (ctx : Option Context)
  | getUserById (id : String)
  | createParticipant (uuid : String) (body : Option ParticipantForm)
  | getAllParticipants (q : ListQuery)
  | getParticipant (id : String)
  | updateParticipant (id : String) (body : Option ParticipantForm)
  | deleteParticipant (id : String)
  | countParticipant

/-- The store after a handler call.  `AuthMiddleware` issues a single `SELECT`: its
embedding returns no store, and the store after it is the store before. -/
def storeAfter (D : Deps) (parseDate : String → Option Int) (env : Env) (now : Nat)
    (db : DB) : Call → DB
  | .login rand req => (AuthController.Login D env now rand db req).2
  | .refreshToken req => (AuthController.RefreshToken D env now db req).2
  | .logout F req ctx => (AuthController.Logout F D env now db req ctx).2
  | .authMiddleware _ => db
  | .getProfile ctx => (AuthController.GetProfile D db ctx).2
  | .getUserById id => (AuthController.GetUserById D db id).2
  | .createParticipant uuid body =>
    (ParticipantController.CreateParticipant parseDate uuid now db body).2
  | .getAllParticipants q => (ParticipantController.GetAllParticipants db q).2
  | .getParticipant id => (ParticipantController.GetParticipant db id).2
  | .updateParticipant id body =>
    (ParticipantController.UpdateParticipant parseDate now db id body).2
  | .deleteParticipant id => (ParticipantController.DeleteParticipant db id).2
  | .countParticipant => (ParticipantController.CountParticipant db).2

/-- How a call may leave an existing `refresh_tokens` row: as it was, or, when the call
is a `Logout` whose cookie value is the token of the row and the row was not revoked,
with `revoked` set (and `updated_at` stamped by the same statement). -/
def rowKept (call : Call) (now : Nat) (r r2 : RefreshToken) : Prop :=
  r2 = r ∨
  ∃ F req ctx, call = .logout F req ctx ∧ req.refresh_token = some r.Token ∧
    r.Revoked = false ∧ r2 = { r with Revoked := true, UpdatedAt := now }

/-- The revocation ledger of `db2` extends that of `db` through `call`: the blacklist
entries of `db` are the first entries of `db2`, unmodified, and the `refresh_tokens`
rows of `db` are, in order and each kept in the sense of `rowKept`, the first rows of
`db2`. -/
def ledgerGrows (call : Call) (now : Nat) (db db2 : DB) : Prop :=
  (∃ added, db2.blacklisted_tokens = db.blacklisted_tokens ++ added) ∧
  (∃ kept added, db2.refresh_tokens = kept ++ added ∧
    List.Forall₂ (rowKept call now) db.refresh_tokens kept)

/-- A listing request for a page so far out that the offset leaves the `int64` range. -/
def farPageQuery : ListQuery :=
  { page := some "92233720368547760", limit := some "100", search := none,
    sort_by := none, sort_order := none }


/-! ## Theorems -/

theorem wrapInt64_eq (x : Int) (h1 : -(2 ^ 63 : Int) ≤ x) (h2 : x < 2 ^ 63) :
    wrapInt64 x = x := by
  unfold wrapInt64
  omega

theorem wrapInt64_ge (x : Int) : -(2 ^ 63 : Int) ≤ wrapInt64 x := by
  unfold wrapInt64
  have := Int.emod_nonneg (x + 2 ^ 63) (by norm_num : (2 ^ 64 : Int) ≠ 0)
  omega

theorem wrapInt64_lt (x : Int) : wrapInt64 x < 2 ^ 63 := by
  unfold wrapInt64
  have := Int.emod_lt_of_pos (x + 2 ^ 63) (by norm_num : (0 : Int) < 2 ^ 64)
  omega

/-- An `int64` count of seconds that stays in range when the offset to year 1 is added
denotes the instant that many seconds from the epoch. -/
theorem unixTime_eq (sec : Int) (h1 : -(2 ^ 63 : Int) - unixToInternal ≤ sec)
    (h2 : sec < 2 ^ 63 - unixToInternal) : unixTime sec = sec * Second := by
  unfold unixTime timeUnix
  have h0 : Int.fdiv 0 Second = 0 := by decide
  have h3 : Int.fmod 0 Second = 0 := by decide
  rw [h0, h3, wrapInt64_eq _ (by omega) (by omega)]
  ring

theorem zeroTime_eq : zeroTime = -unixToInternal * Second := by decide

/-- The library keeps a numeric date to the whole second. -/
theorem Truncate_timeUnix (sec nsec : Int) :
    Truncate (timeUnix sec nsec) TimePrecision
      = (wrapInt64 (sec + Int.fdiv nsec Second + unixToInternal) - unixToInternal) * Second := by
  unfold Truncate TimePrecision timeUnix
  rw [if_neg (by decide), zeroTime_eq]
  have hs : (0 : Int) ≤ Second := by decide
  have hp : (0 : Int) < Second := by decide
  have h1 := Int.emod_nonneg nsec (by decide : Second ≠ 0)
  have h2 := Int.emod_lt_of_pos nsec hp
  rw [Int.fmod_eq_emod _ hs, Int.fmod_eq_emod _ hs]
  have : ((wrapInt64 (sec + nsec.fdiv Second + unixToInternal) - unixToInternal) * Second
      + nsec % Second - -unixToInternal * Second) % Second = nsec % Second := by
    have e : (wrapInt64 (sec + nsec.fdiv Second + unixToInternal) - unixToInternal) * Second
        + nsec % Second - -unixToInternal * Second
        = nsec % Second + Second * wrapInt64 (sec + nsec.fdiv Second + unixToInternal) := by
      ring
    rw [e, Int.add_mul_emod_self_left, Int.emod_emod_of_dvd _ (dvd_refl _)]
  rw [this]
  ring

/-- The integer part toward zero of a rational that is not negative is its floor. -/
theorem tdiv_of_nonneg (f : ℚ) (h : 0 ≤ f) : Int.tdiv f.num f.den = ⌊f⌋ := by
  rw [Int.tdiv_eq_ediv (Rat.num_nonneg.mpr h) (Int.ofNat_nonneg _)]
  exact (Rat.floor_def' f).symm

/-- The integer part toward zero of a rational that is not positive is its ceiling. -/
theorem tdiv_of_nonpos (f : ℚ) (h : f ≤ 0) : Int.tdiv f.num f.den = ⌈f⌉ := by
  have h1 := tdiv_of_nonneg (-f) (by linarith)
  rw [Rat.neg_num, Rat.neg_den, Int.neg_tdiv, Int.floor_neg] at h1
  omega

theorem int64OfFloat_range (f : ℚ) :
    -(2 ^ 63 : Int) ≤ int64OfFloat f ∧ int64OfFloat f < 2 ^ 63 := by
  unfold int64OfFloat
  simp only []
  split
  · assumption
  · norm_num

theorem Modf_intCast (n : Int) : Modf (n : ℚ) = ((n : ℚ), 0) := by
  unfold Modf
  simp [Rat.num_intCast, Rat.den_intCast]

theorem int64OfFloat_intCast (n : Int) (h1 : -(2 ^ 63 : Int) ≤ n) (h2 : n < 2 ^ 63) :
    int64OfFloat (n : ℚ) = n := by
  unfold int64OfFloat
  simp only [Rat.num_intCast, Rat.den_intCast, Nat.cast_one, Int.tdiv_one]
  rw [if_pos ⟨h1, h2⟩]

theorem int64OfFloat_zero : int64OfFloat 0 = 0 := by decide

/-- The conversion `int64(f)` of a number that is not negative and below `2^63` is its
floor. -/
theorem int64OfFloat_of_nonneg (f : ℚ) (h : 0 ≤ f) (hlt : ⌊f⌋ < 2 ^ 63) :
    int64OfFloat f = ⌊f⌋ := by
  unfold int64OfFloat
  simp only []
  rw [tdiv_of_nonneg f h, if_pos ⟨by have := Int.floor_nonneg.mpr h; omega, hlt⟩]

/-- When golang-jwt reads a number as a date after a clock reading: exactly when its whole
seconds fit the seconds of a `time.Time` and lie after the clock. -/
theorem newNumericDateFromSeconds_after (f : ℚ) (now : Nat) :
    (now : Int) < newNumericDateFromSeconds f ↔ dateAfter now f := by
  unfold dateAfter timeLimit
  unfold newNumericDateFromSeconds
  rw [Truncate_timeUnix]
  have hnow : (0 : Int) ≤ (now : Int) := Int.ofNat_nonneg now
  have hK : unixToInternal = 62135596800 := rfl
  have hS : Second = 1000000000 := rfl
  have hr1 := int64OfFloat_range (Modf f).1
  by_cases hf : 0 ≤ f
  · -- the number is not negative: no carry from the nanoseconds
    have hfl0 : 0 ≤ ⌊f⌋ := Int.floor_nonneg.mpr hf
    have hw : (Modf f).1 = ((⌊f⌋ : Int) : ℚ) := by
      unfold Modf
      simp only []
      rw [tdiv_of_nonneg f hf]
    have hfr : (Modf f).2 = f - ((⌊f⌋ : Int) : ℚ) := by
      unfold Modf
      simp only []
      rw [tdiv_of_nonneg f hf]
    have hfr0 : 0 ≤ (Modf f).2 * 1000000000 := by
      rw [hfr]
      have := Int.floor_le f
      nlinarith
    have hfr1 : (Modf f).2 * 1000000000 < 1000000000 := by
      rw [hfr]
      have := Int.lt_floor_add_one f
      nlinarith
    have hn0 : 0 ≤ ⌊(Modf f).2 * 1000000000⌋ := Int.floor_nonneg.mpr hfr0
    have hn1 : ⌊(Modf f).2 * 1000000000⌋ < 1000000000 := by
      rw [Int.floor_lt]
      exact_mod_cast hfr1
    have hn : int64OfFloat ((Modf f).2 * 1000000000) = ⌊(Modf f).2 * 1000000000⌋ :=
      int64OfFloat_of_nonneg _ hfr0 (by omega)
    have hb : Int.fdiv (int64OfFloat ((Modf f).2 * 1000000000)) Second = 0 := by
      rw [hn, Int.fdiv_eq_ediv _ (by decide), hS]
      omega
    rw [hb, hw]
    by_cases hlt : ⌊f⌋ < 2 ^ 63
    · rw [int64OfFloat_intCast _ (by omega) hlt]
      by_cases hlt2 : ⌊f⌋ < 2 ^ 63 - unixToInternal
      · rw [wrapInt64_eq _ (by omega) (by omega)]
        constructor
        · intro h; exact ⟨hlt2, by simpa using h⟩
        · intro h; simpa using h.2
      · have hwr : wrapInt64 (⌊f⌋ + 0 + unixToInternal) = ⌊f⌋ + unixToInternal - 2 ^ 64 := by
          unfold wrapInt64
          omega
        rw [hwr]
        constructor
        · intro h; exfalso; rw [hS] at h; omega
        · intro h; exact absurd h.1 hlt2
    · have hc : int64OfFloat ((⌊f⌋ : Int) : ℚ) = -(2 ^ 63) := by
        unfold int64OfFloat
        simp only [Rat.num_intCast, Rat.den_intCast, Nat.cast_one, Int.tdiv_one]
        rw [if_neg (fun h => hlt h.2)]
      rw [hc, wrapInt64_eq _ (by omega) (by omega)]
      constructor
      · intro h; exfalso; rw [hS] at h; omega
      · intro h; exfalso; omega
  · -- a negative number: a date not after the epoch
    have hf' : f ≤ 0 := le_of_lt (not_le.mp hf)
    have hfl : ⌊f⌋ < 0 := by
      rw [Int.floor_lt]
      exact_mod_cast not_le.mp hf
    have hw0 : (Modf f).1 ≤ 0 := by
      unfold Modf
      simp only []
      rw [tdiv_of_nonpos f hf']
      have : ⌈f⌉ ≤ 0 := Int.ceil_le.mpr (by exact_mod_cast hf')
      exact_mod_cast this
    have hS0 : int64OfFloat (Modf f).1 ≤ 0 := by
      unfold int64OfFloat
      simp only []
      split
      · have h1 := tdiv_of_nonpos _ hw0
        have h2 : ⌈(Modf f).1⌉ ≤ 0 := Int.ceil_le.mpr (by exact_mod_cast hw0)
        omega
      · norm_num
    have hfrac0 : (Modf f).2 * 1000000000 ≤ 0 := by
      unfold Modf
      simp only []
      rw [tdiv_of_nonpos f hf']
      have := Int.le_ceil f
      nlinarith
    have hfrac1 : -1000000000 < (Modf f).2 * 1000000000 := by
      unfold Modf
      simp only []
      rw [tdiv_of_nonpos f hf']
      have := Int.ceil_lt_add_one f
      nlinarith
    have hn : int64OfFloat ((Modf f).2 * 1000000000) = ⌈(Modf f).2 * 1000000000⌉ := by
      unfold int64OfFloat
      simp only []
      rw [tdiv_of_nonpos _ hfrac0]
      have h1 : ⌈(Modf f).2 * 1000000000⌉ ≤ 0 := Int.ceil_le.mpr (by exact_mod_cast hfrac0)
      have h2 : -1000000000 < ⌈(Modf f).2 * 1000000000⌉ := by
        rw [Int.lt_ceil]
        exact_mod_cast hfrac1
      rw [if_pos ⟨by omega, by omega⟩]
    have hn0 : ⌈(Modf f).2 * 1000000000⌉ ≤ 0 := Int.ceil_le.mpr (by exact_mod_cast hfrac0)
    have hn1 : -1000000000 < ⌈(Modf f).2 * 1000000000⌉ := by
      rw [Int.lt_ceil]
      exact_mod_cast hfrac1
    have hb0 : Int.fdiv (int64OfFloat ((Modf f).2 * 1000000000)) Second ≤ 0 := by
      rw [hn, Int.fdiv_eq_ediv _ (by decide), hS]
      omega
    have hb1 : -1 ≤ Int.fdiv (int64OfFloat ((Modf f).2 * 1000000000)) Second := by
      rw [hn, Int.fdiv_eq_ediv _ (by decide), hS]
      omega
    generalize Int.fdiv (int64OfFloat ((Modf f).2 * 1000000000)) Second = carry at hb0 hb1 ⊢
    rw [wrapInt64_eq _ (by omega) (by omega)]
    constructor
    · intro h; exfalso; rw [hS] at h; omega
    · intro h; exfalso; rw [hS] at h; omega

/-- A number that is a date after a clock reading is positive, and `int64` and
`time.Unix` keep its whole seconds. -/
theorem dateAfter_pos (now : Nat) (e : ℚ) (h : dateAfter now e) :
    0 < ⌊e⌋ ∧ 0 < e ∧ int64OfFloat e = ⌊e⌋ ∧ unixTime (int64OfFloat e) = ⌊e⌋ * Second := by
  obtain ⟨hlim, hlt⟩ := h
  unfold timeLimit at hlim
  have hK : unixToInternal = 62135596800 := rfl
  have hS : Second = 1000000000 := rfl
  have hnow : (0 : Int) ≤ (now : Int) := Int.ofNat_nonneg now
  have hfl : 0 < ⌊e⌋ := by rw [hS] at hlt; omega
  have hpos : 0 < e := by
    have := Int.floor_pos.mp hfl
    linarith
  have hconv : int64OfFloat e = ⌊e⌋ := int64OfFloat_of_nonneg e (le_of_lt hpos) (by omega)
  refine ⟨hfl, hpos, hconv, ?_⟩
  rw [hconv]
  exact unixTime_eq _ (by omega) hlim

theorem verifyExpiresAt_iff (now : Nat) (claims : MapClaims) :
    verifyExpiresAt (now : Int) claims = true ↔
      (claims.lookup "exp" = none ∨ claims.lookup "exp" = some (.number 0) ∨
        ∃ e, claims.lookup "exp" = some (.number e) ∧ dateAfter now e) := by
  unfold verifyExpiresAt parseNumericDate
  cases hexp : List.lookup "exp" claims with
  | none => simp
  | some w =>
    cases w with
    | number f =>
      by_cases hz : f = 0
      · simp [hz]
      · simp [hz, newNumericDateFromSeconds_after]
    | string s => simp
    | null => simp
    | other raw => simp

theorem verifyNotBefore_iff (now : Nat) (claims : MapClaims) :
    verifyNotBefore (now : Int) claims = true ↔
      (claims.lookup "nbf" = none ∨ claims.lookup "nbf" = some (.number 0) ∨
        ∃ n, claims.lookup "nbf" = some (.number n) ∧ ¬ dateAfter now n) := by
  unfold verifyNotBefore parseNumericDate
  cases hnbf : List.lookup "nbf" claims with
  | none => simp
  | some w =>
    cases w with
    | number f =>
      by_cases hz : f = 0
      · simp [hz]
      · simp [hz, ← newNumericDateFromSeconds_after]
    | string s => simp
    | null => simp
    | other raw => simp

theorem validate_iff (now : Nat) (claims : MapClaims) :
    Validate (now : Int) claims = true ↔ claimsInForce now claims := by
  unfold Validate claimsInForce
  rw [Bool.and_eq_true, verifyExpiresAt_iff, verifyNotBefore_iff]

theorem findBlacklisted_none_iff (D : Deps) (db : DB) (now : Nat) (tokenString : String) :
    findBlacklisted db (D.SHA256Hash tokenString) now = none ↔
      notBlacklisted D db now tokenString := by
  unfold findBlacklisted notBlacklisted
  simp [List.find?_eq_none]

/-- When `jwt.Parse` reports a valid token: the text decodes, the header names a
registered method for which the key function gives a key, the signature verifies and
the claims validate; the token then carries the decoded claims. -/
theorem Parse_valid_iff (D : Deps) (keyFunc : SigningMethod → Option String) (now : Int)
    (tokenString : String) (claims : MapClaims) :
    Parse D keyFunc now tokenString = (some ⟨some claims, true⟩, false) ↔
      ∃ alg signingInput sig method key,
        D.decode tokenString = .decoded (some alg) claims signingInput sig ∧
        GetSigningMethod alg = some method ∧ keyFunc method = some key ∧
        Verify D method signingInput sig key = true ∧ Validate now claims = true := by
  unfold Parse
  cases hdec : D.decode tokenString with
  | wrongCount => simp
  | malformed c => simp
  | decoded alg c signingInput sig =>
    cases alg with
    | none => simp
    | some a =>
      simp only [Option.some_bind]
      cases hm : GetSigningMethod a with
      | none =>
        simp only []
        constructor
        · intro h
          injection h with h1 h2
          cases h2
        · rintro ⟨alg, si, sg, m, k, h1, h2, -⟩
          injection h1 with h1 _ _ _
          injection h1 with h1
          subst h1
          rw [hm] at h2
          cases h2
      | some method =>
        simp only []
        cases hk : keyFunc method with
        | none =>
          simp only []
          constructor
          · intro h
            injection h with h1 h2
            cases h2
          · rintro ⟨alg, si, sg, m, k, h1, h2, h3, -⟩
            injection h1 with h1 _ _ _
            injection h1 with h1
            subst h1
            rw [hm] at h2
            injection h2 with h2
            subst h2
            rw [hk] at h3
            cases h3
        | some key =>
          simp only []
          by_cases hv : Verify D method signingInput sig key = true
          · by_cases hval : Validate now c = true
            · simp only [Option.bind_some, hm, hk, hv, hval, if_true]
              constructor
              · intro h
                injection h with h1 _
                injection h1 with h1
                injection h1 with h1 _
                injection h1 with h1
                subst h1
                exact ⟨a, signingInput, sig, method, key, rfl, hm, hk, hv, hval⟩
              · rintro ⟨alg, si, sg, m, k, h1, -⟩
                injection h1 with _ h2 _ _
                subst h2
                rfl
            · simp only [Option.bind_some, hm, hk, hv, hval, if_true]
              constructor
              · intro h
                injection h with h1 h2
                cases h2
              · rintro ⟨alg, si, sg, m, k, h1, -, -, -, h5⟩
                injection h1 with _ h2 _ _
                subst h2
                exact absurd h5 hval
          · simp only [Option.bind_some, hm, hk, hv]
            constructor
            · intro h
              injection h with h1 h2
              cases h2
            · rintro ⟨alg, si, sg, m, k, h1, h2, h3, h4, -⟩
              injection h1 with h1 _ h6 h7
              injection h1 with h1
              subst h1 h6 h7
              rw [hm] at h2
              injection h2 with h2
              subst h2
              rw [hk] at h3
              injection h3 with h3
              subst h3
              exact absurd h4 hv

/-- Whatever `jwt.Parse` returns, it is either the valid token with the decoded claims
and no error, or a token that is not valid (or nil) together with an error. -/
theorem Parse_cases (D : Deps) (keyFunc : SigningMethod → Option String) (now : Int)
    (tokenString : String) :
    (∃ claims, Parse D keyFunc now tokenString = (some ⟨some claims, true⟩, false)) ∨
    (Parse D keyFunc now tokenString = (none, true)) ∨
    (∃ c, Parse D keyFunc now tokenString = (some ⟨c, false⟩, true)) := by
  unfold Parse
  cases hdec : D.decode tokenString with
  | wrongCount => simp
  | malformed c => simp
  | decoded alg c signingInput sig =>
    cases alg with
    | none => simp
    | some a =>
      simp only [Option.some_bind]
      cases hm : GetSigningMethod a with
      | none => simp
      | some method =>
        cases hk : keyFunc method with
        | none => simp [hk]
        | some key =>
          by_cases hv : Verify D method signingInput sig key = true
          · by_cases hval : Validate now c = true
            · simp [hm, hk, hv, hval]
            · simp [hm, hk, hv, hval]
          · simp [hm, hk, hv]

/-- The two ways `AuthMiddleware` ends: it passes the request on with the `user_id` and
`username` claims of a token that is non-empty, not blacklisted and parsed as valid, or
it aborts with 401. -/
theorem AuthMiddleware_cases (D : Deps) (env : Env) (now : Nat) (db : DB) (req : Request) :
    (∃ claims, extractToken req ≠ "" ∧
      findBlacklisted db (D.SHA256Hash (extractToken req)) now = none ∧
      Parse D (middlewareKeyFunc env) now (extractToken req)
        = (some ⟨some claims, true⟩, false) ∧
      AuthMiddleware D env now db req
        = .next (some ⟨claims.lookup "user_id", claims.lookup "username"⟩)) ∨
    ((extractToken req = "" ∨
      findBlacklisted db (D.SHA256Hash (extractToken req)) now ≠ none ∨
      ∀ claims, Parse D (middlewareKeyFunc env) now (extractToken req)
        ≠ (some ⟨some claims, true⟩, false)) ∧
      ∃ resp, AuthMiddleware D env now db req = .abort resp ∧ resp.status = 401) := by
  unfold AuthMiddleware
  by_cases htok : extractToken req = ""
  · right
    exact ⟨Or.inl htok, ResponseUnauthorized "Token required (Authorization header or cookie)",
      by simp [htok], rfl⟩
  · cases hbl : findBlacklisted db (D.SHA256Hash (extractToken req)) now with
    | some b =>
      right
      exact ⟨Or.inr (Or.inl (by simp)),
        ResponseUnauthorized "Token is blacklisted. Please login again.",
        by simp [htok, hbl], rfl⟩
    | none =>
      rcases Parse_cases D (middlewareKeyFunc env) now (extractToken req) with
        ⟨claims, hp⟩ | hp | ⟨c, hp⟩
      · left
        exact ⟨claims, htok, rfl, hp, by simp [htok, hbl, hp]⟩
      · right
        refine ⟨Or.inr (Or.inr ?_), ResponseUnauthorized "Invalid or expired token",
          by simp [htok, hbl, hp], rfl⟩
        intro claims h
        rw [hp] at h
        cases h
      · right
        refine ⟨Or.inr (Or.inr ?_), ResponseUnauthorized "Invalid or expired token",
          by simp [htok, hbl, hp], rfl⟩
        intro claims h
        rw [hp] at h
        cases h

theorem HasPrefix_append (pre t : String) : HasPrefix (pre ++ t) pre = true := by
  unfold HasPrefix
  rw [String.data_append]
  simp [List.isPrefixOf_iff_prefix]

theorem TrimPrefix_append (pre t : String) : TrimPrefix (pre ++ t) pre = t := by
  unfold TrimPrefix
  rw [if_pos (HasPrefix_append pre t), String.data_append, List.drop_left]

theorem bearer_ne_empty (t : String) : "Bearer " ++ t ≠ "" := by
  intro h
  have h2 := congrArg String.length h
  simp [String.length_append] at h2
  have : ("Bearer ").length = 7 := by decide
  omega

/-- A request whose `Authorization` header is `Bearer ` followed by a token presents
that token to the middleware. -/
theorem extractToken_bearerRequest (t : String) : extractToken (bearerRequest t) = t := by
  unfold extractToken bearerRequest
  simp only []
  rw [if_pos ⟨bearer_ne_empty t, HasPrefix_append _ t⟩, TrimPrefix_append]

/-- A token whose `exp` claim is a number of `2^63 - 62135596800` seconds or more, however
signed, is refused: the seconds wrap in the `int64` of a `time.Time` and read as a date
in the far past. -/
theorem AuthMiddleware_exp_out_of_range (D : Deps) (env : Env) (now : Nat) (db : DB)
    (req : Request) (alg : Option String) (claims : MapClaims) (signingInput sig : String)
    (e : ℚ) (hdec : D.decode (extractToken req) = .decoded alg claims signingInput sig)
    (hexp : claims.lookup "exp" = some (.number e)) (hbig : timeLimit ≤ ⌊e⌋) :
    ∃ resp, AuthMiddleware D env now db req = .abort resp ∧ resp.status = 401 := by
  rcases AuthMiddleware_cases D env now db req with ⟨claims1, -, -, hp, -⟩ | ⟨-, hres⟩
  · exfalso
    obtain ⟨alg1, si1, sig1, method, key, hdec1, -, -, -, hval⟩ :=
      (Parse_valid_iff D _ _ _ claims1).mp hp
    rw [hdec] at hdec1
    injection hdec1 with _ hcl _ _
    subst hcl
    have hforce := ((validate_iff now claims).mp hval).1
    have hlim : (0 : Int) < timeLimit := by decide
    rcases hforce with h | h | ⟨e1, h, hafter⟩
    · rw [h] at hexp; cases hexp
    · rw [h] at hexp
      injection hexp with hexp
      injection hexp with hexp
      subst hexp
      simp at hbig
      omega
    · rw [h] at hexp
      injection hexp with hexp
      injection hexp with hexp
      subst hexp
      have := hafter.1
      omega
  · exact hres
/-! ### What a successful handler call has done -/

/-- A `Login` that responds 200 bound its body, found the user, matched the password,
drew a refresh token and stored its row; it returns the token minted for that user and
the refresh cookie. -/
theorem Login_ok (D : Deps) (env : Env) (now : Nat) (rand : Option String) (db : DB)
    (req : Request) (h : (AuthController.Login D env now rand db req).1.status = 200) :
    ∃ body user refreshToken db1,
      ShouldBindJSON req.body = some body ∧
      findUserByUsername db body.Username = some user ∧
      D.CheckPassword body.Password user.Password = true ∧
      rand = some refreshToken ∧
      createRefreshToken db now (toString user.ID) refreshToken
        ((now : Int) + refreshLifetime) false = some db1 ∧
      AuthController.Login D env now rand db req =
        ({ status := 200, message := "Login Berhasil",
           token := some (mintAccessToken D env now user), username := none,
           cookies := [refreshCookie now refreshToken] }, db1) := by
  unfold AuthController.Login at h ⊢
  cases hb : ShouldBindJSON req.body with
  | none => simp [hb, ResponseBadRequest, ResponseError] at h
  | some body =>
    cases hu : findUserByUsername db body.Username with
    | none => simp [hb, hu, ResponseUnauthorized, ResponseError] at h
    | some user =>
      cases hp : D.CheckPassword body.Password user.Password with
      | false => simp [hb, hu, hp, ResponseUnauthorized, ResponseError] at h
      | true =>
        cases hr : rand with
        | none => simp [hb, hu, hp, hr, ResponseInternalServerError, ResponseError] at h
        | some refreshToken =>
          cases hc : createRefreshToken db now (toString user.ID) refreshToken
              ((now : Int) + refreshLifetime) false with
          | none =>
            simp [hb, hu, hp, hr, hc, ResponseInternalServerError, ResponseError] at h
          | some db1 =>
            exact ⟨body, user, refreshToken, db1, rfl, hu, hp, rfl, hc,
              by simp [hb, hu, hp, hr, hc]⟩


/-- A `Logout` that responds 200 had a bearer header and a non-empty refresh cookie,
got a non-nil token from `jwt.Parse`, inserted the blacklist entry (the insert was not
faulty and the unique index let it through) and then ran the revocation update, unless
that statement failed. -/
theorem Logout_ok (F : Faults) (D : Deps) (env : Env) (now : Nat) (db : DB) (req : Request)
    (ctx : Option Context)
    (h : (AuthController.Logout F D env now db req ctx).1.status = some 200) :
    ∃ refreshToken token db1,
      req.Authorization ≠ "" ∧ HasPrefix req.Authorization "Bearer " = true ∧
      req.refresh_token = some refreshToken ∧ refreshToken ≠ "" ∧
      (Parse D (fun _ => some (getJWTSecret env)) now
        (TrimPrefix req.Authorization "Bearer ")).1 = some token ∧
      F.insert = false ∧
      createBlacklistedToken db now (D.SHA256Hash (TrimPrefix req.Authorization "Bearer "))
        (unixTime (AuthController.blacklistExpiry env now token)) = some db1 ∧
      (AuthController.Logout F D env now db req ctx).2
        = (if F.update then db1 else revokeRefreshToken db1 refreshToken now) := by
  unfold AuthController.Logout at h ⊢
  by_cases hh : req.Authorization = "" ∨ HasPrefix req.Authorization "Bearer " = false
  · simp [hh, Outcome.status, ResponseUnauthorized, ResponseError] at h
  · have hh1 : req.Authorization ≠ "" := fun e => hh (Or.inl e)
    have hh2 : HasPrefix req.Authorization "Bearer " = true := by
      cases hx : HasPrefix req.Authorization "Bearer "
      · exact absurd (Or.inr hx) hh
      · rfl
    cases hr : req.refresh_token with
    | none => simp [hh, hr, Outcome.status, ResponseBadRequest, ResponseError] at h
    | some refreshToken =>
      by_cases he : refreshToken = ""
      · simp [hh, hr, he, Outcome.status, ResponseBadRequest, ResponseError] at h
      · cases hp : (Parse D (fun _ => some (getJWTSecret env)) now
            (TrimPrefix req.Authorization "Bearer ")).1 with
        | none => simp [hh, hr, he, hp, Outcome.status] at h
        | some token =>
          cases hF : F.insert with
          | true =>
            simp [hh, hr, he, hp, hF, Outcome.status, ResponseInternalServerError,
              ResponseError] at h
          | false =>
            cases hc : createBlacklistedToken db now
                (D.SHA256Hash (TrimPrefix req.Authorization "Bearer "))
                (unixTime (AuthController.blacklistExpiry env now token)) with
            | none =>
              simp [hh, hr, he, hp, hF, hc, Outcome.status, ResponseInternalServerError,
                ResponseError] at h
            | some db1 =>
              exact ⟨refreshToken, token, db1, hh1, hh2, rfl, he, rfl, rfl, hc,
                by simp [hh, hr, he, hp, hF, hc]⟩

/-! ### Effect of the handlers on the store -/

theorem createRefreshToken_some (db db1 : DB) (now : Int) (userID token : String)
    (expiresAt : Int) (revoked : Bool)
    (h : createRefreshToken db now userID token expiresAt revoked = some db1) :
    (∀ r ∈ db.refresh_tokens, r.Token ≠ token) ∧
    db1 = { db with
      refresh_tokens := db.refresh_tokens ++
        [{ ID := nextID (db.refresh_tokens.map (fun r => r.ID)), UserID := userID,
           Token := token, ExpiresAt := expiresAt, Revoked := revoked,
           CreatedAt := now, UpdatedAt := now }] } := by
  unfold createRefreshToken at h
  split at h
  · cases h
  · rename_i hany
    injection h with h
    refine ⟨?_, h.symm⟩
    intro r hr heq
    apply hany
    simp only [List.any_eq_true, decide_eq_true_eq]
    exact ⟨r, hr, heq⟩

theorem createBlacklistedToken_some (db db1 : DB) (now : Int) (tokenHash : String)
    (expiresAt : Int) (h : createBlacklistedToken db now tokenHash expiresAt = some db1) :
    (∀ b ∈ db.blacklisted_tokens, b.TokenHash ≠ tokenHash) ∧
    db1 = { db with
      blacklisted_tokens := db.blacklisted_tokens ++
        [BeforeCreate now
          { ID := nextID (db.blacklisted_tokens.map (fun b => b.ID)), TokenHash := tokenHash,
            ExpiresAt := expiresAt, CreatedAt := 0, UpdatedAt := 0 }] } := by
  unfold createBlacklistedToken at h
  split at h
  · cases h
  · rename_i hany
    injection h with h
    refine ⟨?_, h.symm⟩
    intro b hb heq
    apply hany
    simp only [List.any_eq_true, decide_eq_true_eq]
    exact ⟨b, hb, heq⟩

/-- `RefreshToken` returns the store it was given. -/
theorem RefreshToken_store (D : Deps) (env : Env) (now : Nat) (db : DB) (req : Request) :
    (AuthController.RefreshToken D env now db req).2 = db := by
  unfold AuthController.RefreshToken
  repeat' split
  all_goals rfl

/-- `Login` either leaves the store as it was or appends one row to `refresh_tokens`. -/
theorem Login_store (D : Deps) (env : Env) (now : Nat) (rand : Option String) (db : DB)
    (req : Request) :
    (AuthController.Login D env now rand db req).2 = db ∨
    ∃ userID token,
      createRefreshToken db now userID token ((now : Int) + refreshLifetime) false
        = some (AuthController.Login D env now rand db req).2 := by
  unfold AuthController.Login
  cases hb : ShouldBindJSON req.body with
  | none => left; rfl
  | some body =>
    cases hu : findUserByUsername db body.Username with
    | none => left; simp [hu]
    | some user =>
      cases hp : D.CheckPassword body.Password user.Password with
      | false => left; simp [hu, hp]
      | true =>
        cases hr : rand with
        | none => left; simp [hu, hp]
        | some refreshToken =>
          cases hc : createRefreshToken db now (toString user.ID) refreshToken
              ((now : Int) + refreshLifetime) false with
          | none => left; simp [hu, hp, hc]
          | some db1 => right; exact ⟨toString user.ID, refreshToken, by simp [hu, hp, hc]⟩

/-- The store after `Logout`: as it was, or with one blacklist entry appended and the
revocation update run (or skipped, when it fails) for the cookie value. -/
theorem Logout_store (F : Faults) (D : Deps) (env : Env) (now : Nat) (db : DB)
    (req : Request) (ctx : Option Context) :
    (AuthController.Logout F D env now db req ctx).2 = db ∨
    ∃ R entry,
      req.refresh_token = some R ∧
      ((AuthController.Logout F D env now db req ctx).2
          = { db with blacklisted_tokens := db.blacklisted_tokens ++ [entry] } ∨
        (AuthController.Logout F D env now db req ctx).2
          = revokeRefreshToken
              { db with blacklisted_tokens := db.blacklisted_tokens ++ [entry] } R now) := by
  unfold AuthController.Logout
  by_cases hh : req.Authorization = "" ∨ HasPrefix req.Authorization "Bearer " = false
  · left; simp [hh]
  · cases hr : req.refresh_token with
    | none => left; simp [hh]
    | some refreshToken =>
      by_cases he : refreshToken = ""
      · left; simp [hh, he]
      · cases hp : (Parse D (fun _ => some (getJWTSecret env)) now
            (TrimPrefix req.Authorization "Bearer ")).1 with
        | none => left; simp [hh, he, hp]
        | some token =>
          by_cases hF : F.insert = true
          · left; simp [hh, he, hp, hF]
          · cases hc : createBlacklistedToken db now
                (D.SHA256Hash (TrimPrefix req.Authorization "Bearer "))
                (unixTime (AuthController.blacklistExpiry env now token)) with
            | none => left; simp [hh, he, hp, hF, hc]
            | some db1 =>
              right
              have hdb := (createBlacklistedToken_some _ _ _ _ _ hc).2
              refine ⟨refreshToken,
                BeforeCreate now
                  { ID := nextID (db.blacklisted_tokens.map (fun b => b.ID)),
                    TokenHash := D.SHA256Hash (TrimPrefix req.Authorization "Bearer "),
                    ExpiresAt := unixTime (AuthController.blacklistExpiry env now token),
                    CreatedAt := 0, UpdatedAt := 0 }, rfl, ?_⟩
              by_cases hu : F.update = true
              · left
                simp [hh, he, hp, hF, hc, hu]
                exact hdb
              · right
                simp [hh, he, hp, hF, hc, hu]
                rw [hdb]

/-- No served request removes or alters a blacklist entry. -/
theorem Step_blacklist (D : Deps) (env : Env) (db db2 : DB) (h : Step D env db db2) :
    ∀ b ∈ db.blacklisted_tokens, b ∈ db2.blacklisted_tokens := by
  intro b hb
  cases h with
  | login now rand _ req =>
    rcases Login_store D env now rand db req with h | ⟨userID, token, h⟩
    · rw [h]; exact hb
    · rw [(createRefreshToken_some _ _ _ _ _ _ _ h).2]; exact hb
  | refresh now _ req => rw [RefreshToken_store]; exact hb
  | logout F now _ req ctx =>
    rcases Logout_store F D env now db req ctx with h | ⟨R, entry, -, h | h⟩
    · rw [h]; exact hb
    · rw [h]
      simp [hb]
    · rw [h]
      simp [revokeRefreshToken, hb]
  | participants _ rows => exact hb

/-- Blacklist entries persist along any sequence of served requests. -/
theorem Reachable_blacklist (D : Deps) (env : Env) (db db2 : DB)
    (h : Reachable D env db db2) :
    ∀ b ∈ db.blacklisted_tokens, b ∈ db2.blacklisted_tokens := by
  induction h with
  | refl => exact fun b hb => hb
  | tail _ hstep ih => exact fun b hb => Step_blacklist D env _ _ hstep b (ih b hb)

/-! ### Tokens minted by this server -/

/-- The expiry, in Unix seconds, written into a token minted at `now`. -/
theorem accessClaims_exp (env : Env) (now : Nat) (user : User) :
    (accessClaims env now user).lookup "exp"
      = some (.number (Unix ((now : Int) + getJWTExpiresHours env) : ℚ)) := by
  simp [accessClaims, List.lookup]

theorem accessClaims_nbf (env : Env) (now : Nat) (user : User) :
    (accessClaims env now user).lookup "nbf" = none := by
  simp [accessClaims, List.lookup]

theorem accessClaims_user_id (env : Env) (now : Nat) (user : User) :
    (accessClaims env now user).lookup "user_id" = some (.number (user.ID : ℚ)) := by
  simp [accessClaims, List.lookup]

theorem accessClaims_username (env : Env) (now : Nat) (user : User) :
    (accessClaims env now user).lookup "username" = some (.string user.Username) := by
  simp [accessClaims, List.lookup]

/-- A whole number of seconds is a date after now when it is below `timeLimit` and after
now. -/
theorem dateAfter_intCast (now : Nat) (n : Int) :
    dateAfter now (n : ℚ) ↔ n < timeLimit ∧ (now : Int) < n * Second := by
  unfold dateAfter
  rw [Int.floor_intCast]

/-- A minted token whose `exp` is not 0 validates exactly while its `exp` is a date after
the clock reading. -/
theorem Validate_accessClaims (env : Env) (t0 : Nat) (user : User) (now : Nat)
    (hexp : Unix ((t0 : Int) + getJWTExpiresHours env) ≠ 0) :
    Validate (now : Int) (accessClaims env t0 user) = true ↔
      dateAfter now (Unix ((t0 : Int) + getJWTExpiresHours env) : ℚ) := by
  rw [validate_iff]
  unfold claimsInForce
  rw [accessClaims_exp, accessClaims_nbf]
  have hne : ((Unix ((t0 : Int) + getJWTExpiresHours env) : Int) : ℚ) ≠ 0 :=
    Int.cast_ne_zero.mpr hexp
  constructor
  · rintro ⟨h | h | ⟨e, h, hafter⟩, -⟩
    · cases h
    · injection h with h
      injection h with h
      exact absurd h hne
    · injection h with h
      injection h with h
      rw [h]
      exact hafter
  · intro h
    exact ⟨Or.inr (Or.inr ⟨_, rfl, h⟩), Or.inl rfl⟩

/-- Parsing a token signed with HS256 under the key the key function returns: valid
exactly when its claims validate. -/
theorem Parse_signed (D : Deps) (keyFunc : SigningMethod → Option String) (now : Int)
    (claims : MapClaims) (key : String) (hk : keyFunc .HS256 = some key)
    (hdec : DecodesSigned D .HS256 claims key) :
    Parse D keyFunc now (SignedString D .HS256 claims key)
      = if Validate now claims = true then (some ⟨some claims, true⟩, false)
        else (some ⟨some claims, false⟩, true) := by
  unfold Parse
  unfold DecodesSigned at hdec
  rw [hdec]
  have hm : GetSigningMethod SigningMethod.HS256.Alg = some .HS256 := by decide
  simp only [Option.some_bind, hm, hk]
  have hv : Verify D .HS256 (D.SigningString SigningMethod.HS256.Alg claims)
      (D.hmac .HS256 key (D.SigningString SigningMethod.HS256.Alg claims)) key = true := by
    simp [Verify, SigningMethod.isHMAC]
  rw [if_pos hv]

theorem zeroTime_neg : zeroTime < 0 := by decide

theorem getJWTExpiresHours_lt (env : Env) : getJWTExpiresHours env < 2 ^ 63 := by
  unfold getJWTExpiresHours
  split
  · exact wrapInt64_lt _
  · split <;> exact wrapInt64_lt _

/-- The `exp` of a token minted at a clock reading that fits the `int64` nanoseconds of
`UnixNano` (a date before the year 2262) is below `timeLimit`. -/
theorem minted_exp_lt_timeLimit (env : Env) (t0 : Nat) (h : (t0 : Int) < 2 ^ 63) :
    Unix ((t0 : Int) + getJWTExpiresHours env) < timeLimit := by
  have h1 := getJWTExpiresHours_lt env
  unfold Unix timeLimit unixToInternal Second
  rw [Int.fdiv_eq_ediv _ (by norm_num)]
  omega

/-- A token this server minted, with an `exp` other than 0, is aborted with 401 once its
`exp` is no longer a date after the clock reading. -/
theorem AuthMiddleware_minted_expired (D : Deps) (env : Env) (t0 : Nat) (user : User)
    (hdec : DecodesSigned D .HS256 (accessClaims env t0 user) (getJWTSecret env))
    (hexp0 : Unix ((t0 : Int) + getJWTExpiresHours env) ≠ 0)
    (now : Nat) (db : DB) (req : Request)
    (hreq : extractToken req = mintAccessToken D env t0 user)
    (hexp : ¬ dateAfter now (Unix ((t0 : Int) + getJWTExpiresHours env) : ℚ)) :
    ∃ resp, AuthMiddleware D env now db req = .abort resp ∧ resp.status = 401 := by
  rcases AuthMiddleware_cases D env now db req with ⟨claims, -, -, hp, -⟩ | ⟨-, hres⟩
  · exfalso
    rw [hreq] at hp
    unfold mintAccessToken at hp
    rw [Parse_signed D (middlewareKeyFunc env) now _ _ (by rfl) hdec] at hp
    have hf : ¬ Validate (now : Int) (accessClaims env t0 user) = true :=
      fun h => hexp ((Validate_accessClaims env t0 user now hexp0).mp h)
    rw [if_neg hf] at hp
    simp at hp
  · exact hres

/-- A token this server minted, with an `exp` other than 0, parses as valid, under any key
function that gives the secret for HS256, while its `exp` is a date after the clock
reading. -/
theorem Parse_minted_valid (D : Deps) (env : Env) (t0 : Nat) (user : User)
    (keyFunc : SigningMethod → Option String) (hk : keyFunc .HS256 = some (getJWTSecret env))
    (hdec : DecodesSigned D .HS256 (accessClaims env t0 user) (getJWTSecret env))
    (hexp0 : Unix ((t0 : Int) + getJWTExpiresHours env) ≠ 0) (now : Nat)
    (hafter : dateAfter now (Unix ((t0 : Int) + getJWTExpiresHours env) : ℚ)) :
    Parse D keyFunc now (mintAccessToken D env t0 user)
      = (some ⟨some (accessClaims env t0 user), true⟩, false) := by
  unfold mintAccessToken
  rw [Parse_signed D keyFunc now _ _ hk hdec,
    if_pos ((Validate_accessClaims env t0 user now hexp0).mpr hafter)]

theorem aliceDeps_codec :
    ∀ u ∈ aliceDB.users,
      DecodesSigned aliceDeps .HS256 (accessClaims sampleEnv 0 u) (getJWTSecret sampleEnv) := by
  intro u hu
  simp only [aliceDB, List.mem_singleton] at hu
  subst hu
  unfold DecodesSigned
  decide

/-- The state of a refresh-token value `R` after it was logged out at `t1`: it is the
token of some row, and every row that holds it is revoked or expired by `t1`. -/
theorem revokeRefreshToken_dead (db : DB) (R : String) (t1 : Int) :
    ∀ r ∈ (revokeRefreshToken db R t1).refresh_tokens,
      r.Token = R → r.Revoked = true ∨ r.ExpiresAt ≤ t1 := by
  intro r hr hR
  simp only [revokeRefreshToken, List.mem_map] at hr
  obtain ⟨r0, -, hr0⟩ := hr
  by_cases hc : r0.Token = R ∧ r0.Revoked = false ∧ r0.ExpiresAt > t1
  · rw [if_pos hc] at hr0
    subst hr0
    left; rfl
  · rw [if_neg hc] at hr0
    subst hr0
    by_cases hrev : r0.Revoked = true
    · left; exact hrev
    · right
      have hf : r0.Revoked = false := by simpa using hrev
      by_contra hgt
      exact hc ⟨hR, hf, by omega⟩

/-- The revocation update keeps every row's token and expiry and never clears a
`revoked` flag. -/
theorem revokeRefreshToken_rows (db : DB) (token : String) (now : Int) :
    ∀ r ∈ (revokeRefreshToken db token now).refresh_tokens,
      ∃ r0 ∈ db.refresh_tokens, r.Token = r0.Token ∧ r.ExpiresAt = r0.ExpiresAt ∧
        (r0.Revoked = true → r.Revoked = true) := by
  intro r hr
  simp only [revokeRefreshToken, List.mem_map] at hr
  obtain ⟨r0, hmem, hr0⟩ := hr
  refine ⟨r0, hmem, ?_⟩
  by_cases hc : r0.Token = token ∧ r0.Revoked = false ∧ r0.ExpiresAt > now
  · rw [if_pos hc] at hr0
    subst hr0
    exact ⟨rfl, rfl, fun _ => rfl⟩
  · rw [if_neg hc] at hr0
    subst hr0
    exact ⟨rfl, rfl, fun h => h⟩

theorem revokeRefreshToken_keeps (db : DB) (token : String) (now : Int) :
    ∀ r0 ∈ db.refresh_tokens, ∃ r ∈ (revokeRefreshToken db token now).refresh_tokens,
      r.Token = r0.Token := by
  intro r0 hmem
  simp only [revokeRefreshToken, List.mem_map]
  by_cases hc : r0.Token = token ∧ r0.Revoked = false ∧ r0.ExpiresAt > now
  · exact ⟨_, ⟨r0, hmem, rfl⟩, by rw [if_pos hc]⟩
  · exact ⟨_, ⟨r0, hmem, rfl⟩, by rw [if_neg hc]⟩

/-- A refresh-token value that is stored and dead (revoked or expired by `t1` in every
row that holds it) stays so through any served request. -/
theorem Step_dead (D : Deps) (env : Env) (R : String) (t1 : Int) (db db2 : DB)
    (h : Step D env db db2)
    (hex : ∃ r ∈ db.refresh_tokens, r.Token = R)
    (hdead : ∀ r ∈ db.refresh_tokens, r.Token = R → r.Revoked = true ∨ r.ExpiresAt ≤ t1) :
    (∃ r ∈ db2.refresh_tokens, r.Token = R) ∧
    (∀ r ∈ db2.refresh_tokens, r.Token = R → r.Revoked = true ∨ r.ExpiresAt ≤ t1) := by
  cases h with
  | login now rand _ req =>
    rcases Login_store D env now rand db req with h | ⟨userID, token, h⟩
    · rw [h]; exact ⟨hex, hdead⟩
    · obtain ⟨hfresh, hdb⟩ := createRefreshToken_some _ _ _ _ _ _ _ h
      rw [hdb]
      obtain ⟨r0, hr0, hR0⟩ := hex
      refine ⟨⟨r0, by simp [hr0], hR0⟩, ?_⟩
      intro r hr hR
      simp only [List.mem_append, List.mem_singleton] at hr
      rcases hr with hr | hr
      · exact hdead r hr hR
      · exfalso
        subst hr
        exact hfresh r0 hr0 (hR0.trans hR.symm)
  | refresh now _ req => rw [RefreshToken_store]; exact ⟨hex, hdead⟩
  | logout F now _ req ctx =>
    rcases Logout_store F D env now db req ctx with h | ⟨refreshToken, entry, -, h | h⟩
    · rw [h]; exact ⟨hex, hdead⟩
    · rw [h]; exact ⟨hex, hdead⟩
    · rw [h]
      constructor
      · obtain ⟨r0, hr0, hR0⟩ := hex
        obtain ⟨r, hr, hT⟩ := revokeRefreshToken_keeps
          { db with blacklisted_tokens := db.blacklisted_tokens ++ [entry] } refreshToken now
          r0 hr0
        exact ⟨r, hr, hT.trans hR0⟩
      · intro r hr hR
        obtain ⟨r0, hmem, hT, hE, hrev⟩ := revokeRefreshToken_rows
          { db with blacklisted_tokens := db.blacklisted_tokens ++ [entry] } refreshToken now
          r hr
        rcases hdead r0 hmem (hT.symm.trans hR) with h1 | h1
        · left; exact hrev h1
        · right; rw [hE]; exact h1
  | participants _ rows => exact ⟨hex, hdead⟩

theorem Reachable_dead (D : Deps) (env : Env) (R : String) (t1 : Int) (db db2 : DB)
    (h : Reachable D env db db2)
    (hex : ∃ r ∈ db.refresh_tokens, r.Token = R)
    (hdead : ∀ r ∈ db.refresh_tokens, r.Token = R → r.Revoked = true ∨ r.ExpiresAt ≤ t1) :
    (∃ r ∈ db2.refresh_tokens, r.Token = R) ∧
    (∀ r ∈ db2.refresh_tokens, r.Token = R → r.Revoked = true ∨ r.ExpiresAt ≤ t1) := by
  induction h with
  | refl => exact ⟨hex, hdead⟩
  | tail _ hstep ih => exact Step_dead D env R t1 _ _ hstep ih.1 ih.2

/-- `RefreshToken` answers 401 when no row holds the cookie value unrevoked and unexpired. -/
theorem RefreshToken_unauthorized (D : Deps) (env : Env) (now : Nat) (db : DB)
    (req : Request) (R : String) (hreq : req.refresh_token = some R)
    (hnone : findRefreshToken db R now = none) :
    (AuthController.RefreshToken D env now db req).1.status = 401 := by
  unfold AuthController.RefreshToken
  rw [hreq]
  by_cases he : R = ""
  · simp [he, ResponseUnauthorized, ResponseError]
  · simp [he, hnone, ResponseUnauthorized, ResponseError]

/-- No usable row is left for a refresh-token value that is dead at `t1`, at any time
from `t1` on. -/
theorem findRefreshToken_dead (db : DB) (R : String) (t1 t2 : Nat) (hlater : t1 ≤ t2)
    (hdead : ∀ r ∈ db.refresh_tokens, r.Token = R →
      r.Revoked = true ∨ r.ExpiresAt ≤ (t1 : Int)) :
    findRefreshToken db R t2 = none := by
  unfold findRefreshToken
  rw [List.find?_eq_none]
  intro r hr hmatch
  simp only [Bool.and_eq_true, decide_eq_true_eq, Bool.not_eq_true'] at hmatch
  obtain ⟨⟨hT, hrev⟩, hexp⟩ := hmatch
  have hle : (t1 : Int) ≤ (t2 : Int) := by exact_mod_cast hlater
  rcases hdead r hr hT with h | h
  · rw [h] at hrev; cases hrev
  · omega

/-- The answer of `RefreshToken` depends on the store only through the tables
`refresh_tokens` and `users`. -/
theorem RefreshToken_congr (D : Deps) (env : Env) (now : Nat) (db db2 : DB) (req : Request)
    (hr : db2.refresh_tokens = db.refresh_tokens) (hu : db2.users = db.users) :
    (AuthController.RefreshToken D env now db2 req).1
      = (AuthController.RefreshToken D env now db req).1 := by
  unfold AuthController.RefreshToken findRefreshToken findUserByID findUserByValue
  rw [hr, hu]
  repeat' split
  all_goals rfl

/-- C3 (counterexample): the revocation update of the `Logout` of `alice` fails.  `Logout`
responds 200 all the same, and four seconds later her refresh token `r1` is served by
`RefreshToken`. -/
theorem logout_update_fault_counterexample :
    aliceLogout.refresh_token = some "r1" ∧ aliceRefresh.refresh_token = some "r1" ∧
    (AuthController.Logout updateFault aliceDeps sampleEnv 1000000000 aliceLoggedIn
      aliceLogout none).1.status = some 200 ∧
    (AuthController.RefreshToken aliceDeps sampleEnv 5000000000
      (AuthController.Logout updateFault aliceDeps sampleEnv 1000000000 aliceLoggedIn
        aliceLogout none).2 aliceRefresh).1.status = 200 := by
  refine ⟨rfl, rfl, ?_, ?_⟩ <;> with_unfolding_all decide

/-- C3 (as amended): once a `Logout` carrying the refresh token `R` in its cookie has
responded 200 and its revocation update did not fail, `RefreshToken` answers 401 to `R`
at every later time: on the store that `Logout` left, for any cookie value `R`; and, when
`R` is the token of a stored row (a refresh token that was issued), on every store
reached from there by any sequence of served requests.  When the update statement
failed, `Logout` has left the table `refresh_tokens` as it was, and `RefreshToken`
answers on the store it left as it does on the store before. -/
theorem logout_revokes_refresh_token (F : Faults) (D : Deps) (env : Env) (t1 : Nat)
    (db1 : DB) (reqL : Request) (ctx : Option Context) (R : String)
    (hcookie : reqL.refresh_token = some R)
    (hlogout : (AuthController.Logout F D env t1 db1 reqL ctx).1.status = some 200)
    (t2 : Nat) (hlater : t1 ≤ t2) (req2 : Request) (hpresent : req2.refresh_token = some R) :
    (F.update = false →
      (AuthController.RefreshToken D env t2
        (AuthController.Logout F D env t1 db1 reqL ctx).2 req2).1.status = 401 ∧
      ((∃ r ∈ db1.refresh_tokens, r.Token = R) →
        ∀ db2, Reachable D env (AuthController.Logout F D env t1 db1 reqL ctx).2 db2 →
          (AuthController.RefreshToken D env t2 db2 req2).1.status = 401)) ∧
    (F.update = true →
      (AuthController.Logout F D env t1 db1 reqL ctx).2.refresh_tokens = db1.refresh_tokens ∧
      (AuthController.RefreshToken D env t2
          (AuthController.Logout F D env t1 db1 reqL ctx).2 req2).1
        = (AuthController.RefreshToken D env t2 db1 req2).1) := by
  obtain ⟨R0, token, dbB, -, -, hR0, -, -, -, hcreate, hstore⟩ :=
    Logout_ok F D env t1 db1 reqL ctx hlogout
  rw [hcookie] at hR0
  injection hR0 with hR0
  subst hR0
  have hdb := (createBlacklistedToken_some _ _ _ _ _ hcreate).2
  have hrows : dbB.refresh_tokens = db1.refresh_tokens := by rw [hdb]
  have husers : dbB.users = db1.users := by rw [hdb]
  rw [hstore]
  constructor
  · intro hupdate
    simp only [hupdate, Bool.false_eq_true, if_false]
    constructor
    · exact RefreshToken_unauthorized D env t2 _ req2 R hpresent
        (findRefreshToken_dead _ R t1 t2 hlater (revokeRefreshToken_dead dbB R t1))
    · intro hissued db2 hreach
      have hex : ∃ r ∈ (revokeRefreshToken dbB R t1).refresh_tokens, r.Token = R := by
        obtain ⟨r0, hr0, hT0⟩ := hissued
        obtain ⟨r, hr, hT⟩ := revokeRefreshToken_keeps dbB R t1 r0 (by rw [hrows]; exact hr0)
        exact ⟨r, hr, hT.trans hT0⟩
      obtain ⟨-, hdead⟩ := Reachable_dead D env R t1 _ _ hreach hex
        (revokeRefreshToken_dead dbB R t1)
      exact RefreshToken_unauthorized D env t2 db2 req2 R hpresent
        (findRefreshToken_dead db2 R t1 t2 hlater hdead)
  · intro hupdate
    simp only [hupdate, if_true]
    exact ⟨hrows, RefreshToken_congr D env t2 db1 dbB req2 hrows husers⟩

set_option maxRecDepth 100000 in
/-- C3 (witness): `alice` logs out one second after her login; four seconds later her
refresh token `r1`, accepted on the store as the login left it, is refused, also after a
further login has been served. -/
theorem logout_revokes_refresh_token_witness :
    (AuthController.RefreshToken aliceDeps sampleEnv 5000000000 aliceLoggedIn
      aliceRefresh).1.status = 200 ∧
    (AuthController.RefreshToken aliceDeps sampleEnv 5000000000
      (AuthController.Logout noFaults aliceDeps sampleEnv 1000000000 aliceLoggedIn aliceLogout
        none).2
      aliceRefresh).1.status = 401 ∧
    (AuthController.RefreshToken aliceDeps sampleEnv 5000000000
      (AuthController.Login aliceDeps sampleEnv 3000000000 (some "r2")
        (AuthController.Logout noFaults aliceDeps sampleEnv 1000000000 aliceLoggedIn
          aliceLogout none).2 aliceLogin).2
      aliceRefresh).1.status = 401 :=
  ⟨by decide,
   ((logout_revokes_refresh_token noFaults aliceDeps sampleEnv 1000000000 aliceLoggedIn
      aliceLogout none "r1" rfl (by with_unfolding_all decide) 5000000000 (by decide)
      aliceRefresh rfl).1 rfl).1,
   ((logout_revokes_refresh_token noFaults aliceDeps sampleEnv 1000000000 aliceLoggedIn
      aliceLogout none "r1" rfl (by with_unfolding_all decide) 5000000000 (by decide)
      aliceRefresh rfl).1 rfl).2 (by decide) _
      (Relation.ReflTransGen.single
        (Step.login 3000000000 (some "r2") _ aliceLogin))⟩

/-! ### `RefreshToken` -/

theorem findRefreshToken_none_iff (db : DB) (R : String) (now : Nat) :
    findRefreshToken db R now = none ↔ ¬ ∃ row ∈ db.refresh_tokens, usableRow R now row := by
  unfold findRefreshToken usableRow
  rw [List.find?_eq_none]
  simp only [Bool.and_eq_true, decide_eq_true_eq, Bool.not_eq_true', not_exists, not_and,
    and_imp]

theorem findRefreshToken_some (db : DB) (R : String) (now : Nat) (rt : RefreshToken)
    (h : findRefreshToken db R now = some rt) :
    rt ∈ db.refresh_tokens ∧ usableRow R now rt := by
  unfold findRefreshToken at h
  refine ⟨List.mem_of_find?_eq_some h, ?_⟩
  have := List.find?_some h
  simpa [usableRow, and_assoc] using this

/-- The lookup by id text finds a user exactly when that user is the owner the engine
selects. -/
theorem findUserByID_found_iff (D : Deps) (db : DB) (row : RefreshToken) (user : User) :
    findUserByID D db row.UserID = .found user ↔ ownerOf D db row user := by
  unfold findUserByID findUserByValue ownerOf
  cases hq : D.idEquals (.string row.UserID) with
  | none => simp
  | some test =>
    cases hf : db.users.find? (fun u => test u.ID) with
    | none => simp [hf]
    | some u => simp [hf]

/-- The owner of a row is a stored user whose id the engine finds equal to the row's
`user_id`. -/
theorem ownerOf_mem (D : Deps) (db : DB) (row : RefreshToken) (user : User)
    (h : ownerOf D db row user) :
    user ∈ db.users ∧ ∃ test, D.idEquals (.string row.UserID) = some test ∧
      test user.ID = true := by
  obtain ⟨test, hq, hf⟩ := h
  refine ⟨List.mem_of_find?_eq_some hf, test, hq, ?_⟩
  simpa using List.find?_some hf

/-- The first row of a list that a test selects, when the test selects the rows with the
key of `user` and `user` is the only row with its key. -/
theorem find?_unique_key (users : List User) (test : Int → Bool) (user : User)
    (hmem : user ∈ users) (htest : ∀ key, test key = true ↔ key = user.ID)
    (huniq : ∀ u ∈ users, u.ID = user.ID → u = user) :
    users.find? (fun u => test u.ID) = some user := by
  induction users with
  | nil => cases hmem
  | cons u rest ih =>
    rw [List.find?_cons]
    by_cases hu : test u.ID = true
    · rw [hu]
      have := huniq u (List.mem_cons_self _ _) ((htest _).mp hu)
      rw [this]
    · have hu2 : test u.ID = false := by simpa using hu
      rw [hu2]
      have hne : user ≠ u := by
        intro he
        subst he
        exact hu ((htest _).mpr rfl)
      have hmem2 : user ∈ rest := by
        rcases List.mem_cons.mp hmem with h | h
        · exact absurd h hne
        · exact h
      exact ih hmem2 (fun v hv => huniq v (List.mem_cons_of_mem _ hv))

/-- `RefreshToken` responds 200 exactly when the cookie is non-empty, a usable row is
found and the lookup of its owner finds a user. -/
theorem RefreshToken_ok_iff (D : Deps) (env : Env) (now : Nat) (db : DB) (req : Request) :
    (AuthController.RefreshToken D env now db req).1.status = 200 ↔
      ∃ R rt user, req.refresh_token = some R ∧ R ≠ "" ∧
        findRefreshToken db R now = some rt ∧
        findUserByID D db rt.UserID = .found user := by
  unfold AuthController.RefreshToken
  cases hc : req.refresh_token with
  | none => simp [ResponseUnauthorized, ResponseError]
  | some R =>
    by_cases he : R = ""
    · simp [he, ResponseUnauthorized, ResponseError]
    · cases hf : findRefreshToken db R now with
      | none => simp [he, hf, ResponseUnauthorized, ResponseError]
      | some rt =>
        cases hu : findUserByID D db rt.UserID with
        | found user => simp [he, hf, hu]
        | notFound => simp [he, hf, hu, ResponseInternalServerError, ResponseError]
        | failed => simp [he, hf, hu, ResponseInternalServerError, ResponseError]

/-- The token `RefreshToken` returns when the row and its owner are found. -/
theorem RefreshToken_token (D : Deps) (env : Env) (now : Nat) (db : DB) (req : Request)
    (R : String) (rt : RefreshToken) (user : User)
    (hc : req.refresh_token = some R) (he : R ≠ "")
    (hf : findRefreshToken db R now = some rt)
    (hu : findUserByID D db rt.UserID = .found user) :
    (AuthController.RefreshToken D env now db req).1.token
      = some (mintAccessToken D env now user) := by
  unfold AuthController.RefreshToken
  simp [hc, he, hf, hu]

/-- C4 (counterexample): a row with the cookie's token, not revoked and unexpired,
exists, yet `RefreshToken` responds 500: the row's `user_id` names no stored user. -/
theorem RefreshToken_iff_counterexample :
    (∃ row ∈ orphanDB.refresh_tokens, usableRow "r7" 0 row) ∧
    orphanRefresh.refresh_token = some "r7" ∧
    (AuthController.RefreshToken (sampleDeps []) sampleEnv 0 orphanDB orphanRefresh).1.status
      = 500 := by
  refine ⟨⟨orphanRow, by simp [orphanDB], by unfold usableRow; decide⟩, rfl, by decide⟩

/-- C4 (as amended): `RefreshToken` responds 200 if and only if the cookie is present and
non-empty, a row holds its value unrevoked and unexpired, and the database finds an owner
for the first such row: a stored user whose `id` it finds equal to the row's `user_id`
text; the response then carries an access token newly minted with that user's `user_id`
and `username`.  With the cookie missing or empty, or no such row, it responds 401; with
such a row for which the lookup of the owner finds no user or fails, 500.  For an engine
that reads the decimal text of a 64-bit integer as that integer, the owner of a row
whose `user_id` is the decimal text of the id of a stored user (as `Login` writes it) is
that user, ids being unique. -/
theorem RefreshToken_spec (D : Deps) (env : Env) (now : Nat) (db : DB) (req : Request) :
    ((AuthController.RefreshToken D env now db req).1.status = 200 ↔
      ∃ R rt user, req.refresh_token = some R ∧ R ≠ "" ∧
        findRefreshToken db R now = some rt ∧ ownerOf D db rt user) ∧
    (∀ R rt user, req.refresh_token = some R → R ≠ "" →
      findRefreshToken db R now = some rt → ownerOf D db rt user →
      rt ∈ db.refresh_tokens ∧ usableRow R now rt ∧ user ∈ db.users ∧
      (AuthController.RefreshToken D env now db req).1.token
        = some (SignedString D .HS256 (accessClaims env now user) (getJWTSecret env)) ∧
      (accessClaims env now user).lookup "user_id" = some (.number (user.ID : ℚ)) ∧
      (accessClaims env now user).lookup "username" = some (.string user.Username)) ∧
    ((req.refresh_token = none ∨ req.refresh_token = some "" ∨
        ∃ R, req.refresh_token = some R ∧ ¬ ∃ row ∈ db.refresh_tokens, usableRow R now row) →
      (AuthController.RefreshToken D env now db req).1.status = 401) ∧
    (∀ R rt, req.refresh_token = some R → R ≠ "" →
      findRefreshToken db R now = some rt → (¬ ∃ user, ownerOf D db rt user) →
      (AuthController.RefreshToken D env now db req).1.status = 500) ∧
    (readsDecimal D → ∀ (rt : RefreshToken) (user : User), user ∈ db.users →
      -(2 ^ 63 : Int) ≤ user.ID → user.ID < 2 ^ 63 →
      (∀ u ∈ db.users, u.ID = user.ID → u = user) → rt.UserID = toString user.ID →
      ownerOf D db rt user) := by
  refine ⟨?_, ?_, ?_, ?_, ?_⟩
  · rw [RefreshToken_ok_iff]
    constructor
    · rintro ⟨R, rt, user, hc, he, hf, hu⟩
      exact ⟨R, rt, user, hc, he, hf, (findUserByID_found_iff D db rt user).mp hu⟩
    · rintro ⟨R, rt, user, hc, he, hf, hu⟩
      exact ⟨R, rt, user, hc, he, hf, (findUserByID_found_iff D db rt user).mpr hu⟩
  · intro R rt user hc he hf hu
    refine ⟨(findRefreshToken_some db R now rt hf).1, (findRefreshToken_some db R now rt hf).2,
      (ownerOf_mem D db rt user hu).1, ?_, accessClaims_user_id env now user,
      accessClaims_username env now user⟩
    exact RefreshToken_token D env now db req R rt user hc he hf
      ((findUserByID_found_iff D db rt user).mpr hu)
  · rintro (hc | hc | ⟨R, hc, hno⟩)
    · unfold AuthController.RefreshToken
      simp [hc, ResponseUnauthorized, ResponseError]
    · unfold AuthController.RefreshToken
      simp [hc, ResponseUnauthorized, ResponseError]
    · exact RefreshToken_unauthorized D env now db req R hc
        ((findRefreshToken_none_iff db R now).mpr hno)
  · intro R rt hc he hf hno
    unfold AuthController.RefreshToken
    cases hu : findUserByID D db rt.UserID with
    | found user => exact absurd ⟨user, (findUserByID_found_iff D db rt user).mp hu⟩ hno
    | notFound => simp [hc, he, hf, hu, ResponseInternalServerError, ResponseError]
    | failed => simp [hc, he, hf, hu, ResponseInternalServerError, ResponseError]
  · intro hread rt user hmem hlo hhi huniq hid
    obtain ⟨test, hq, htest⟩ := hread user.ID hlo hhi
    refine ⟨test, by rw [hid]; exact hq, ?_⟩
    exact find?_unique_key db.users test user hmem htest huniq

/-- The row served for a cookie value is served again at any later time before it
expires. -/
theorem findRefreshToken_later (db : DB) (R : String) (now now2 : Nat) (rt : RefreshToken)
    (h : findRefreshToken db R now = some rt) (hle : now ≤ now2)
    (hexp : rt.ExpiresAt > (now2 : Int)) :
    findRefreshToken db R now2 = some rt := by
  unfold findRefreshToken at h ⊢
  have hle2 : (now : Int) ≤ (now2 : Int) := by exact_mod_cast hle
  generalize db.refresh_tokens = rows at h ⊢
  induction rows with
  | nil => simp at h
  | cons r rest ih =>
    rw [List.find?_cons] at h ⊢
    by_cases hp : (decide (r.Token = R) && !r.Revoked && decide (r.ExpiresAt > (now : Int)))
        = true
    · rw [hp] at h
      injection h with h
      subst h
      have hp2 : (decide (r.Token = R) && !r.Revoked && decide (r.ExpiresAt > (now2 : Int)))
          = true := by
        simp only [Bool.and_eq_true, decide_eq_true_eq] at hp ⊢
        exact ⟨hp.1, hexp⟩
      rw [hp2]
    · have hp1 : (decide (r.Token = R) && !r.Revoked && decide (r.ExpiresAt > (now : Int)))
          = false := by simpa using hp
      rw [hp1] at h
      have hp2 : (decide (r.Token = R) && !r.Revoked && decide (r.ExpiresAt > (now2 : Int)))
          = false := by
        rw [Bool.eq_false_iff] at hp1 ⊢
        intro hq
        apply hp1
        simp only [Bool.and_eq_true, decide_eq_true_eq] at hq ⊢
        exact ⟨hq.1, by omega⟩
      rw [hp2]
      exact ih h

/-- C5: `RefreshToken` returns the store unchanged (all tables), and a refresh token that
was just used successfully is accepted again by a following `RefreshToken` call on the
returned store, at any time before the served row expires (no rotation). -/
theorem RefreshToken_no_rotation (D : Deps) (env : Env) (now : Nat) (db : DB)
    (req : Request) :
    (AuthController.RefreshToken D env now db req).2 = db ∧
    ((AuthController.RefreshToken D env now db req).1.status = 200 →
      ∀ R rt, req.refresh_token = some R → findRefreshToken db R now = some rt →
      ∀ now2 : Nat, now ≤ now2 → rt.ExpiresAt > (now2 : Int) →
        (AuthController.RefreshToken D env now2
          (AuthController.RefreshToken D env now db req).2 req).1.status = 200) := by
  refine ⟨RefreshToken_store D env now db req, ?_⟩
  intro h200 R rt hc hf now2 hle hexp
  rw [RefreshToken_store]
  obtain ⟨R1, rt1, user, hc1, he, hf1, hu⟩ := (RefreshToken_ok_iff D env now db req).mp h200
  rw [hc] at hc1
  injection hc1 with hc1
  subst hc1
  rw [hf] at hf1
  injection hf1 with hf1
  subst hf1
  exact (RefreshToken_ok_iff D env now2 db req).mpr
    ⟨R, rt, user, hc, he, findRefreshToken_later db R now now2 rt hf hle hexp, hu⟩

/-! ### `Login` -/

theorem findUserByUsername_some (db : DB) (username : String) (user : User)
    (h : findUserByUsername db username = some user) :
    user ∈ db.users ∧ user.Username = username := by
  unfold findUserByUsername at h
  refine ⟨List.mem_of_find?_eq_some h, ?_⟩
  simpa using List.find?_some h

/-- C6: a `Login` that responds 200 leaves the store as it was but for exactly one new
row appended to `refresh_tokens`; the row is not revoked, expires 7 days after now,
carries the id of the authenticated user (the stored user with the submitted username,
whose password matched) and holds the token set as the value of the `refresh_token`
cookie, a token no earlier row holds. -/
theorem Login_creates_one_refresh_token (D : Deps) (env : Env) (now : Nat)
    (rand : Option String) (db : DB) (req : Request)
    (h : (AuthController.Login D env now rand db req).1.status = 200) :
    ∃ row body user,
      (AuthController.Login D env now rand db req).2
        = { db with refresh_tokens := db.refresh_tokens ++ [row] } ∧
      (∀ r ∈ db.refresh_tokens, r.Token ≠ row.Token) ∧
      row.Revoked = false ∧
      row.ExpiresAt = (now : Int) + 7 * 24 * Hour ∧
      ShouldBindJSON req.body = some body ∧
      user ∈ db.users ∧ user.Username = body.Username ∧
      D.CheckPassword body.Password user.Password = true ∧
      row.UserID = toString user.ID ∧
      ∃ cookie, (AuthController.Login D env now rand db req).1.cookies = [cookie] ∧
        cookie.Name = "refresh_token" ∧ cookie.Value = row.Token := by
  obtain ⟨body, user, refreshToken, db1, hb, hu, hp, -, hc, hL⟩ :=
    Login_ok D env now rand db req h
  obtain ⟨hfresh, hdb⟩ := createRefreshToken_some _ _ _ _ _ _ _ hc
  obtain ⟨hmem, hname⟩ := findUserByUsername_some db _ user hu
  refine ⟨{ ID := nextID (db.refresh_tokens.map (fun r => r.ID)),
            UserID := toString user.ID, Token := refreshToken,
            ExpiresAt := (now : Int) + refreshLifetime, Revoked := false,
            CreatedAt := now, UpdatedAt := now }, body, user, ?_, hfresh, rfl, rfl, hb,
          hmem, hname, hp, rfl, refreshCookie now refreshToken, ?_, rfl, rfl⟩
  · rw [hL]; exact hdb
  · rw [hL]

/-- C6 (witness): the login of `alice` at time 0. -/
theorem Login_creates_one_refresh_token_witness :
    ∃ row body user,
      (AuthController.Login aliceDeps sampleEnv 0 (some "r1") aliceDB aliceLogin).2
        = { aliceDB with refresh_tokens := aliceDB.refresh_tokens ++ [row] } ∧
      (∀ r ∈ aliceDB.refresh_tokens, r.Token ≠ row.Token) ∧
      row.Revoked = false ∧
      row.ExpiresAt = ((0 : Nat) : Int) + 7 * 24 * Hour ∧
      ShouldBindJSON aliceLogin.body = some body ∧
      user ∈ aliceDB.users ∧ user.Username = body.Username ∧
      aliceDeps.CheckPassword body.Password user.Password = true ∧
      row.UserID = toString user.ID ∧
      ∃ cookie,
        (AuthController.Login aliceDeps sampleEnv 0 (some "r1") aliceDB aliceLogin).1.cookies
          = [cookie] ∧
        cookie.Name = "refresh_token" ∧ cookie.Value = row.Token :=
  Login_creates_one_refresh_token aliceDeps sampleEnv 0 (some "r1") aliceDB aliceLogin
    (by decide)

set_option maxRecDepth 100000 in
/-- C8 (counterexample): under `JWT_EXPIRES_HOURS=-1` the token `Login` mints for `alice`
one hour after the epoch has the `exp` claim 0, the epoch; a second after it was minted,
an hour and a second after its `exp`, `AuthMiddleware` lets it through. -/
theorem minted_exp_zero_counterexample :
    (AuthController.Login epochDeps pastLifetimeEnv 3600000000000 (some "r1") aliceDB
      aliceLogin).1.token = some (mintAccessToken epochDeps pastLifetimeEnv 3600000000000 alice) ∧
    (accessClaims pastLifetimeEnv 3600000000000 alice).lookup "exp" = some (.number 0) ∧
    AuthMiddleware epochDeps pastLifetimeEnv 3601000000000 aliceDB
      (bearerRequest (mintAccessToken epochDeps pastLifetimeEnv 3600000000000 alice))
      = .next (some aliceContext) := by
  refine ⟨by decide, by decide, by with_unfolding_all decide⟩

/-- C8 (as amended): for every user, environment and clock reading at which the `exp`
written into the token is not the number 0, the access token `Login` or `RefreshToken`
mints for the user is signed with the secret `AuthMiddleware` verifies with; while not
blacklisted it is accepted by `AuthMiddleware` at every time before its `exp` claim (an
`exp` below `timeLimit`, as it is for every clock reading before the year 2262), with
`user_id` and `username` of the user placed in the request context, and it is rejected
with 401 at every time from its `exp` claim on.  Assumed of the JWT library: the minted
token decodes to what was signed, and the empty text is not a token. -/
theorem minted_token_accepted_until_exp (D : Deps) (env : Env) (u : User) (t0 : Nat)
    (hdec : DecodesSigned D .HS256 (accessClaims env t0 u) (getJWTSecret env))
    (hempty : D.decode "" = Segments.wrongCount)
    (hexp0 : Unix ((t0 : Int) + getJWTExpiresHours env) ≠ 0) :
    (mintAccessToken D env t0 u
        = SignedString D .HS256 (accessClaims env t0 u) (getJWTSecret env) ∧
      middlewareKeyFunc env .HS256 = some (getJWTSecret env)) ∧
    (∀ rand db0 req0 body, ShouldBindJSON req0.body = some body →
      findUserByUsername db0 body.Username = some u →
      (AuthController.Login D env t0 rand db0 req0).1.status = 200 →
      (AuthController.Login D env t0 rand db0 req0).1.token
        = some (mintAccessToken D env t0 u)) ∧
    (∀ db0 req0 R rt, req0.refresh_token = some R → findRefreshToken db0 R t0 = some rt →
      findUserByID D db0 rt.UserID = .found u →
      (AuthController.RefreshToken D env t0 db0 req0).1.status = 200 →
      (AuthController.RefreshToken D env t0 db0 req0).1.token
        = some (mintAccessToken D env t0 u)) ∧
    (∀ (now : Nat) (db : DB) (req : Request),
      extractToken req = mintAccessToken D env t0 u →
      (notBlacklisted D db now (mintAccessToken D env t0 u) →
        Unix ((t0 : Int) + getJWTExpiresHours env) < timeLimit →
        (now : Int) < Unix ((t0 : Int) + getJWTExpiresHours env) * Second →
        AuthMiddleware D env now db req
          = .next (some ⟨some (.number (u.ID : ℚ)), some (.string u.Username)⟩)) ∧
      (Unix ((t0 : Int) + getJWTExpiresHours env) * Second ≤ (now : Int) →
        ∃ resp, AuthMiddleware D env now db req = .abort resp ∧ resp.status = 401)) ∧
    ((t0 : Int) < 2 ^ 63 → Unix ((t0 : Int) + getJWTExpiresHours env) < timeLimit) := by
  refine ⟨⟨rfl, rfl⟩, ?_, ?_, ?_, minted_exp_lt_timeLimit env t0⟩
  · intro rand db0 req0 body hb hu h200
    obtain ⟨body1, user1, refreshToken, db1, hb1, hu1, -, -, -, hL⟩ :=
      Login_ok D env t0 rand db0 req0 h200
    rw [hb] at hb1
    injection hb1 with hb1
    subst hb1
    rw [hu] at hu1
    injection hu1 with hu1
    subst hu1
    rw [hL]
  · intro db0 req0 R rt hc hf hu h200
    have hne : R ≠ "" := by
      intro he
      subst he
      unfold AuthController.RefreshToken at h200
      simp [hc, ResponseUnauthorized, ResponseError] at h200
    exact RefreshToken_token D env t0 db0 req0 R rt u hc hne hf hu
  · intro now db req hreq
    constructor
    · intro hnb hlim hlt
      have hT : mintAccessToken D env t0 u ≠ "" := by
        intro he
        have h1 : D.decode (mintAccessToken D env t0 u) = Segments.wrongCount := by
          rw [he]; exact hempty
        unfold DecodesSigned at hdec
        unfold mintAccessToken at h1
        rw [hdec] at h1
        cases h1
      have hbl := (findBlacklisted_none_iff D db now _).mpr hnb
      have hparse := Parse_minted_valid D env t0 u (middlewareKeyFunc env) rfl hdec hexp0 now
        ((dateAfter_intCast now _).mpr ⟨hlim, hlt⟩)
      unfold AuthMiddleware
      simp only [hreq, hT, if_false, hbl, hparse, if_true, accessClaims_user_id,
        accessClaims_username]
    · intro hge
      refine AuthMiddleware_minted_expired D env t0 u hdec hexp0 now db req hreq ?_
      rw [dateAfter_intCast]
      intro h
      omega

set_option maxRecDepth 100000 in
/-- C8 (witness): the token minted for `alice` at time 0 (24-hour lifetime) is accepted
five seconds later with her identity in the context, and refused with 401 at the instant
of its `exp`, 86400 s. -/
theorem minted_token_accepted_until_exp_witness :
    AuthMiddleware aliceDeps sampleEnv 5000000000 aliceDB (bearerRequest aliceToken)
      = .next (some ⟨some (.number 1), some (.string "alice")⟩) ∧
    ∃ resp,
      AuthMiddleware aliceDeps sampleEnv 86400000000000 aliceDB (bearerRequest aliceToken)
        = .abort resp ∧ resp.status = 401 :=
  ⟨by
    have h := ((minted_token_accepted_until_exp aliceDeps sampleEnv alice 0
        (aliceDeps_codec alice (by simp [aliceDB])) (by decide) (by decide)).2.2.2.1
      5000000000 aliceDB (bearerRequest aliceToken)
      (extractToken_bearerRequest aliceToken)).1
      (by intro b hb; simp [aliceDB] at hb) (by decide) (by decide)
    simpa [alice] using h,
   ((minted_token_accepted_until_exp aliceDeps sampleEnv alice 0
        (aliceDeps_codec alice (by simp [aliceDB])) (by decide) (by decide)).2.2.2.1
      86400000000000 aliceDB (bearerRequest aliceToken)
      (extractToken_bearerRequest aliceToken)).2 (by decide)⟩

/-! ### Signing algorithm and secret -/

theorem GetSigningMethod_Alg (m : SigningMethod) : GetSigningMethod m.Alg = some m := by
  cases m <;> decide

theorem ite_some_isHMAC {c : Prop} [Decidable c] {a m : SigningMethod}
    {e : Option SigningMethod} (h : (if c then some a else e) = some m)
    (hm : m.isHMAC = true) (ha : a.isHMAC = false) : e = some m := by
  by_cases hc : c
  · rw [if_pos hc] at h
    injection h with h
    subst h
    rw [ha] at hm
    cases hm
  · rw [if_neg hc] at h
    exact h

/-- Only the header values HS256, HS384 and HS512 name an HMAC method. -/
theorem GetSigningMethod_isHMAC (alg : String) (m : SigningMethod)
    (h : GetSigningMethod alg = some m) (hm : m.isHMAC = true) :
    alg = "HS256" ∨ alg = "HS384" ∨ alg = "HS512" := by
  unfold GetSigningMethod at h
  by_cases h1 : alg = "HS256"
  · exact Or.inl h1
  · by_cases h2 : alg = "HS384"
    · exact Or.inr (Or.inl h2)
    · by_cases h3 : alg = "HS512"
      · exact Or.inr (Or.inr h3)
      · exfalso
        rw [if_neg h1, if_neg h2, if_neg h3] at h
        have h := ite_some_isHMAC h hm rfl
        have h := ite_some_isHMAC h hm rfl
        have h := ite_some_isHMAC h hm rfl
        have h := ite_some_isHMAC h hm rfl
        have h := ite_some_isHMAC h hm rfl
        have h := ite_some_isHMAC h hm rfl
        have h := ite_some_isHMAC h hm rfl
        have h := ite_some_isHMAC h hm rfl
        have h := ite_some_isHMAC h hm rfl
        have h := ite_some_isHMAC h hm rfl
        have h := ite_some_isHMAC h hm rfl
        cases h

/-- C9 (counterexample): a token whose header asserts HS384, not the HS256 used at
minting, and whose signature is the HMAC-SHA384 of its text under the current secret, is
let through. -/
theorem AuthMiddleware_accepts_HS384 :
    depsC9.decode (extractToken (bearerRequest tokenHS384))
      = .decoded (some "HS384") [] "HS384." "mac:HS384:your-secret-key:HS384." ∧
    "HS384" ≠ "HS256" ∧
    handlerRuns (AuthMiddleware depsC9 sampleEnv 0 emptyDB (bearerRequest tokenHS384)) := by
  rw [extractToken_bearerRequest]
  exact ⟨by decide, by decide, some ⟨none, none⟩, by decide⟩

/-- C9 (as amended): `AuthMiddleware` rejects with 401 every token whose header asserts a
signing algorithm other than the HMAC methods HS256, HS384 and HS512, and every token
whose signature was made under a different secret (the MAC of the token text under that
key, differing from the MAC under the current secret), whatever the claims, the store
and the clock. -/
theorem AuthMiddleware_rejects_foreign (D : Deps) (env : Env) (now : Nat) (db : DB)
    (req : Request) (alg : Option String) (claims : MapClaims) (signingInput sig : String)
    (hdec : D.decode (extractToken req) = .decoded alg claims signingInput sig)
    (hforeign : (alg ≠ some "HS256" ∧ alg ≠ some "HS384" ∧ alg ≠ some "HS512") ∨
      ∃ m key, alg = some m.Alg ∧ sig = D.hmac m key signingInput ∧
        D.hmac m key signingInput ≠ D.hmac m (getJWTSecret env) signingInput) :
    ∃ resp, AuthMiddleware D env now db req = .abort resp ∧ resp.status = 401 := by
  rcases AuthMiddleware_cases D env now db req with ⟨claims1, -, -, hp, -⟩ | ⟨-, hres⟩
  · exfalso
    obtain ⟨alg1, si1, sig1, method, key, hdec1, hm, hk, hv, -⟩ :=
      (Parse_valid_iff D _ _ _ claims1).mp hp
    rw [hdec] at hdec1
    injection hdec1 with halg hcl hsi hsig
    subst halg hsi hsig
    unfold Verify at hv
    simp only [Bool.and_eq_true, decide_eq_true_eq] at hv
    obtain ⟨hmac, hsigeq⟩ := hv
    have hkey : key = getJWTSecret env := by
      unfold middlewareKeyFunc at hk
      rw [if_pos hmac] at hk
      injection hk with hk
      exact hk.symm
    subst hkey
    rcases hforeign with ⟨h1, h2, h3⟩ | ⟨m, key, halg, hs, hne⟩
    · rcases GetSigningMethod_isHMAC alg1 method hm hmac with h | h | h
      · exact h1 (by rw [h])
      · exact h2 (by rw [h])
      · exact h3 (by rw [h])
    · injection halg with halg
      subst halg
      rw [GetSigningMethod_Alg] at hm
      injection hm with hm
      subst hm
      exact hne (hs.symm.trans hsigeq)
  · exact hres

/-- C9 (witness): a token whose header says `none` is rejected. -/
theorem AuthMiddleware_rejects_foreign_witness :
    ∃ resp, AuthMiddleware depsC9 sampleEnv 0 emptyDB (bearerRequest tokenNone)
      = .abort resp ∧ resp.status = 401 :=
  AuthMiddleware_rejects_foreign depsC9 sampleEnv 0 emptyDB (bearerRequest tokenNone)
    (some "none") [] "none." ""
    (by rw [extractToken_bearerRequest]; decide)
    (Or.inl ⟨by decide, by decide, by decide⟩)

/-! ### `Logout` -/

theorem getJWTExpiresHours_ge (env : Env) : -(2 ^ 63 : Int) ≤ getJWTExpiresHours env := by
  unfold getJWTExpiresHours
  split
  · exact wrapInt64_ge _
  · split <;> exact wrapInt64_ge _

/-- The token pointer returned by `jwt.Parse` is nil exactly for a text that does not have
three segments. -/
theorem Parse_nil_iff (D : Deps) (keyFunc : SigningMethod → Option String) (now : Int)
    (tokenString : String) :
    (Parse D keyFunc now tokenString).1 = none ↔ D.decode tokenString = .wrongCount := by
  unfold Parse
  cases hdec : D.decode tokenString with
  | wrongCount => simp
  | malformed c => simp
  | decoded alg c signingInput sig =>
    cases alg with
    | none => simp
    | some a =>
      simp only [Option.some_bind]
      cases hm : GetSigningMethod a with
      | none => simp
      | some method =>
        cases hk : keyFunc method with
        | none => simp [hk]
        | some key =>
          by_cases hv : Verify D method signingInput sig key = true
          · by_cases hval : Validate now c = true
            · simp [hk, hv, hval]
            · simp [hk, hv, hval]
          · simp [hk, hv]

/-- With the key function of `Logout`, `jwt.Parse` reports a valid token exactly when the
token parses as valid in the sense of `parsesValid`. -/
theorem Parse_logout_valid_iff (D : Deps) (env : Env) (now : Nat) (tokenString : String)
    (claims : MapClaims) :
    Parse D (fun _ => some (getJWTSecret env)) now tokenString
        = (some ⟨some claims, true⟩, false) ↔
      parsesValid D env now tokenString claims := by
  rw [Parse_valid_iff]
  unfold parsesValid signatureVerifies
  constructor
  · rintro ⟨alg, signingInput, sig, method, key, hdec, hm, hk, hv, hval⟩
    injection hk with hk
    subst hk
    exact ⟨⟨_, _, _, hdec⟩, ⟨alg, claims, signingInput, sig, method, hdec, hm, hv⟩,
      (validate_iff _ _).mp hval⟩
  · rintro ⟨⟨alg0, si0, sig0, hdec0⟩, ⟨alg, claims1, signingInput, sig, method, hdec, hm, hv⟩,
      hforce⟩
    rw [hdec0] at hdec
    injection hdec with h1 h2 h3 h4
    subst h1 h2 h3 h4
    exact ⟨alg, si0, sig0, method, getJWTSecret env, hdec0, hm, rfl, hv,
      (validate_iff _ _).mpr hforce⟩

/-- The fallback expiry, for a clock reading that fits the `int64` nanoseconds of
`UnixNano`: now plus the lifetime in whole seconds, which is not the zero time. -/
theorem unixTime_fallback (env : Env) (now : Nat) (h : (now : Int) < 2 ^ 63) :
    unixTime (Unix ((now : Int) + getJWTExpiresHours env))
        = Unix ((now : Int) + getJWTExpiresHours env) * Second ∧
      Unix ((now : Int) + getJWTExpiresHours env) * Second ≠ zeroTime := by
  have h1 := getJWTExpiresHours_ge env
  have h2 : (0 : Int) ≤ (now : Int) := Int.ofNat_nonneg now
  have h3 := minted_exp_lt_timeLimit env now h
  have h4 : -(2 ^ 63 : Int) - unixToInternal ≤ Unix ((now : Int) + getJWTExpiresHours env) := by
    unfold Unix unixToInternal Second
    rw [Int.fdiv_eq_ediv _ (by norm_num)]
    omega
  refine ⟨unixTime_eq _ h4 h3, ?_⟩
  rw [zeroTime_eq]
  unfold Unix unixToInternal Second
  rw [Int.fdiv_eq_ediv _ (by norm_num)]
  omega

/-- The `exp` of a token whose dates are in force, when it is a number: its whole seconds
are what `Logout` stores, and they are not the zero time. -/
theorem unixTime_valid_exp (now : Nat) (claims : MapClaims) (e : ℚ)
    (hforce : claimsInForce now claims)
    (hexp : claims.lookup "exp" = some (.number e)) :
    unixTime (int64OfFloat e) = ⌊e⌋ * Second ∧ ⌊e⌋ * Second ≠ zeroTime := by
  have hz := zeroTime_neg
  rcases hforce.1 with h | h | ⟨e1, h, hafter⟩
  · rw [h] at hexp; cases hexp
  · rw [h] at hexp
    injection hexp with hexp
    injection hexp with hexp
    subst hexp
    rw [int64OfFloat_zero]
    have h0 : unixTime 0 = 0 := by decide
    rw [h0]
    simp only [Int.floor_zero, zero_mul]
    exact ⟨trivial, by omega⟩
  · rw [h] at hexp
    injection hexp with hexp
    injection hexp with hexp
    subst hexp
    obtain ⟨hfl, -, -, hunix⟩ := dateAfter_pos now e1 hafter
    refine ⟨hunix, ?_⟩
    have hS : Second = 1000000000 := rfl
    rw [hS]
    omega

/-- The expiry `Logout` computes: the whole seconds of the token's own `exp` when the
token parses as valid and the claim is a number, the fallback otherwise. -/
theorem blacklistExpiry_spec (D : Deps) (env : Env) (now : Nat) (tokenString : String)
    (token : Token)
    (hparse : (Parse D (fun _ => some (getJWTSecret env)) now tokenString).1 = some token) :
    (∀ claims e, parsesValid D env now tokenString claims →
      claims.lookup "exp" = some (.number e) →
      unixTime (AuthController.blacklistExpiry env now token) = ⌊e⌋ * Second ∧
      ⌊e⌋ * Second ≠ zeroTime) ∧
    ((¬ ∃ claims e, parsesValid D env now tokenString claims ∧
        claims.lookup "exp" = some (.number e)) →
      AuthController.blacklistExpiry env now token
        = Unix ((now : Int) + getJWTExpiresHours env)) := by
  rcases Parse_cases D (fun _ => some (getJWTSecret env)) now tokenString with
    ⟨claims, hp⟩ | hp | ⟨c, hp⟩
  · rw [hp] at hparse
    injection hparse with hparse
    subst hparse
    have hv := (Parse_logout_valid_iff D env now tokenString claims).mp hp
    have hclaims : ∀ claims1, parsesValid D env now tokenString claims1 → claims1 = claims := by
      intro claims1 h1
      obtain ⟨⟨a1, s1, g1, hd1⟩, -, -⟩ := h1
      obtain ⟨⟨a0, s0, g0, hd0⟩, -, -⟩ := hv
      rw [hd0] at hd1
      injection hd1 with _ h _ _
      exact h.symm
    cases hl : claims.lookup "exp" with
    | none =>
      refine ⟨?_, ?_⟩
      · intro claims1 e h1 h2
        rw [hclaims claims1 h1, hl] at h2
        cases h2
      · intro _
        simp [AuthController.blacklistExpiry, hl]
    | some v =>
      cases v with
      | number n =>
        refine ⟨?_, ?_⟩
        · intro claims1 e h1 h2
          rw [hclaims claims1 h1, hl] at h2
          injection h2 with h2
          injection h2 with h2
          subst h2
          have hE : AuthController.blacklistExpiry env now ⟨some claims, true⟩
              = int64OfFloat n := by
            simp [AuthController.blacklistExpiry, hl]
          rw [hE]
          exact unixTime_valid_exp now claims n hv.2.2 hl
        · intro hno
          exact absurd ⟨claims, n, hv, hl⟩ hno
      | string s =>
        refine ⟨?_, ?_⟩
        · intro claims1 e h1 h2
          rw [hclaims claims1 h1, hl] at h2
          injection h2 with h2
          cases h2
        · intro _
          simp [AuthController.blacklistExpiry, hl]
      | null =>
        refine ⟨?_, ?_⟩
        · intro claims1 e h1 h2
          rw [hclaims claims1 h1, hl] at h2
          injection h2 with h2
          cases h2
        · intro _
          simp [AuthController.blacklistExpiry, hl]
      | other raw =>
        refine ⟨?_, ?_⟩
        · intro claims1 e h1 h2
          rw [hclaims claims1 h1, hl] at h2
          injection h2 with h2
          cases h2
        · intro _
          simp [AuthController.blacklistExpiry, hl]
  · rw [hp] at hparse
    cases hparse
  · rw [hp] at hparse
    injection hparse with hparse
    subst hparse
    have hnot : ∀ claims, ¬ parsesValid D env now tokenString claims := by
      intro claims h
      have := (Parse_logout_valid_iff D env now tokenString claims).mpr h
      rw [hp] at this
      cases this
    have hfb : AuthController.blacklistExpiry env now ⟨c, false⟩
        = Unix ((now : Int) + getJWTExpiresHours env) := by
      unfold AuthController.blacklistExpiry
      cases c <;> simp
    refine ⟨?_, ?_⟩
    · intro claims e h _
      exact absurd h (hnot claims)
    · intro _
      exact hfb

theorem HasPrefix_ne_empty (s : String) (h : HasPrefix s "Bearer " = true) : s ≠ "" := by
  intro he
  subst he
  revert h
  decide


/-- A call that reaches the insert ends as the insert decides: 500 and the store as it
was when the insert fails; 200, the cleared cookie and the store after the insert and
the update (skipped when faulty) when it succeeds. -/
theorem Logout_reaches (F : Faults) (D : Deps) (env : Env) (now : Nat) (db : DB)
    (req : Request) (ctx : Option Context) (h : reachesInsert D req) :
    ∃ R token, req.refresh_token = some R ∧
      (Parse D (fun _ => some (getJWTSecret env)) now
        (TrimPrefix req.Authorization "Bearer ")).1 = some token ∧
      AuthController.Logout F D env now db req ctx
        = match (if F.insert then none
              else createBlacklistedToken db now
                (D.SHA256Hash (TrimPrefix req.Authorization "Bearer "))
                (unixTime (AuthController.blacklistExpiry env now token))) with
          | none =>
            (.responded (ResponseInternalServerError "Gagal menyimpan token ke blacklist"),
              db)
          | some db1 =>
            (.responded
              { status := 200, message := "Logout successful", token := none,
                username := ctx.bind (fun c => c.username),
                cookies := [clearedRefreshCookie] },
             if F.update then db1 else revokeRefreshToken db1 R now) := by
  obtain ⟨hhdr, ⟨R, hcookie, hR⟩, hseg⟩ := h
  have hne := HasPrefix_ne_empty _ hhdr
  cases hparse : (Parse D (fun _ => some (getJWTSecret env)) now
      (TrimPrefix req.Authorization "Bearer ")).1 with
  | none => exact absurd ((Parse_nil_iff D _ _ _).mp hparse) hseg
  | some token =>
    refine ⟨R, token, hcookie, rfl, ?_⟩
    unfold AuthController.Logout
    simp [hne, hhdr, hcookie, hR, hparse]

theorem insert_none_of_fails (F : Faults) (D : Deps) (db : DB) (req : Request) (now : Int)
    (expiresAt : Int) (h : insertFails F D db req) :
    (if F.insert then none
      else createBlacklistedToken db now
        (D.SHA256Hash (TrimPrefix req.Authorization "Bearer ")) expiresAt) = none := by
  rcases h with h | ⟨b, hb, hhash⟩
  · rw [if_pos h]
  · by_cases hF : F.insert = true
    · rw [if_pos hF]
    · rw [if_neg hF]
      unfold createBlacklistedToken
      rw [if_pos]
      simp only [List.any_eq_true, decide_eq_true_eq]
      exact ⟨b, hb, hhash⟩

theorem insert_some_of_not_fails (F : Faults) (D : Deps) (db : DB) (req : Request)
    (now : Int) (expiresAt : Int) (h : ¬ insertFails F D db req) :
    ∃ entry,
      (if F.insert then none
        else createBlacklistedToken db now
          (D.SHA256Hash (TrimPrefix req.Authorization "Bearer ")) expiresAt)
        = some { db with blacklisted_tokens := db.blacklisted_tokens ++ [entry] } ∧
      entry.TokenHash = D.SHA256Hash (TrimPrefix req.Authorization "Bearer ") := by
  have hF : ¬ F.insert = true := fun hF => h (Or.inl hF)
  have hnone : ¬ ∃ b ∈ db.blacklisted_tokens,
      b.TokenHash = D.SHA256Hash (TrimPrefix req.Authorization "Bearer ") :=
    fun hb => h (Or.inr hb)
  rw [if_neg hF]
  unfold createBlacklistedToken
  rw [if_neg]
  · exact ⟨_, rfl, rfl⟩
  · simp only [List.any_eq_true, decide_eq_true_eq]
    exact hnone

/-- The revocation update changes no row when no row holds the value unrevoked and
unexpired. -/
theorem revokeRefreshToken_noop (db : DB) (R : String) (now : Nat)
    (h : ¬ ∃ row ∈ db.refresh_tokens, usableRow R now row) :
    (revokeRefreshToken db R now).refresh_tokens = db.refresh_tokens := by
  unfold revokeRefreshToken
  simp only []
  conv_rhs => rw [← List.map_id db.refresh_tokens]
  apply List.map_congr_left
  intro r hr
  rw [if_neg]
  · rfl
  · intro hc
    exact h ⟨r, hr, hc⟩

theorem aliceLogout_reachesInsert : reachesInsert aliceDeps aliceLogout :=
  ⟨by decide, ⟨"r1", rfl, by decide⟩, by decide⟩

set_option maxRecDepth 100000 in
/-- A second `Logout` of the token of `alice`, whatever the faults and the time: the
entry of the first is in the way, the answer is 500 and the store stays as the first
left it. -/
theorem aliceLogout_twice (F : Faults) (t2 : Nat) :
    AuthController.Logout F aliceDeps sampleEnv t2
        (AuthController.Logout noFaults aliceDeps sampleEnv 1000000000 aliceLoggedIn
          aliceLogout none).2 aliceLogout none
      = (.responded (ResponseInternalServerError "Gagal menyimpan token ke blacklist"),
          (AuthController.Logout noFaults aliceDeps sampleEnv 1000000000 aliceLoggedIn
            aliceLogout none).2) := by
  obtain ⟨R, token, -, -, hL⟩ := Logout_reaches F aliceDeps sampleEnv t2
    (AuthController.Logout noFaults aliceDeps sampleEnv 1000000000 aliceLoggedIn aliceLogout
      none).2 aliceLogout none aliceLogout_reachesInsert
  rw [hL, insert_none_of_fails F aliceDeps _ aliceLogout t2 _
    (Or.inr (by with_unfolding_all decide))]

set_option maxRecDepth 100000 in
/-- C10 (counterexample): two `Logout` calls with a bearer-shaped header and a refresh
cookie that do not behave as claimed.  The token of `alice` decodes and claims `exp`
86400 s, yet a `Logout` after that instant stores the fallback expiry, now plus the
lifetime; and a second `Logout` of the same token inserts nothing: the insert fails on
the unique index, the response is 500 and the store is unchanged. -/
theorem Logout_blacklist_counterexample :
    (aliceDeps.decode aliceToken
        = .decoded (some "HS256") (accessClaims sampleEnv 0 alice)
            ("HS256." ++ sampleClaims (accessClaims sampleEnv 0 alice))
            ("mac:HS256:your-secret-key:HS256." ++
              sampleClaims (accessClaims sampleEnv 0 alice)) ∧
      (accessClaims sampleEnv 0 alice).lookup "exp" = some (.number 86400) ∧
      (AuthController.Logout noFaults aliceDeps sampleEnv 90000000000000 aliceLoggedIn
          aliceLogout none).1.status = some 200 ∧
      (AuthController.Logout noFaults aliceDeps sampleEnv 90000000000000 aliceLoggedIn
          aliceLogout none).2.blacklisted_tokens.map (fun b => b.ExpiresAt)
        = [176400 * Second]) ∧
    ((AuthController.Logout noFaults aliceDeps sampleEnv 2000000000
        (AuthController.Logout noFaults aliceDeps sampleEnv 1000000000 aliceLoggedIn
          aliceLogout none).2 aliceLogout none).1.status = some 500 ∧
      (AuthController.Logout noFaults aliceDeps sampleEnv 2000000000
        (AuthController.Logout noFaults aliceDeps sampleEnv 1000000000 aliceLoggedIn
          aliceLogout none).2 aliceLogout none).2
        = (AuthController.Logout noFaults aliceDeps sampleEnv 1000000000 aliceLoggedIn
          aliceLogout none).2) := by
  refine ⟨⟨by decide, by decide, by with_unfolding_all decide,
    by with_unfolding_all decide⟩, ?_, ?_⟩
  · rw [aliceLogout_twice]
    rfl
  · rw [aliceLogout_twice]

/-- C10 (as amended): for every `Logout` call with a bearer-shaped `Authorization` header
and a non-empty refresh cookie whose token text has three segments: when the insert
statement does not fail and no blacklist entry has the token's hash yet, `Logout`
responds 200 and appends exactly one entry, with `token_hash` the SHA-256 hash of the raw
token text and `expires_at` the whole seconds of the token's own `exp` when the token
parses as valid (signature and dates) and that claim is a number, and now plus the
configured lifetime, in whole seconds, in every other case, in particular when
validation fails (for a clock reading before the year 2262); when the insert statement
fails or an entry with that hash exists, `Logout` responds 500 and the store is
unchanged. -/
theorem Logout_blacklists (F : Faults) (D : Deps) (env : Env) (now : Nat) (db : DB)
    (req : Request) (ctx : Option Context) (R : String)
    (hhdr : HasPrefix req.Authorization "Bearer " = true)
    (hcookie : req.refresh_token = some R) (hR : R ≠ "")
    (hseg : D.decode (TrimPrefix req.Authorization "Bearer ") ≠ Segments.wrongCount) :
    ((F.insert = false ∧ ∀ b ∈ db.blacklisted_tokens,
        b.TokenHash ≠ D.SHA256Hash (TrimPrefix req.Authorization "Bearer ")) →
      ∃ entry,
        (AuthController.Logout F D env now db req ctx).1.status = some 200 ∧
        (AuthController.Logout F D env now db req ctx).2.blacklisted_tokens
          = db.blacklisted_tokens ++ [entry] ∧
        entry.TokenHash = D.SHA256Hash (TrimPrefix req.Authorization "Bearer ") ∧
        (∀ claims e,
          parsesValid D env now (TrimPrefix req.Authorization "Bearer ") claims →
          claims.lookup "exp" = some (.number e) → entry.ExpiresAt = ⌊e⌋ * Second) ∧
        ((¬ ∃ claims e,
            parsesValid D env now (TrimPrefix req.Authorization "Bearer ") claims ∧
            claims.lookup "exp" = some (.number e)) →
          (now : Int) < 2 ^ 63 →
          entry.ExpiresAt = Unix ((now : Int) + getJWTExpiresHours env) * Second)) ∧
    ((F.insert = true ∨ ∃ b ∈ db.blacklisted_tokens,
        b.TokenHash = D.SHA256Hash (TrimPrefix req.Authorization "Bearer ")) →
      (AuthController.Logout F D env now db req ctx).1.status = some 500 ∧
      (AuthController.Logout F D env now db req ctx).2 = db) := by
  obtain ⟨R1, token, hcookie1, hparse, hL⟩ :=
    Logout_reaches F D env now db req ctx ⟨hhdr, ⟨R, hcookie, hR⟩, hseg⟩
  obtain ⟨hown, hfall⟩ := blacklistExpiry_spec D env now _ token hparse
  constructor
  · rintro ⟨hF, hfresh⟩
    have hcreate : (if F.insert then none
        else createBlacklistedToken db now
          (D.SHA256Hash (TrimPrefix req.Authorization "Bearer "))
          (unixTime (AuthController.blacklistExpiry env now token)))
        = some { db with
            blacklisted_tokens := db.blacklisted_tokens ++
              [BeforeCreate now
                { ID := nextID (db.blacklisted_tokens.map (fun b => b.ID)),
                  TokenHash := D.SHA256Hash (TrimPrefix req.Authorization "Bearer "),
                  ExpiresAt := unixTime (AuthController.blacklistExpiry env now token),
                  CreatedAt := 0, UpdatedAt := 0 }] } := by
      rw [hF]
      simp only [Bool.false_eq_true, if_false]
      unfold createBlacklistedToken
      rw [if_neg]
      simp only [List.any_eq_true, decide_eq_true_eq, not_exists, not_and]
      exact hfresh
    rw [hL, hcreate]
    refine ⟨BeforeCreate now
      { ID := nextID (db.blacklisted_tokens.map (fun b => b.ID)),
        TokenHash := D.SHA256Hash (TrimPrefix req.Authorization "Bearer "),
        ExpiresAt := unixTime (AuthController.blacklistExpiry env now token),
        CreatedAt := 0, UpdatedAt := 0 }, rfl, ?_, rfl, ?_, ?_⟩
    · by_cases hu : F.update = true
      · simp [hu]
      · simp [hu, revokeRefreshToken]
    · intro claims e hv hexp
      obtain ⟨h1, h2⟩ := hown claims e hv hexp
      simp only [BeforeCreate]
      rw [h1, if_neg h2]
    · intro hno hclock
      obtain ⟨h1, h2⟩ := unixTime_fallback env now hclock
      simp only [BeforeCreate]
      rw [hfall hno, h1, if_neg h2]
  · intro hfail
    rw [hL, insert_none_of_fails F D db req now _ hfail]
    exact ⟨rfl, rfl⟩

set_option maxRecDepth 100000 in
/-- C10 (witness): the `Logout` of `alice` one second after her login. -/
theorem Logout_blacklists_witness :
    (AuthController.Logout noFaults aliceDeps sampleEnv 1000000000 aliceLoggedIn aliceLogout
      none).1.status = some 200 ∧
    ∃ entry,
      (AuthController.Logout noFaults aliceDeps sampleEnv 1000000000 aliceLoggedIn aliceLogout
        none).2.blacklisted_tokens = aliceLoggedIn.blacklisted_tokens ++ [entry] ∧
      entry.TokenHash = aliceDeps.SHA256Hash aliceToken ∧
      entry.ExpiresAt = 86400 * Second := by
  obtain ⟨entry, h200, hrows, hhash, hown, -⟩ :=
    (Logout_blacklists noFaults aliceDeps sampleEnv 1000000000 aliceLoggedIn aliceLogout none
      "r1" (by decide) rfl (by decide) (by decide)).1
      ⟨rfl, by
        intro b hb
        have hempty : aliceLoggedIn.blacklisted_tokens = [] := by decide
        rw [hempty] at hb
        cases hb⟩
  have htrim : TrimPrefix aliceLogout.Authorization "Bearer " = aliceToken :=
    TrimPrefix_append _ _
  rw [htrim] at hhash hown
  have hfloor : ⌊(86400 : ℚ)⌋ = 86400 := Int.floor_ofNat 86400
  refine ⟨h200, entry, hrows, hhash, ?_⟩
  rw [← hfloor]
  refine hown (accessClaims sampleEnv 0 alice) 86400 ?_ (by decide)
  refine ⟨⟨_, _, _, aliceDeps_codec alice (by simp [aliceDB])⟩,
    ⟨"HS256", _, _, _, .HS256, aliceDeps_codec alice (by simp [aliceDB]), by decide,
      by decide⟩, ?_⟩
  unfold claimsInForce
  refine ⟨Or.inr (Or.inr ⟨86400, by decide, ?_⟩), Or.inl (by decide)⟩
  unfold dateAfter
  rw [hfloor]
  decide

/-- A token text without three segments makes `jwt.Parse` return a nil token, which
`Logout` dereferences: the handler panics before it writes anything.  (Behind
`AuthMiddleware` such a text never reaches `Logout`: the middleware refuses it.) -/
theorem Logout_panics_on_nil_token (F : Faults) (D : Deps) (env : Env) (now : Nat)
    (db : DB) (req : Request) (ctx : Option Context) (R : String)
    (hhdr : HasPrefix req.Authorization "Bearer " = true)
    (hcookie : req.refresh_token = some R) (hR : R ≠ "")
    (hseg : D.decode (TrimPrefix req.Authorization "Bearer ") = Segments.wrongCount) :
    AuthController.Logout F D env now db req ctx = (.panicked, db) := by
  have hne := HasPrefix_ne_empty _ hhdr
  have hparse := (Parse_nil_iff D (fun _ => some (getJWTSecret env)) now _).mpr hseg
  unfold AuthController.Logout
  simp [hne, hhdr, hcookie, hR, hparse]

/-! ### `Logout` and the outcome of its two write statements -/

/-- C11: if the blacklist insert in `Logout` fails (the statement returns an error, or
the unique index refuses the row), `Logout` responds 500 and stops: the store is as it
was, so no refresh-token row is revoked, no cookie is set, so the refresh cookie is not
cleared, and the response is not a success. -/
theorem Logout_insert_failure (F : Faults) (D : Deps) (env : Env) (now : Nat) (db : DB)
    (req : Request) (ctx : Option Context) (hreach : reachesInsert D req)
    (hfail : insertFails F D db req) :
    ∃ resp, (AuthController.Logout F D env now db req ctx).1 = .responded resp ∧
      resp.status = 500 ∧ resp.cookies = [] ∧
      (AuthController.Logout F D env now db req ctx).2 = db ∧
      (AuthController.Logout F D env now db req ctx).2.refresh_tokens
        = db.refresh_tokens := by
  obtain ⟨R, token, -, -, hL⟩ := Logout_reaches F D env now db req ctx hreach
  rw [hL, insert_none_of_fails F D db req now _ hfail]
  exact ⟨_, rfl, rfl, rfl, rfl, rfl⟩

/-- C12: once the blacklist insert in `Logout` has succeeded, `Logout` responds 200 and
clears the `refresh_token` cookie (empty value, `MaxAge` -1) whatever becomes of the
revocation: when the cookie value matches no unrevoked, unexpired row, `refresh_tokens`
is left as it was and the response is the same success; when the update statement itself
fails, the response is still 200 (and `refresh_tokens` is as it was). -/
theorem Logout_after_insert (F : Faults) (D : Deps) (env : Env) (now : Nat) (db : DB)
    (req : Request) (ctx : Option Context) (hreach : reachesInsert D req)
    (hok : ¬ insertFails F D db req) :
    ∃ resp cookie,
      (AuthController.Logout F D env now db req ctx).1 = .responded resp ∧
      resp.status = 200 ∧ resp.cookies = [cookie] ∧
      cookie.Name = "refresh_token" ∧ cookie.Value = "" ∧ cookie.MaxAge = -1 ∧
      ((∀ R, req.refresh_token = some R →
          ¬ ∃ row ∈ db.refresh_tokens, usableRow R now row) →
        (AuthController.Logout F D env now db req ctx).2.refresh_tokens
          = db.refresh_tokens) ∧
      (F.update = true →
        (AuthController.Logout F D env now db req ctx).2.refresh_tokens
          = db.refresh_tokens) := by
  obtain ⟨R, token, hcookie, -, hL⟩ := Logout_reaches F D env now db req ctx hreach
  obtain ⟨entry, hins, -⟩ := insert_some_of_not_fails F D db req now
    (unixTime (AuthController.blacklistExpiry env now token)) hok
  rw [hL, hins]
  refine ⟨_, clearedRefreshCookie, rfl, rfl, rfl, rfl, rfl, rfl, ?_, ?_⟩
  · intro hno
    by_cases hu : F.update = true
    · simp [hu]
    · simp only [hu, if_false]
      exact revokeRefreshToken_noop _ R now (hno R hcookie)
  · intro hu
    simp [hu]

/-- C11 (witness): the second `Logout` of the token of `alice`, refused by the unique
index. -/
theorem Logout_insert_failure_witness :
    ∃ resp,
      (AuthController.Logout noFaults aliceDeps sampleEnv 2000000000
        (AuthController.Logout noFaults aliceDeps sampleEnv 1000000000 aliceLoggedIn
          aliceLogout none).2 aliceLogout none).1 = .responded resp ∧
      resp.status = 500 ∧ resp.cookies = [] ∧
      (AuthController.Logout noFaults aliceDeps sampleEnv 2000000000
        (AuthController.Logout noFaults aliceDeps sampleEnv 1000000000 aliceLoggedIn
          aliceLogout none).2 aliceLogout none).2
        = (AuthController.Logout noFaults aliceDeps sampleEnv 1000000000 aliceLoggedIn
          aliceLogout none).2 ∧
      (AuthController.Logout noFaults aliceDeps sampleEnv 2000000000
        (AuthController.Logout noFaults aliceDeps sampleEnv 1000000000 aliceLoggedIn
          aliceLogout none).2 aliceLogout none).2.refresh_tokens
        = (AuthController.Logout noFaults aliceDeps sampleEnv 1000000000 aliceLoggedIn
          aliceLogout none).2.refresh_tokens :=
  Logout_insert_failure noFaults aliceDeps sampleEnv 2000000000 _ aliceLogout none
    aliceLogout_reachesInsert (Or.inr (by with_unfolding_all decide))

/-- C12 (witness): the `Logout` of `alice` when the revocation update fails: 200, the
cookie cleared, the blacklist entry stored, her refresh-token row untouched. -/
theorem Logout_after_insert_witness :
    ∃ resp cookie,
      (AuthController.Logout { insert := false, update := true } aliceDeps sampleEnv
        1000000000 aliceLoggedIn aliceLogout none).1 = .responded resp ∧
      resp.status = 200 ∧ resp.cookies = [cookie] ∧
      cookie.Name = "refresh_token" ∧ cookie.Value = "" ∧ cookie.MaxAge = -1 ∧
      ((∀ R, aliceLogout.refresh_token = some R →
          ¬ ∃ row ∈ aliceLoggedIn.refresh_tokens, usableRow R 1000000000 row) →
        (AuthController.Logout { insert := false, update := true } aliceDeps sampleEnv
          1000000000 aliceLoggedIn aliceLogout none).2.refresh_tokens
          = aliceLoggedIn.refresh_tokens) ∧
      (({ insert := false, update := true } : Faults).update = true →
        (AuthController.Logout { insert := false, update := true } aliceDeps sampleEnv
          1000000000 aliceLoggedIn aliceLogout none).2.refresh_tokens
          = aliceLoggedIn.refresh_tokens) :=
  Logout_after_insert { insert := false, update := true } aliceDeps sampleEnv 1000000000
    aliceLoggedIn aliceLogout none aliceLogout_reachesInsert
    (by
      rintro (h | ⟨b, hb, -⟩)
      · cases h
      · have hempty : aliceLoggedIn.blacklisted_tokens = [] := by decide
        rw [hempty] at hb
        cases hb)

/-! ### Two logouts of the same access token -/

set_option maxRecDepth 100000 in
/-- C13 (counterexample): two `Logout` requests for the token of `alice` both pass
`AuthMiddleware` on the store as her login left it; the first `Logout` responds 200, the
second, whose insert meets the entry of the first, ends in the error response 500. -/
theorem duplicate_logout_counterexample :
    handlerRuns (AuthMiddleware aliceDeps sampleEnv 1000000000 aliceLoggedIn aliceLogout) ∧
    (AuthController.Logout noFaults aliceDeps sampleEnv 1000000000 aliceLoggedIn aliceLogout
      none).1.status = some 200 ∧
    (AuthController.Logout noFaults aliceDeps sampleEnv 1000000000
      (AuthController.Logout noFaults aliceDeps sampleEnv 1000000000 aliceLoggedIn
        aliceLogout none).2 aliceLogout none).1
      = .responded (ResponseInternalServerError "Gagal menyimpan token ke blacklist") :=
  ⟨⟨some ⟨some (.number 1), some (.string "alice")⟩, by with_unfolding_all decide⟩,
    by with_unfolding_all decide, by rw [aliceLogout_twice]⟩

/-- C13 (as amended): when a `Logout` of an access token has responded 200, a second
`Logout` request for the same token (same `Authorization` header), whether or not it
passed `AuthMiddleware` before the first inserted, does not crash but ends in an error:
on the store the first left, and on every store reached from it, its insert is refused by
the unique index, it responds 500 and changes nothing; `blacklisted_tokens` holds
exactly one entry with that fingerprint, before and after the second request.  This holds
whatever the faults of the write statements of the two calls. -/
theorem duplicate_logout (F1 F2 : Faults) (D : Deps) (env : Env) (t1 t2 : Nat) (db : DB)
    (req1 req2 : Request) (ctx1 ctx2 : Option Context)
    (hsame : req2.Authorization = req1.Authorization)
    (hcookie : ∃ R, req2.refresh_token = some R ∧ R ≠ "")
    (hfirst : (AuthController.Logout F1 D env t1 db req1 ctx1).1.status = some 200) :
    (∀ db2, Reachable D env (AuthController.Logout F1 D env t1 db req1 ctx1).2 db2 →
      AuthController.Logout F2 D env t2 db2 req2 ctx2
        = (.responded (ResponseInternalServerError "Gagal menyimpan token ke blacklist"),
            db2)) ∧
    ((AuthController.Logout F1 D env t1 db req1 ctx1).2.blacklisted_tokens.filter
      (fun b => decide (b.TokenHash
        = D.SHA256Hash (TrimPrefix req1.Authorization "Bearer ")))).length = 1 ∧
    ((AuthController.Logout F2 D env t2 (AuthController.Logout F1 D env t1 db req1 ctx1).2
        req2 ctx2).2.blacklisted_tokens.filter
      (fun b => decide (b.TokenHash
        = D.SHA256Hash (TrimPrefix req1.Authorization "Bearer ")))).length = 1 := by
  obtain ⟨R1, token, dbB, -, hhdr, -, -, hparse, -, hcreate, hstore⟩ :=
    Logout_ok F1 D env t1 db req1 ctx1 hfirst
  obtain ⟨hfresh, hdb⟩ := createBlacklistedToken_some _ _ _ _ _ hcreate
  have hseg : D.decode (TrimPrefix req1.Authorization "Bearer ") ≠ Segments.wrongCount := by
    intro h
    rw [(Parse_nil_iff D _ _ _).mpr h] at hparse
    cases hparse
  have hreach : reachesInsert D req2 := by
    unfold reachesInsert
    rw [hsame]
    exact ⟨hhdr, hcookie, hseg⟩
  have hrows : (AuthController.Logout F1 D env t1 db req1 ctx1).2.blacklisted_tokens
      = db.blacklisted_tokens ++
        [BeforeCreate t1
          { ID := nextID (db.blacklisted_tokens.map (fun b => b.ID)),
            TokenHash := D.SHA256Hash (TrimPrefix req1.Authorization "Bearer "),
            ExpiresAt := unixTime (AuthController.blacklistExpiry env t1 token),
            CreatedAt := 0, UpdatedAt := 0 }] := by
    rw [hstore, hdb]
    by_cases hu : F1.update = true
    · simp [hu]
    · simp [hu, revokeRefreshToken]
  have hsecond : ∀ db2,
      Reachable D env (AuthController.Logout F1 D env t1 db req1 ctx1).2 db2 →
      AuthController.Logout F2 D env t2 db2 req2 ctx2
        = (.responded (ResponseInternalServerError "Gagal menyimpan token ke blacklist"),
            db2) := by
    intro db2 hr
    have hmem := Reachable_blacklist D env _ db2 hr
      (BeforeCreate t1
          { ID := nextID (db.blacklisted_tokens.map (fun b => b.ID)),
            TokenHash := D.SHA256Hash (TrimPrefix req1.Authorization "Bearer "),
            ExpiresAt := unixTime (AuthController.blacklistExpiry env t1 token),
            CreatedAt := 0, UpdatedAt := 0 }) (by rw [hrows]; simp)
    have hfail : insertFails F2 D db2 req2 := by
      right
      rw [hsame]
      exact ⟨_, hmem, rfl⟩
    obtain ⟨R, token2, -, -, hL⟩ := Logout_reaches F2 D env t2 db2 req2 ctx2 hreach
    rw [hL, insert_none_of_fails F2 D db2 req2 t2 _ hfail]
  have hcount : ((AuthController.Logout F1 D env t1 db req1 ctx1).2.blacklisted_tokens.filter
      (fun b => decide (b.TokenHash
        = D.SHA256Hash (TrimPrefix req1.Authorization "Bearer ")))).length = 1 := by
    rw [hrows, List.filter_append]
    have hnil : db.blacklisted_tokens.filter
        (fun b => decide (b.TokenHash
          = D.SHA256Hash (TrimPrefix req1.Authorization "Bearer "))) = [] := by
      rw [List.filter_eq_nil_iff]
      intro b hb
      simpa using hfresh b hb
    rw [hnil]
    simp [BeforeCreate]
  refine ⟨hsecond, hcount, ?_⟩
  rw [hsecond _ Relation.ReflTransGen.refl]
  exact hcount

set_option maxRecDepth 100000 in
/-- C13 (witness): the two logouts of `alice`. -/
theorem duplicate_logout_witness :
    AuthController.Logout noFaults aliceDeps sampleEnv 2000000000
        (AuthController.Logout noFaults aliceDeps sampleEnv 1000000000 aliceLoggedIn
          aliceLogout none).2 aliceLogout none
      = (.responded (ResponseInternalServerError "Gagal menyimpan token ke blacklist"),
          (AuthController.Logout noFaults aliceDeps sampleEnv 1000000000 aliceLoggedIn
            aliceLogout none).2) ∧
    ((AuthController.Logout noFaults aliceDeps sampleEnv 1000000000 aliceLoggedIn aliceLogout
        none).2.blacklisted_tokens.filter
      (fun b => decide (b.TokenHash
        = aliceDeps.SHA256Hash (TrimPrefix aliceLogout.Authorization "Bearer ")))).length
      = 1 :=
  ⟨(duplicate_logout noFaults noFaults aliceDeps sampleEnv 1000000000 2000000000
      aliceLoggedIn aliceLogout aliceLogout none none rfl ⟨"r1", rfl, by decide⟩
      (by with_unfolding_all decide)).1 _ Relation.ReflTransGen.refl,
   (duplicate_logout noFaults noFaults aliceDeps sampleEnv 1000000000 2000000000
      aliceLoggedIn aliceLogout aliceLogout none none rfl ⟨"r1", rfl, by decide⟩
      (by with_unfolding_all decide)).2.1⟩

/-- C14: for every `Logout` call, with or without statement faults: a missing
`Authorization` header, or one that does not start with `Bearer `, is answered 401; a
bearer-shaped header with the `refresh_token` cookie missing or empty is answered 400; in
both cases the store is returned unchanged, so no blacklist entry is inserted and no
refresh token revoked. -/
theorem Logout_missing_input (F : Faults) (D : Deps) (env : Env) (now : Nat) (db : DB)
    (req : Request) (ctx : Option Context) :
    ((req.Authorization = "" ∨ HasPrefix req.Authorization "Bearer " = false) →
      (AuthController.Logout F D env now db req ctx).1.status = some 401 ∧
      (AuthController.Logout F D env now db req ctx).2 = db) ∧
    ((req.Authorization ≠ "" ∧ HasPrefix req.Authorization "Bearer " = true ∧
        (req.refresh_token = none ∨ req.refresh_token = some "")) →
      (AuthController.Logout F D env now db req ctx).1.status = some 400 ∧
      (AuthController.Logout F D env now db req ctx).2 = db) := by
  constructor
  · intro h
    have hU : AuthController.Logout F D env now db req ctx
        = (.responded
            (ResponseUnauthorized "Authorization header required (Bearer <token>)"), db) := by
      unfold AuthController.Logout
      exact if_pos h
    rw [hU]
    exact ⟨rfl, rfl⟩
  · rintro ⟨h1, h2, h3⟩
    have hn : ¬ (req.Authorization = "" ∨ HasPrefix req.Authorization "Bearer " = false) := by
      rintro (h | h)
      · exact h1 h
      · rw [h2] at h; cases h
    have hU : AuthController.Logout F D env now db req ctx
        = (.responded (ResponseBadRequest "refresh_token cookie required"), db) := by
      unfold AuthController.Logout
      rcases h3 with h3 | h3
      · simp [hn, h3]
      · simp [hn, h3]
    rw [hU]
    exact ⟨rfl, rfl⟩

/-! ### Header and cookie in `AuthMiddleware` -/

/-- The middleware's answer depends on the request only through the extracted token. -/
theorem AuthMiddleware_congr (D : Deps) (env : Env) (now : Nat) (db : DB)
    (req1 req2 : Request) (h : extractToken req1 = extractToken req2) :
    AuthMiddleware D env now db req1 = AuthMiddleware D env now db req2 := by
  unfold AuthMiddleware
  rw [h]

/-- The middleware refuses with "Token required" exactly when the extracted token is
empty. -/
theorem AuthMiddleware_tokenRequired_iff (D : Deps) (env : Env) (now : Nat) (db : DB)
    (req : Request) :
    AuthMiddleware D env now db req = .abort tokenRequired ↔ extractToken req = "" := by
  constructor
  · intro h
    by_contra htok
    unfold AuthMiddleware at h
    simp only [htok, if_false] at h
    cases hbl : findBlacklisted db (D.SHA256Hash (extractToken req)) now with
    | some b =>
      rw [hbl] at h
      simp only [] at h
      injection h with h
      revert h
      decide
    | none =>
      rw [hbl] at h
      simp only [] at h
      rcases Parse_cases D (middlewareKeyFunc env) now (extractToken req) with
        ⟨claims, hp⟩ | hp | ⟨c, hp⟩
      · rw [hp] at h
        simp at h
      · rw [hp] at h
        simp only [] at h
        injection h with h
        revert h
        decide
      · rw [hp] at h
        simp only [] at h
        injection h with h
        revert h
        decide
  · intro h
    unfold AuthMiddleware
    simp only [h, if_true]
    rfl

/-- A bearer-shaped header with nothing after the prefix is the bare prefix. -/
theorem bare_prefix_of_empty_rest (v : String) (hp : HasPrefix v "Bearer " = true)
    (he : TrimPrefix v "Bearer " = "") : v = "Bearer " := by
  unfold TrimPrefix at he
  rw [if_pos hp] at he
  unfold HasPrefix at hp
  rw [List.isPrefixOf_iff_prefix] at hp
  obtain ⟨rest, hrest⟩ := hp
  have hd : v.data.drop ("Bearer ").data.length = rest := by
    rw [← hrest, List.drop_left]
  have hnil : rest = [] := by
    have h1 := congrArg String.data he
    simp only [hd] at h1
    exact h1
  rw [hnil, List.append_nil] at hrest
  exact String.ext hrest.symm

/-- A header value that `net/http` delivers is not the bare prefix `Bearer `. -/
theorem delivered_ne_bare_prefix (v : String) (h : delivered v) : v ≠ "Bearer " := by
  intro he
  subst he
  exact h (by decide)

/-- The header value `Bearer `, the prefix with nothing after it, makes the middleware
answer "Token required" whatever the `admin_token` cookie holds: the cookie is read only
when the header is not bearer-shaped.  (`net/http` strips the trailing blank of a header
value, so a handler behind it is not handed this value.) -/
theorem AuthMiddleware_bare_prefix (D : Deps) (env : Env) (now : Nat) (db : DB)
    (req : Request) (h : req.Authorization = "Bearer ") :
    AuthMiddleware D env now db req = .abort tokenRequired := by
  have htok : extractToken req = "" := by
    unfold extractToken
    rw [h, if_pos (by decide)]
    decide
  unfold AuthMiddleware
  simp only [htok, if_true]
  rfl

/-- C15: `AuthMiddleware` takes the token from the `Authorization` header when it carries
a bearer token and otherwise falls back to the `admin_token` cookie.  For every request
whose header is not the bare prefix `Bearer ` (a value `net/http` does not deliver: it
strips the blanks around a header value): a bearer-shaped header supplies the token, the
text after the prefix, which is not empty; when the header yields no token and the cookie
holds a non-empty token, authentication proceeds with the cookie's token, exactly as for
any request presenting that token; and the request is rejected as "Token required" (401)
exactly when the header yields no token and the cookie is missing or empty. -/
theorem AuthMiddleware_token_source (D : Deps) (env : Env) (now : Nat) (db : DB)
    (req : Request) (hwire : req.Authorization ≠ "Bearer ") :
    (bearerShaped req →
      extractToken req = TrimPrefix req.Authorization "Bearer " ∧ extractToken req ≠ "") ∧
    (headerYieldsNoToken req → ∀ t, req.admin_token = some t → t ≠ "" →
      extractToken req = t ∧
      ∀ req2, extractToken req2 = t →
        AuthMiddleware D env now db req = AuthMiddleware D env now db req2) ∧
    (AuthMiddleware D env now db req = .abort tokenRequired ↔
      headerYieldsNoToken req ∧ (req.admin_token = none ∨ req.admin_token = some "")) ∧
    tokenRequired.status = 401 := by
  have hrest : bearerShaped req → TrimPrefix req.Authorization "Bearer " ≠ "" :=
    fun hb he => hwire (bare_prefix_of_empty_rest _ hb.2 he)
  have hyield : headerYieldsNoToken req ↔ ¬ bearerShaped req := by
    unfold headerYieldsNoToken
    constructor
    · rintro (h | h)
      · exact h
      · exact fun hb => hrest hb h
    · exact fun h => Or.inl h
  have hheader : bearerShaped req →
      extractToken req = TrimPrefix req.Authorization "Bearer " := by
    intro hb
    unfold extractToken
    unfold bearerShaped at hb
    rw [if_pos hb]
  have hcookie : ¬ bearerShaped req → ∀ t, req.admin_token = some t → t ≠ "" →
      extractToken req = t := by
    intro hb t ht hne
    unfold extractToken
    unfold bearerShaped at hb
    rw [if_neg hb, ht]
    simp [hne]
  refine ⟨?_, ?_, ?_, rfl⟩
  · intro hb
    exact ⟨hheader hb, by rw [hheader hb]; exact hrest hb⟩
  · intro hy t ht hne
    have hb := hyield.mp hy
    refine ⟨hcookie hb t ht hne, ?_⟩
    intro req2 h2
    exact AuthMiddleware_congr D env now db req req2 ((hcookie hb t ht hne).trans h2.symm)
  · rw [AuthMiddleware_tokenRequired_iff, hyield]
    by_cases hb : bearerShaped req
    · constructor
      · intro h
        rw [hheader hb] at h
        exact absurd h (hrest hb)
      · rintro ⟨hn, -⟩
        exact absurd hb hn
    · unfold extractToken
      unfold bearerShaped at hb
      rw [if_neg hb]
      cases hc : req.admin_token with
      | none =>
        simp only []
        constructor
        · intro _; exact ⟨hb, Or.inl trivial⟩
        · intro _; trivial
      | some t =>
        by_cases ht : t = ""
        · subst ht
          simp only []
          constructor
          · intro _; exact ⟨hb, Or.inr trivial⟩
          · intro _; simp
        · simp only []
          constructor
          · intro h
            simp [ht] at h
          · rintro ⟨-, h | h⟩
            · cases h
            · injection h with h
              exact absurd h ht

/-- C15 (witness): a request without `Authorization` header whose cookie holds the token
of `alice` is treated as the request that presents her token as bearer. -/
theorem AuthMiddleware_token_source_witness :
    cookieOnlyRequest.Authorization ≠ "Bearer " ∧
    extractToken cookieOnlyRequest = aliceToken ∧
    AuthMiddleware aliceDeps sampleEnv 5000000000 aliceDB cookieOnlyRequest
      = AuthMiddleware aliceDeps sampleEnv 5000000000 aliceDB (bearerRequest aliceToken) :=
  ⟨by decide,
   ((AuthMiddleware_token_source aliceDeps sampleEnv 5000000000 aliceDB cookieOnlyRequest
      (by decide)).2.1 (Or.inl (by unfold bearerShaped; decide)) aliceToken rfl (by decide)).1,
   ((AuthMiddleware_token_source aliceDeps sampleEnv 5000000000 aliceDB cookieOnlyRequest
      (by decide)).2.1 (Or.inl (by unfold bearerShaped; decide)) aliceToken rfl (by decide)).2
      (bearerRequest aliceToken) (extractToken_bearerRequest aliceToken)⟩

/-! ### `getJWTExpiresHours` -/

/-- C16 (counterexample): `JWT_EXPIRES_HOURS=2562048` parses as the integer 2562048, but
the returned duration is not 2562048 hours: the product with `time.Hour` exceeds the
`int64` range of `time.Duration` and wraps to a negative duration. -/
theorem getJWTExpiresHours_counterexample :
    Atoi longLifetimeEnv.JWT_EXPIRES_HOURS = some 2562048 ∧
    getJWTExpiresHours longLifetimeEnv = -9223371273709551616 ∧
    getJWTExpiresHours longLifetimeEnv ≠ 2562048 * Hour := by
  refine ⟨by decide, by decide, by decide⟩

/-- C16 (as amended): `getJWTExpiresHours` returns exactly 24 hours when
`JWT_EXPIRES_HOURS` is unset, empty or not parsable as an integer, and for every value
that parses as an integer `h` of at most 2562047 hours in absolute value, the most a
`time.Duration` holds, it returns a duration of exactly `h` hours; for any `h` it
returns `h` hours wrapped into the `int64` range. -/
theorem getJWTExpiresHours_spec (env : Env) :
    ((env.JWT_EXPIRES_HOURS = "" ∨ Atoi env.JWT_EXPIRES_HOURS = none) →
      getJWTExpiresHours env = 24 * Hour) ∧
    (∀ h, Atoi env.JWT_EXPIRES_HOURS = some h →
      getJWTExpiresHours env = wrapInt64 (h * Hour) ∧
      (-maxDurationHours ≤ h → h ≤ maxDurationHours →
        getJWTExpiresHours env = h * Hour)) := by
  have h24 : wrapInt64 (Hour * 24) = 24 * Hour := by decide
  have hempty : Atoi "" = none := by decide
  constructor
  · rintro (h | h)
    · unfold getJWTExpiresHours
      rw [if_pos h, h24]
    · unfold getJWTExpiresHours
      split
      · exact h24
      · rw [h]
        exact h24
  · intro h hparse
    have hne : env.JWT_EXPIRES_HOURS ≠ "" := by
      intro he
      rw [he, hempty] at hparse
      cases hparse
    have hval : getJWTExpiresHours env = wrapInt64 (h * Hour) := by
      unfold getJWTExpiresHours
      rw [if_neg hne, hparse]
      simp only []
      rw [mul_comm]
    refine ⟨hval, ?_⟩
    intro hlo hhi
    rw [hval]
    apply wrapInt64_eq
    · unfold maxDurationHours at hlo
      unfold Hour Second
      omega
    · unfold maxDurationHours at hhi
      unfold Hour Second
      omega

/-! ### The revocation ledger only grows -/

theorem ledgerGrows_of_eq (call : Call) (now : Nat) (db db2 : DB)
    (hb : db2.blacklisted_tokens = db.blacklisted_tokens)
    (hr : db2.refresh_tokens = db.refresh_tokens) : ledgerGrows call now db db2 := by
  refine ⟨⟨[], by simp [hb]⟩, db.refresh_tokens, [], by simp [hr], ?_⟩
  rw [List.forall₂_same]
  intro r _
  exact Or.inl rfl

theorem ledgerGrows_refl (call : Call) (now : Nat) (db : DB) : ledgerGrows call now db db :=
  ledgerGrows_of_eq call now db db rfl rfl

/-- The revocation update keeps every row in the sense of `rowKept`. -/
theorem revokeRefreshToken_rowKept (F : Faults) (req : Request) (ctx : Option Context)
    (now : Nat) (db : DB) (R : String) (hR : req.refresh_token = some R) :
    List.Forall₂ (rowKept (.logout F req ctx) now) db.refresh_tokens
      (revokeRefreshToken db R now).refresh_tokens := by
  unfold revokeRefreshToken
  simp only []
  rw [List.forall₂_map_right_iff, List.forall₂_same]
  intro r _
  by_cases hc : r.Token = R ∧ r.Revoked = false ∧ r.ExpiresAt > (now : Int)
  · rw [if_pos hc]
    right
    exact ⟨F, req, ctx, rfl, by rw [hR, hc.1], hc.2.1, rfl⟩
  · rw [if_neg hc]
    exact Or.inl rfl

/-- What `rowKept` allows: key, owner, token and expiry stay, and a revoked row stays as
it is. -/
theorem rowKept_fields (call : Call) (now : Nat) (r r2 : RefreshToken)
    (h : rowKept call now r r2) :
    r2.ID = r.ID ∧ r2.UserID = r.UserID ∧ r2.Token = r.Token ∧ r2.ExpiresAt = r.ExpiresAt ∧
    r2.CreatedAt = r.CreatedAt ∧ (r.Revoked = true → r2 = r) ∧
    (r2.Revoked = false → r.Revoked = false) := by
  rcases h with h | ⟨F, req, ctx, -, -, hrev, h⟩
  · subst h
    exact ⟨rfl, rfl, rfl, rfl, rfl, fun _ => rfl, fun h => h⟩
  · subst h
    refine ⟨rfl, rfl, rfl, rfl, rfl, ?_, ?_⟩
    · intro h1
      rw [hrev] at h1
      cases h1
    · intro h1
      cases h1

/-- C17: the revocation ledger only grows.  For every handler (`Login`, `RefreshToken`,
`Logout` with or without statement faults, `AuthMiddleware`, `GetProfile`,
`GetUserById` and the six participant handlers) and every input: the blacklist entries
present before the call are present, unmodified and in place after it; no
`refresh_tokens` row is deleted and none has its `revoked` flag cleared; the only change
made to an existing row is by `Logout`, on a row whose token is the supplied cookie
value: `revoked` set to true (the same statement stamping `updated_at`). -/
theorem ledger_only_grows (D : Deps) (parseDate : String → Option Int) (env : Env)
    (now : Nat) (db : DB) (call : Call) :
    ledgerGrows call now db (storeAfter D parseDate env now db call) ∧
    (∀ b ∈ db.blacklisted_tokens,
      b ∈ (storeAfter D parseDate env now db call).blacklisted_tokens) ∧
    db.refresh_tokens.length ≤ (storeAfter D parseDate env now db call).refresh_tokens.length ∧
    (∀ r r2, rowKept call now r r2 →
      r2.ID = r.ID ∧ r2.UserID = r.UserID ∧ r2.Token = r.Token ∧
      r2.ExpiresAt = r.ExpiresAt ∧ r2.CreatedAt = r.CreatedAt ∧
      (r.Revoked = true → r2 = r) ∧ (r2.Revoked = false → r.Revoked = false)) := by
  have hmain : ledgerGrows call now db (storeAfter D parseDate env now db call) := by
    cases call with
    | login rand req =>
      simp only [storeAfter]
      rcases Login_store D env now rand db req with h | ⟨userID, token, h⟩
      · rw [h]; exact ledgerGrows_refl _ _ _
      · rw [(createRefreshToken_some _ _ _ _ _ _ _ h).2]
        refine ⟨⟨[], by simp⟩, db.refresh_tokens, _, rfl, ?_⟩
        rw [List.forall₂_same]
        intro r _
        exact Or.inl rfl
    | refreshToken req =>
      simp only [storeAfter]
      rw [RefreshToken_store]
      exact ledgerGrows_refl _ _ _
    | logout F req ctx =>
      simp only [storeAfter]
      rcases Logout_store F D env now db req ctx with h | ⟨R, entry, hR, h | h⟩
      · rw [h]; exact ledgerGrows_refl _ _ _
      · rw [h]
        refine ⟨⟨[entry], rfl⟩, db.refresh_tokens, [], by simp, ?_⟩
        rw [List.forall₂_same]
        intro r _
        exact Or.inl rfl
      · rw [h]
        refine ⟨⟨[entry], rfl⟩, _, [], (List.append_nil _).symm, ?_⟩
        exact revokeRefreshToken_rowKept F req ctx now
          { db with blacklisted_tokens := db.blacklisted_tokens ++ [entry] } R hR
    | authMiddleware req => exact ledgerGrows_refl _ _ _
    | getProfile ctx =>
      apply ledgerGrows_of_eq <;>
        (simp only [storeAfter, AuthController.GetProfile]; repeat' split) <;> rfl
    | getUserById id =>
      apply ledgerGrows_of_eq <;>
        (simp only [storeAfter, AuthController.GetUserById]; repeat' split) <;> rfl
    | createParticipant uuid body =>
      apply ledgerGrows_of_eq <;>
        (simp only [storeAfter, ParticipantController.CreateParticipant]; repeat' split) <;>
        rfl
    | getAllParticipants q => exact ledgerGrows_refl _ _ _
    | getParticipant id =>
      apply ledgerGrows_of_eq <;>
        (simp only [storeAfter, ParticipantController.GetParticipant]; repeat' split) <;> rfl
    | updateParticipant id body =>
      apply ledgerGrows_of_eq <;>
        (simp only [storeAfter, ParticipantController.UpdateParticipant]; repeat' split) <;>
        rfl
    | deleteParticipant id =>
      apply ledgerGrows_of_eq <;>
        (simp only [storeAfter, ParticipantController.DeleteParticipant]; repeat' split) <;>
        rfl
    | countParticipant => exact ledgerGrows_refl _ _ _
  refine ⟨hmain, ?_, ?_, fun r r2 h => rowKept_fields call now r r2 h⟩
  · obtain ⟨⟨added, hadd⟩, -⟩ := hmain
    intro b hb
    rw [hadd]
    exact List.mem_append_left _ hb
  · obtain ⟨-, kept, added, hrows, hforall⟩ := hmain
    rw [hrows, List.length_append, ← hforall.length_eq]
    omega

/-! ### The query of `GetAllParticipants` -/

theorem listPlan_limitInt (q : ListQuery) :
    (ParticipantController.listPlan q).limitInt
      = match Atoi (DefaultQuery q.limit "10") with
        | some l => if l > 0 ∧ l ≤ 100 then l else 10
        | none => 10 := rfl

theorem listPlan_pageInt (q : ListQuery) :
    (ParticipantController.listPlan q).pageInt
      = match Atoi (DefaultQuery q.page "1") with
        | some p => if p > 0 then p else 1
        | none => 1 := rfl

theorem listPlan_offset (q : ListQuery) :
    (ParticipantController.listPlan q).offset
      = wrapInt64 (((ParticipantController.listPlan q).pageInt - 1)
          * (ParticipantController.listPlan q).limitInt) := rfl

theorem listPlan_sortBy (q : ListQuery) :
    (ParticipantController.listPlan q).sortBy
      = if DefaultQuery q.sort_by "created_at" ∈ validSortFields then
          DefaultQuery q.sort_by "created_at"
        else "created_at" := rfl

theorem listPlan_sortOrder (q : ListQuery) :
    (ParticipantController.listPlan q).sortOrder
      = if DefaultQuery q.sort_order "desc" ∈ validSortOrders then
          DefaultQuery q.sort_order "desc"
        else "desc" := rfl

theorem listPlan_orderClause (q : ListQuery) :
    (ParticipantController.listPlan q).orderClause
      = (ParticipantController.listPlan q).sortBy ++ " "
          ++ (ParticipantController.listPlan q).sortOrder := rfl

theorem listPlan_limit_bounds (q : ListQuery) :
    1 ≤ (ParticipantController.listPlan q).limitInt ∧
    (ParticipantController.listPlan q).limitInt ≤ 100 := by
  rw [listPlan_limitInt]
  cases Atoi (DefaultQuery q.limit "10") with
  | none => simp
  | some l =>
    simp only []
    by_cases h : l > 0 ∧ l ≤ 100
    · rw [if_pos h]; omega
    · rw [if_neg h]; simp

theorem listPlan_page_bound (q : ListQuery) :
    1 ≤ (ParticipantController.listPlan q).pageInt := by
  rw [listPlan_pageInt]
  cases Atoi (DefaultQuery q.page "1") with
  | none => simp
  | some p =>
    simp only []
    by_cases h : p > 0
    · rw [if_pos h]; omega
    · rw [if_neg h]

theorem listPlan_sortBy_mem (q : ListQuery) :
    (ParticipantController.listPlan q).sortBy ∈ validSortFields := by
  rw [listPlan_sortBy]
  by_cases h : DefaultQuery q.sort_by "created_at" ∈ validSortFields
  · rw [if_pos h]; exact h
  · rw [if_neg h]; decide

theorem listPlan_sortOrder_mem (q : ListQuery) :
    (ParticipantController.listPlan q).sortOrder ∈ validSortOrders := by
  rw [listPlan_sortOrder]
  by_cases h : DefaultQuery q.sort_order "desc" ∈ validSortOrders
  · rw [if_pos h]; exact h
  · rw [if_neg h]; decide

/-- C18 (counterexample): for `page=92233720368547760` and `limit=100` the offset handed
to the query is negative and is not `(page - 1) * limit`: the product leaves the `int64`
range and wraps. -/
theorem GetAllParticipants_offset_counterexample :
    (ParticipantController.GetAllParticipants emptyDB farPageQuery).1.1.pageInt
      = 92233720368547760 ∧
    (ParticipantController.GetAllParticipants emptyDB farPageQuery).1.1.limitInt = 100 ∧
    (ParticipantController.GetAllParticipants emptyDB farPageQuery).1.1.offset
      = -9223372036854775716 ∧
    (ParticipantController.GetAllParticipants emptyDB farPageQuery).1.1.offset < 0 ∧
    (ParticipantController.GetAllParticipants emptyDB farPageQuery).1.1.offset
      ≠ (92233720368547760 - 1) * 100 := by
  refine ⟨by decide, by decide, by decide, by decide, by decide⟩

/-- C18 (as amended): for every combination of the `page`, `limit`, `sort_by` and
`sort_order` query strings, `GetAllParticipants` builds its query with a limit in
1..100 (10 when the parameter is absent, non-numeric or out of range), a page of at
least 1, an offset equal to `(page - 1) * limit` wrapped into the `int64` range, which is
`(page - 1) * limit` itself and non-negative whenever that product is below `2^63`, and
an `ORDER BY` clause that is one of the 10 whitelisted column names followed by `asc` or
`desc` (`created_at desc` by default), so that no caller-supplied text other than a
whitelisted value reaches the order clause. -/
theorem GetAllParticipants_query (db : DB) (q : ListQuery) :
    (1 ≤ (ParticipantController.GetAllParticipants db q).1.1.limitInt ∧
      (ParticipantController.GetAllParticipants db q).1.1.limitInt ≤ 100) ∧
    ((q.limit = none ∨ (∃ s, q.limit = some s ∧ Atoi s = none) ∨
        (∃ s l, q.limit = some s ∧ Atoi s = some l ∧ (l < 1 ∨ 100 < l))) →
      (ParticipantController.GetAllParticipants db q).1.1.limitInt = 10) ∧
    (∀ s l, q.limit = some s → Atoi s = some l → 1 ≤ l → l ≤ 100 →
      (ParticipantController.GetAllParticipants db q).1.1.limitInt = l) ∧
    1 ≤ (ParticipantController.GetAllParticipants db q).1.1.pageInt ∧
    (ParticipantController.GetAllParticipants db q).1.1.offset
      = wrapInt64 (((ParticipantController.GetAllParticipants db q).1.1.pageInt - 1)
          * (ParticipantController.GetAllParticipants db q).1.1.limitInt) ∧
    (((ParticipantController.GetAllParticipants db q).1.1.pageInt - 1)
        * (ParticipantController.GetAllParticipants db q).1.1.limitInt < 2 ^ 63 →
      (ParticipantController.GetAllParticipants db q).1.1.offset
        = ((ParticipantController.GetAllParticipants db q).1.1.pageInt - 1)
            * (ParticipantController.GetAllParticipants db q).1.1.limitInt ∧
      0 ≤ (ParticipantController.GetAllParticipants db q).1.1.offset) ∧
    (∃ field ∈ validSortFields, ∃ order ∈ validSortOrders,
      (ParticipantController.GetAllParticipants db q).1.1.orderClause
        = field ++ " " ++ order ∧
      (∀ s, q.sort_by = some s → s ∈ validSortFields → field = s) ∧
      ((q.sort_by = none ∨ ∃ s, q.sort_by = some s ∧ s ∉ validSortFields) →
        field = "created_at") ∧
      (∀ s, q.sort_order = some s → s ∈ validSortOrders → order = s) ∧
      ((q.sort_order = none ∨ ∃ s, q.sort_order = some s ∧ s ∉ validSortOrders) →
        order = "desc")) ∧
    validSortFields.length = 10 ∧
    (ParticipantController.GetAllParticipants db q).2 = db := by
  have hP : (ParticipantController.GetAllParticipants db q).1.1
      = ParticipantController.listPlan q := rfl
  rw [hP]
  have hlim := listPlan_limit_bounds q
  have hpage := listPlan_page_bound q
  refine ⟨hlim, ?_, ?_, hpage, listPlan_offset q, ?_, ?_, by decide, rfl⟩
  · rintro (h | ⟨s, hs, h⟩ | ⟨s, l, hs, h, hl⟩)
    · rw [listPlan_limitInt, h]
      decide
    · rw [listPlan_limitInt, hs]
      simp only [DefaultQuery, h]
    · rw [listPlan_limitInt, hs]
      simp only [DefaultQuery, h]
      rw [if_neg]
      omega
  · intro s l hs h h1 h2
    rw [listPlan_limitInt, hs]
    simp only [DefaultQuery, h]
    rw [if_pos]
    omega
  · intro hlt
    have hnn : 0 ≤ ((ParticipantController.listPlan q).pageInt - 1)
        * (ParticipantController.listPlan q).limitInt :=
      Int.mul_nonneg (by omega) (by omega)
    rw [listPlan_offset, wrapInt64_eq _ (by omega) hlt]
    exact ⟨rfl, hnn⟩
  · refine ⟨_, listPlan_sortBy_mem q, _, listPlan_sortOrder_mem q, listPlan_orderClause q,
      ?_, ?_, ?_, ?_⟩
    · intro s hs hmem
      rw [listPlan_sortBy, hs]
      simp only [DefaultQuery]
      rw [if_pos hmem]
    · rintro (h | ⟨s, hs, hmem⟩)
      · rw [listPlan_sortBy, h]
        decide
      · rw [listPlan_sortBy, hs]
        simp only [DefaultQuery]
        rw [if_neg hmem]
    · intro s hs hmem
      rw [listPlan_sortOrder, hs]
      simp only [DefaultQuery]
      rw [if_pos hmem]
    · rintro (h | ⟨s, hs, hmem⟩)
      · rw [listPlan_sortOrder, h]
        decide
      · rw [listPlan_sortOrder, hs]
        simp only [DefaultQuery]
        rw [if_neg hmem]



end CollegeBackend
